import Mathlib

/-!
Shallow embedding of the ApiTestingG backend core
(src/backend/src/services/runner.service.js, src/services/nvidia.service.js,
src/backend/src/utils/resolveUrl.js, src/backend/src/utils/cache.js).

JavaScript dynamic values are modelled by the inductive `Json` below;
machine numbers that matter to the claims (HTTP status codes) are `Int`.
Network calls, the generative-model call and the AJV validator are external
collaborators and are passed in as explicit oracle functions; the functions
of the repository are translated into total Lean functions over those
oracles.
-/

/- ---------------------------------------------------------------
   Character / string helpers (ASCII case mapping, substring search)
----------------------------------------------------------------- -/

def lbrace : Char := Char.ofNat 123
def rbrace : Char := Char.ofNat 125
def backtickChar : Char := Char.ofNat 96

def asciiLowerChar (c : Char) : Char :=
  if 'A' ≤ c ∧ c ≤ 'Z' then Char.ofNat (c.toNat + 32) else c

def asciiUpperChar (c : Char) : Char :=
  if 'a' ≤ c ∧ c ≤ 'z' then Char.ofNat (c.toNat - 32) else c

/-- JS `String.prototype.toLowerCase` restricted to ASCII, which is all the
repository compares (category names, descriptions, header names). -/
def strLower (s : String) : String := ⟨s.data.map asciiLowerChar⟩

def strUpper (s : String) : String := ⟨s.data.map asciiUpperChar⟩

/-- Is `pat` a (contiguous) sublist of `s`?  Used to model JS
`String.prototype.includes`. -/
def listSub [DecidableEq α] (pat s : List α) : Bool :=
  match s with
  | [] => pat.isEmpty
  | _ :: tl => pat.isPrefixOf s || listSub pat tl

/-- JS `s.includes(pat)`. -/
def strIncludes (s pat : String) : Bool := listSub pat.data s.data

/-- First occurrence split: `splitAtFirst c cs = some (before, after)` where
`cs = before ++ [c] ++ after` and `c ∉ before`. -/
def splitAtFirst (c : Char) : List Char → Option (List Char × List Char)
  | [] => none
  | x :: xs =>
    if x = c then some ([], xs)
    else match splitAtFirst c xs with
      | some (b, a) => some (x :: b, a)
      | none => none

/-- Decimal digits of a natural number, most significant first
(fuel-indexed; `n + 1` fuel always suffices). -/
def natDigitsAux : Nat → Nat → List Char
  | 0, _ => []
  | Nat.succ fuel, n =>
    if n < 10 then [Char.ofNat (48 + n)]
    else natDigitsAux fuel (n / 10) ++ [Char.ofNat (48 + n % 10)]

def natDigits (n : Nat) : List Char := natDigitsAux (n + 1) n

/-- Canonical decimal lexeme of an integer (what `JSON.stringify` prints for
integral numbers). -/
def intLex (i : Int) : String :=
  if i < 0 then ⟨'-' :: natDigits i.natAbs⟩ else ⟨natDigits i.natAbs⟩

/-- JS `String(n).padStart(3, "0")` for the sequential test-case ids. -/
def pad3 (n : Nat) : String :=
  let s := ⟨natDigits n⟩
  if s.length < 3 then ⟨List.replicate (3 - s.length) '0'⟩ ++ s else s

/- ---------------------------------------------------------------
   The JSON / dynamic-value model
----------------------------------------------------------------- -/

/-- Dynamic JS values flowing through the pipeline.  Numbers keep their
source lexeme (all numbers the claims touch are small integers, compared
by their canonical lexeme); the lexeme "NaN" marks the JS `NaN` produced
by a failed `parseInt`.  Object fields keep insertion order, like JS. -/
inductive Json where
  | null : Json
  | bool : Bool → Json
  | num : String → Json
  | str : String → Json
  | arr : List Json → Json
  | obj : List (String × Json) → Json
deriving Inhabited

/-- JS truthiness of a number lexeme: `0`, `-0`, `0.0`, … and `NaN` are
falsy (a lexeme denotes zero iff every mantissa digit is `0`). -/
def numLexFalsy (lex : String) : Bool :=
  lex = "NaN" ||
    (((lex.data.takeWhile (fun c => c ≠ 'e' ∧ c ≠ 'E')).filter
      Char.isDigit).all (· = '0'))

/-- JS truthiness. -/
def jsTruthy : Json → Bool
  | .null => false
  | .bool b => b
  | .num lex => !(numLexFalsy lex)
  | .str s => !(s = "")
  | .arr _ => true
  | .obj _ => true

/-- `a || b` of JS. -/
def jsOr (a b : Json) : Json := if jsTruthy a then a else b

/-- `a ?? b` of JS (`undefined` is modelled by `Option.none` at use sites,
`null` by `Json.null`). -/
def jsNullish (a : Option Json) (b : Json) : Json :=
  match a with
  | some .null => b
  | some v => v
  | none => b

/-- Assoc-list lookup (first binding wins, like JS property lookup). -/
def lookupField (kvs : List (String × Json)) (k : String) : Option Json :=
  match kvs with
  | [] => none
  | (k', v) :: tl => if k' = k then some v else lookupField tl k

/-- Property read `o[k]`.  On `null`/`undefined` JS throws a `TypeError`
(modelled by `Except.error ()`); on other primitives it yields `undefined`. -/
def jsField : Json → String → Except Unit (Option Json)
  | .null, _ => .error ()
  | .obj kvs, k => .ok (lookupField kvs k)
  | _, _ => .ok none

/-- Optional-chained read `o?.k` where `o` itself is already a safe value:
never throws. -/
def jsFieldOpt : Option Json → String → Option Json
  | none, _ => none
  | some .null, _ => none
  | some (.obj kvs), k => lookupField kvs k
  | some _, _ => none

/-- Functional update of one key of an object's assoc list (existing key
keeps its position, new key is appended — JS property-set order). -/
def setField (kvs : List (String × Json)) (k : String) (v : Json) :
    List (String × Json) :=
  match kvs with
  | [] => [(k, v)]
  | (k', v') :: tl =>
    if k' = k then (k', v) :: tl else (k', v') :: setField tl k v

/-- `Object.assign(a, b)` on two field lists: `a`'s keys in order with values
overridden by `b`, then `b`'s new keys in `b`'s order. -/
def objAssign (a b : List (String × Json)) : List (String × Json) :=
  b.foldl (fun acc kv => setField acc kv.1 kv.2) a

/-- JS strict-mode property write `o.k = v`: updates objects, throws a
`TypeError` on `null`/`undefined` and other primitives.  A write on an
array object succeeds in JS as an expando property invisible to JSON; we
keep the array unchanged. -/
def jsSetField (o : Json) (k : String) (v : Json) : Except Unit Json :=
  match o with
  | .obj kvs => .ok (.obj (setField kvs k v))
  | .arr l => .ok (.arr l)
  | _ => .error ()

mutual
/-- JS `String(v)` coercion (arrays join their elements with `","`,
`null` inside an array renders as the empty string, objects render as
`[object Object]`). -/
def jsToString : Json → String
  | .null => "null"
  | .bool b => if b then "true" else "false"
  | .num lex => lex
  | .str s => s
  | .arr l => jsToStringArr l
  | .obj _ => "[object Object]"

def jsToStringArr : List Json → String
  | [] => ""
  | [x] => (match x with | .null => "" | v => jsToString v)
  | x :: xs =>
    (match x with | .null => "" | v => jsToString v) ++ "," ++ jsToStringArr xs
end

/-- Read a `Json` number built from an `Int` back as an `Int` (statuses in
the probe pipeline are always constructed with `intLex`).  `none` for
anything that is not a canonical integer lexeme. -/
def jsAsInt (j : Json) : Option Int :=
  match j with
  | .num lex =>
    match lex.data with
    | '-' :: rest =>
      if rest ≠ [] ∧ rest.all Char.isDigit then
        some (-(rest.foldl (fun a c => a * 10 + (c.toNat - 48)) 0 : Nat))
      else none
    | rest =>
      if rest ≠ [] ∧ rest.all Char.isDigit then
        some ((rest.foldl (fun a c => a * 10 + (c.toNat - 48)) 0 : Nat) : Int)
      else none
  | _ => none

/-- `Number.isFinite(v)` for values in this pipeline: true exactly for
number values that are not the `NaN` marker (JSON numbers are finite). -/
def jsIsFiniteNum (j : Option Json) : Bool :=
  match j with
  | some (.num lex) => !(lex = "NaN")
  | _ => false

/- ---------------------------------------------------------------
   JSON.stringify (canonical renderer)
----------------------------------------------------------------- -/

def hexDigit (n : Nat) : Char :=
  if n < 10 then Char.ofNat (48 + n) else Char.ofNat (87 + n)

/-- `JSON.stringify` escaping of one character. -/
def jsonEscapeChar (c : Char) : List Char :=
  if c = '"' then ['\\', '"']
  else if c = '\\' then ['\\', '\\']
  else if c = '\n' then ['\\', 'n']
  else if c = '\r' then ['\\', 'r']
  else if c = '\t' then ['\\', 't']
  else if c = Char.ofNat 8 then ['\\', 'b']
  else if c = Char.ofNat 12 then ['\\', 'f']
  else if c.toNat < 32 then
    ['\\', 'u', '0', '0', hexDigit (c.toNat / 16), hexDigit (c.toNat % 16)]
  else [c]

def jsonQuote (s : String) : String :=
  ⟨'"' :: (s.data.map jsonEscapeChar).flatten ++ ['"']⟩

mutual
/-- `JSON.stringify(v)` (no spacing).  `NaN` stringifies as `null`. -/
def renderJson : Json → String
  | .null => "null"
  | .bool b => if b then "true" else "false"
  | .num lex => if lex = "NaN" then "null" else lex
  | .str s => jsonQuote s
  | .arr l => "[" ++ renderArr l ++ "]"
  | .obj kvs => "\x7b" ++ renderObj kvs ++ "\x7d"

def renderArr : List Json → String
  | [] => ""
  | [x] => renderJson x
  | x :: xs => renderJson x ++ "," ++ renderArr xs

def renderObj : List (String × Json) → String
  | [] => ""
  | [(k, v)] => jsonQuote k ++ ":" ++ renderJson v
  | (k, v) :: tl => jsonQuote k ++ ":" ++ renderJson v ++ "," ++ renderObj tl
end

/- ---------------------------------------------------------------
   src/utils/resolveUrl.js
----------------------------------------------------------------- -/

/-- `pre` is a prefix of `s` (JS `String.prototype.startsWith`). -/
def strStarts (s pre : String) : Bool := pre.data.isPrefixOf s.data

/-- The regex `/^https?:\/\//i`. -/
def isAbsoluteHttp (s : String) : Bool :=
  strStarts (strLower s) "http://" || strStarts (strLower s) "https://"

/-- `base.replace(/\/+$/, "")` — strip all trailing slashes. -/
def stripTrailingSlashes (s : String) : String :=
  ⟨(s.data.reverse.dropWhile (· = '/')).reverse⟩

/-- `joinUrl` of src/utils/resolveUrl.js. -/
def joinUrl (base pathArg : String) : String :=
  let b := stripTrailingSlashes base
  let p := if strStarts pathArg "/" then pathArg else "/" ++ pathArg
  b ++ p

/-- `resolveTestUrl` of src/utils/resolveUrl.js.  The thrown `Error` is
modelled as `Except.error` carrying the message. -/
def resolveTestUrl (endpoint : String) (targetUrl : Option String) :
    Except String String :=
  if isAbsoluteHttp endpoint then .ok endpoint
  else
    match targetUrl with
    | none => .error ("Missing targetUrl for relative endpoint: " ++ endpoint)
    | some t =>
      if t = "" then .error ("Missing targetUrl for relative endpoint: " ++ endpoint)
      else .ok (joinUrl t endpoint)

/- ---------------------------------------------------------------
   JSON.parse (strict parser, fuel-indexed recursion)
----------------------------------------------------------------- -/

def isJsonWs (c : Char) : Bool := c = ' ' || c = '\t' || c = '\n' || c = '\r'

def skipWs (cs : List Char) : List Char := cs.dropWhile isJsonWs

def hexVal (c : Char) : Option Nat :=
  if '0' ≤ c ∧ c ≤ '9' then some (c.toNat - 48)
  else if 'a' ≤ c ∧ c ≤ 'f' then some (c.toNat - 87)
  else if 'A' ≤ c ∧ c ≤ 'F' then some (c.toNat - 55)
  else none

/-- Scan the body of a JSON string literal up to its closing quote,
decoding escapes; unescaped control characters are rejected, as in
`JSON.parse`. -/
def pStrChars : List Char → Option (List Char × List Char)
  | [] => none
  | c :: rest =>
    if c = '"' then some ([], rest)
    else if c = '\\' then
      match rest with
      | [] => none
      | e :: r2 =>
        if e = 'u' then
          match r2 with
          | h1 :: h2 :: h3 :: h4 :: r3 =>
            match hexVal h1, hexVal h2, hexVal h3, hexVal h4 with
            | some a, some b, some c2, some d =>
              match pStrChars r3 with
              | some (tl, r) => some (Char.ofNat (a * 4096 + b * 256 + c2 * 16 + d) :: tl, r)
              | none => none
            | _, _, _, _ => none
          | _ => none
        else
          let dec : Option Char :=
            if e = '"' then some '"'
            else if e = '\\' then some '\\'
            else if e = '/' then some '/'
            else if e = 'b' then some (Char.ofNat 8)
            else if e = 'f' then some (Char.ofNat 12)
            else if e = 'n' then some '\n'
            else if e = 'r' then some '\r'
            else if e = 't' then some '\t'
            else none
          match dec with
          | some d =>
            match pStrChars r2 with
            | some (tl, r) => some (d :: tl, r)
            | none => none
          | none => none
    else if c.toNat < 32 then none
    else
      match pStrChars rest with
      | some (tl, r) => some (c :: tl, r)
      | none => none

def isNumChar (c : Char) : Bool :=
  c.isDigit || c = '-' || c = '+' || c = '.' || c = 'e' || c = 'E'

/-- Integer part of the JSON number grammar: `0` or a nonzero digit
followed by digits. -/
def vnInt : List Char → Option (List Char)
  | [] => none
  | c :: rest =>
    if c = '0' then some rest
    else if c.isDigit then some (rest.dropWhile Char.isDigit)
    else none

/-- Optional fraction part `.digits`. -/
def vnFrac : List Char → Option (List Char)
  | [] => some []
  | c :: rest =>
    if c = '.' then
      if rest.takeWhile Char.isDigit = [] then none
      else some (rest.dropWhile Char.isDigit)
    else some (c :: rest)

/-- Optional exponent part `[eE][+-]?digits`. -/
def vnExp : List Char → Option (List Char)
  | [] => some []
  | c :: rest =>
    if c = 'e' ∨ c = 'E' then
      let rest' := match rest with
        | s :: tl => if s = '+' ∨ s = '-' then tl else s :: tl
        | [] => []
      if rest'.takeWhile Char.isDigit = [] then none
      else some (rest'.dropWhile Char.isDigit)
    else some (c :: rest)

/-- Unsigned part of the JSON number grammar: int, optional frac,
optional exp, nothing left over. -/
def validNumBody (cs1 : List Char) : Bool :=
  match vnInt cs1 with
  | none => false
  | some r1 =>
    match vnFrac r1 with
    | none => false
    | some r2 =>
      match vnExp r2 with
      | none => false
      | some r3 => r3.isEmpty

/-- Full JSON number grammar check for a lexeme (optional leading minus). -/
def validNum (cs : List Char) : Bool :=
  validNumBody (match cs with
    | c :: tl => if c = '-' then tl else c :: tl
    | [] => [])

/-- Number token: maximal span of number characters, validated against the
grammar, kept as its lexeme. -/
def pNum (cs : List Char) : Option (Json × List Char) :=
  let span := cs.takeWhile isNumChar
  if span ≠ [] ∧ validNum span then
    some (Json.num ⟨span⟩, cs.drop span.length)
  else none

mutual
def pValue : Nat → List Char → Option (Json × List Char)
  | 0, _ => none
  | Nat.succ fuel, cs =>
    match cs with
    | [] => none
    | c :: rest =>
      if c = '"' then
        match pStrChars rest with
        | some (body, r) => some (Json.str ⟨body⟩, r)
        | none => none
      else if c = lbrace then
        match skipWs rest with
        | c2 :: r2 =>
          if c2 = rbrace then some (Json.obj [], r2)
          else
            match pMembers fuel (c2 :: r2) with
            | some (kvs, r) => some (Json.obj kvs, r)
            | none => none
        | [] => none
      else if c = '[' then
        match skipWs rest with
        | ']' :: r2 => some (Json.arr [], r2)
        | r2 =>
          match pElems fuel r2 with
          | some (l, r) => some (Json.arr l, r)
          | none => none
      else if c = 't' then
        match rest with
        | 'r' :: 'u' :: 'e' :: r => some (Json.bool true, r)
        | _ => none
      else if c = 'f' then
        match rest with
        | 'a' :: 'l' :: 's' :: 'e' :: r => some (Json.bool false, r)
        | _ => none
      else if c = 'n' then
        match rest with
        | 'u' :: 'l' :: 'l' :: r => some (Json.null, r)
        | _ => none
      else pNum (c :: rest)

def pMembers : Nat → List Char → Option (List (String × Json) × List Char)
  | 0, _ => none
  | Nat.succ fuel, cs =>
    match cs with
    | c :: rest =>
      if c = '"' then
        match pStrChars rest with
        | some (kbody, r1) =>
          match skipWs r1 with
          | ':' :: r2 =>
            match pValue fuel (skipWs r2) with
            | some (v, r3) =>
              (match skipWs r3 with
               | ',' :: r4 =>
                 match pMembers fuel (skipWs r4) with
                 | some (tl, r) => some ((⟨kbody⟩, v) :: tl, r)
                 | none => none
               | c2 :: r4 =>
                 if c2 = rbrace then some ([(⟨kbody⟩, v)], r4) else none
               | [] => none)
            | none => none
          | _ => none
        | none => none
      else none
    | [] => none

def pElems : Nat → List Char → Option (List Json × List Char)
  | 0, _ => none
  | Nat.succ fuel, cs =>
    match pValue fuel cs with
    | some (v, r1) =>
      (match skipWs r1 with
       | ',' :: r2 =>
         match pElems fuel (skipWs r2) with
         | some (tl, r) => some (v :: tl, r)
         | none => none
       | ']' :: r2 => some ([v], r2)
       | _ => none)
    | none => none
end

/-- `JSON.parse(s)` returning `none` on any syntax error. -/
def jsonParse (s : String) : Option Json :=
  match pValue (s.data.length + 1) (skipWs s.data) with
  | some (v, rest) => if skipWs rest = [] then some v else none
  | none => none

/-- `safeParse` of src/services/nvidia.service.js. -/
def safeParse (s : String) : Option Json := jsonParse s

/- ---------------------------------------------------------------
   C7: resolveTestUrl
----------------------------------------------------------------- -/

/-- C7: `resolveTestUrl` returns an absolute `http(s)://` endpoint
unchanged; for a relative endpoint it throws when no base URL is given,
and otherwise returns the base with all trailing slashes stripped
concatenated with the endpoint carrying one ensured leading slash. -/
theorem c7_resolveTestUrl :
    (∀ e b, isAbsoluteHttp e = true → resolveTestUrl e b = .ok e) ∧
    (∀ e, isAbsoluteHttp e = false → ∃ msg, resolveTestUrl e none = .error msg) ∧
    (∀ e b, isAbsoluteHttp e = false → b ≠ "" →
      resolveTestUrl e (some b) =
        .ok (stripTrailingSlashes b ++
              (if strStarts e "/" then e else "/" ++ e))) := by
  refine ⟨?_, ?_, ?_⟩
  · intro e b h
    simp [resolveTestUrl, h]
  · intro e h
    refine ⟨"Missing targetUrl for relative endpoint: " ++ e, ?_⟩
    simp [resolveTestUrl, h]
  · intro e b h hb
    simp [resolveTestUrl, h, hb, joinUrl]

/-- C7 witness: the spec's three examples, including
`resolve("/users", "http://x.com/") = "http://x.com/users"`. -/
theorem c7_resolveTestUrl_witness :
    resolveTestUrl "/users" (some "http://x.com/") = .ok "http://x.com/users" ∧
    resolveTestUrl "http://y.com/a" (some "http://x.com") = .ok "http://y.com/a" ∧
    (∃ msg, resolveTestUrl "users" none = .error msg) := by
  refine ⟨?_, ?_, ?_⟩
  · exact (c7_resolveTestUrl.2.2 "/users" "http://x.com/" (by decide)
      (by decide)).trans (by rfl)
  · exact c7_resolveTestUrl.1 "http://y.com/a" (some "http://x.com") (by decide)
  · exact c7_resolveTestUrl.2.1 "users" (by decide)

/- ---------------------------------------------------------------
   Noisy-JSON extractor (src/services/nvidia.service.js)
----------------------------------------------------------------- -/

/-- Whitespace recognized by JS `String.prototype.trim` (common code
points; the exotic Unicode space block behaves identically for every
input considered here). -/
def jsTrimWs (c : Char) : Bool :=
  c = ' ' || c = '\t' || c = '\n' || c = '\r' ||
  c = Char.ofNat 11 || c = Char.ofNat 12 || c = Char.ofNat 0xA0 ||
  c = Char.ofNat 0x2028 || c = Char.ofNat 0x2029 || c = Char.ofNat 0xFEFF

/-- The character class `\s` of JS regexes (same code points). -/
def jsRegexWs (c : Char) : Bool := jsTrimWs c

def jsTrim (l : List Char) : List Char :=
  ((l.dropWhile jsTrimWs).reverse.dropWhile jsTrimWs).reverse

/-- `cleanGarbage` of src/services/nvidia.service.js: strip BOMs, replace
mangled-ellipsis bytes with `...`, drop C0 controls and zero-width
characters, then trim. -/
def cleanGarbage (s : String) : String :=
  ⟨jsTrim ((((s.data.filter (fun c => c ≠ Char.ofNat 0xFEFF)).flatMap
    (fun c =>
      if c = Char.ofNat 0xE2 ∨ c = Char.ofNat 0x20AC ∨ c = Char.ofNat 0xA6
      then ['.', '.', '.'] else [c])).filter
    (fun c => ¬(c.toNat ≤ 0x1F))).filter
    (fun c => ¬(0x200B ≤ c.toNat ∧ c.toNat ≤ 0x200F)))⟩

/-- Index of the first occurrence of `pat` as a contiguous sublist. -/
def findSub (pat : List Char) : List Char → Option Nat
  | [] => if pat.isEmpty then some 0 else none
  | c :: tl =>
    if pat.isPrefixOf (c :: tl) then some 0
    else (findSub pat tl).map (· + 1)

def fenceMarker : List Char := [backtickChar, backtickChar, backtickChar]

def isAsciiLetter (c : Char) : Bool :=
  ('a' ≤ c ∧ c ≤ 'z') || ('A' ≤ c ∧ c ≤ 'Z')

/-- `block.replace(/```[a-zA-Z]*/g, "")` followed by
`block.replace(/```/g, "")` (fuel-indexed scan; the fuel is the list
length, which always suffices). -/
def stripFenceMarksAux : Nat → List Char → List Char
  | 0, l => l
  | Nat.succ fuel, l =>
    match l with
    | [] => []
    | c :: tl =>
      if fenceMarker.isPrefixOf (c :: tl) then
        stripFenceMarksAux fuel ((tl.drop 2).dropWhile isAsciiLetter)
      else c :: stripFenceMarksAux fuel tl

def stripFenceMarks (l : List Char) : List Char := stripFenceMarksAux l.length l

/-- The replacement callback applied to one fenced block
(`block.replace(...).replace(...).trim()`). -/
def fenceBlockReplacement (middle : List Char) : List Char :=
  jsTrim (stripFenceMarks (fenceMarker ++ middle ++ fenceMarker))

/-- `cleaned.replace(/```[\s\S]*?```/g, block => ...)`: each leftmost
fence pair is replaced by its stripped, trimmed inner text. -/
def replaceFencesAux : Nat → List Char → List Char
  | 0, l => l
  | Nat.succ fuel, l =>
    match findSub fenceMarker l with
    | none => l
    | some i =>
      let after := l.drop (i + 3)
      match findSub fenceMarker after with
      | none => l
      | some j =>
        l.take i ++ fenceBlockReplacement (after.take j) ++
          replaceFencesAux fuel (after.drop (j + 3))

def replaceFences (l : List Char) : List Char := replaceFencesAux l.length l

/-- One global scan of `/\{[\s\S]*?\}/g` (or the bracket variant): the
leftmost opener, paired with the first closer after it, repeatedly
(fuel-indexed; the fuel is the scanned length, which always suffices). -/
def scanDelimAux (op cl : Char) : Nat → List Char → List (List Char)
  | 0, _ => []
  | Nat.succ fuel, l =>
    match l with
    | [] => []
    | c :: tl =>
      if c = op then
        match splitAtFirst cl tl with
        | some (b, a) => (op :: b ++ [cl]) :: scanDelimAux op cl fuel a
        | none => []
      else scanDelimAux op cl fuel tl

def scanDelim (op cl : Char) (l : List Char) : List (List Char) :=
  scanDelimAux op cl l.length l

/-- One pass of `candidate.replace(/,\s*X/g, "X")` for a closer `X`
(fuel-indexed scan). -/
def replaceCommaCloseAux (cl : Char) : Nat → List Char → List Char
  | 0, l => l
  | Nat.succ fuel, l =>
    match l with
    | [] => []
    | c :: rest =>
      if c = ',' then
        match rest.dropWhile jsRegexWs with
        | c2 :: r2 =>
          if c2 = cl then cl :: replaceCommaCloseAux cl fuel r2
          else ',' :: replaceCommaCloseAux cl fuel rest
        | [] => ',' :: replaceCommaCloseAux cl fuel rest
      else c :: replaceCommaCloseAux cl fuel rest

def replaceCommaClose (cl : Char) (l : List Char) : List Char :=
  replaceCommaCloseAux cl l.length l

/-- Stable descending-by-length sort: the unique output of JS's stable
`Array.prototype.sort` under the comparator `(a, b) => b.length - a.length`
(insertion sort is stable, so it computes exactly that output). -/
def insertByLen (x : List Char) : List (List Char) → List (List Char)
  | [] => [x]
  | y :: ys =>
    if y.length ≤ x.length then x :: y :: ys else y :: insertByLen x ys

def sortByLenDesc (l : List (List Char)) : List (List Char) :=
  l.foldr insertByLen []

/-- `extractJson` of src/services/nvidia.service.js (the candidate list
`found` is written out twice instead of let-bound, with the same value). -/
def extractJson (raw : String) : Option String :=
  if !jsTruthy (Json.str raw) then none
  else
    if (scanDelim lbrace rbrace (replaceFences (cleanGarbage raw).data) ++
        scanDelim '[' ']' (replaceFences (cleanGarbage raw).data)).isEmpty
    then none
    else
      some ⟨replaceCommaClose rbrace (replaceCommaClose ']'
        (sortByLenDesc
          (scanDelim lbrace rbrace (replaceFences (cleanGarbage raw).data) ++
           scanDelim '[' ']'
             (replaceFences (cleanGarbage raw).data))).headI)⟩

/- ---------------------------------------------------------------
   C3 support: canonical digits and flat JSON values
----------------------------------------------------------------- -/

theorem natDigitsAux_congr :
    ∀ f1 f2 n, n < f1 → n < f2 → natDigitsAux f1 n = natDigitsAux f2 n := by
  intro f1
  induction f1 with
  | zero => intro f2 n h; omega
  | succ f ih =>
    intro f2 n h1 h2
    cases f2 with
    | zero => omega
    | succ g =>
      by_cases h10 : n < 10
      · simp [natDigitsAux, h10]
      · have hdiv : n / 10 < n := Nat.div_lt_self (by omega) (by omega)
        simp only [natDigitsAux, if_neg h10]
        rw [ih g (n / 10) (by omega) (by omega)]

theorem natDigits_lt {n : Nat} (h : n < 10) :
    natDigits n = [Char.ofNat (48 + n)] := by
  simp [natDigits, natDigitsAux, h]

theorem natDigits_ge {n : Nat} (h : 10 ≤ n) :
    natDigits n = natDigits (n / 10) ++ [Char.ofNat (48 + n % 10)] := by
  have hdiv : n / 10 < n := Nat.div_lt_self (by omega) (by omega)
  show natDigitsAux (n + 1) n = _
  simp only [natDigitsAux, if_neg (by omega : ¬ n < 10)]
  rw [natDigitsAux_congr n (n / 10 + 1) (n / 10) (by omega) (by omega)]
  rfl

theorem natDigits_ne_nil (n : Nat) : natDigits n ≠ [] := by
  induction n using Nat.strong_induction_on with
  | _ n ih =>
    by_cases h : n < 10
    · simp [natDigits_lt h]
    · rw [natDigits_ge (by omega)]
      simp

theorem natDigits_mem_shape :
    ∀ n, ∀ c ∈ natDigits n, ∃ d, d < 10 ∧ c = Char.ofNat (48 + d) := by
  intro n
  induction n using Nat.strong_induction_on with
  | _ n ih =>
    intro c hc
    by_cases h : n < 10
    · rw [natDigits_lt h] at hc
      simp at hc
      exact ⟨n, h, hc⟩
    · rw [natDigits_ge (by omega)] at hc
      rcases List.mem_append.1 hc with h1 | h2
      · exact ih (n / 10) (Nat.div_lt_self (by omega) (by omega)) c h1
      · simp at h2
        exact ⟨n % 10, Nat.mod_lt _ (by omega), h2⟩

theorem digit_shape_isDigit {d : Nat} (h : d < 10) :
    (Char.ofNat (48 + d)).isDigit = true := by
  interval_cases d <;> decide

theorem natDigits_all_digit {n : Nat} : ∀ c ∈ natDigits n, c.isDigit = true := by
  intro c hc
  obtain ⟨d, hd, rfl⟩ := natDigits_mem_shape n c hc
  exact digit_shape_isDigit hd

theorem natDigits_head_ne_zero {n : Nat} (h : 1 ≤ n) :
    ∀ c, (natDigits n).head? = some c → c ≠ '0' := by
  induction n using Nat.strong_induction_on with
  | _ n ih =>
    intro c hc
    by_cases h10 : n < 10
    · rw [natDigits_lt h10] at hc
      simp at hc
      subst hc
      interval_cases n <;> decide
    · rw [natDigits_ge (by omega)] at hc
      rw [List.head?_append_of_ne_nil _ (natDigits_ne_nil (n / 10))] at hc
      exact ih (n / 10) (Nat.div_lt_self (by omega) (by omega))
        (by omega) c hc

theorem dropWhile_eq_nil_of_all {p : Char → Bool} {l : List Char}
    (h : ∀ c ∈ l, p c = true) : l.dropWhile p = [] := by
  induction l with
  | nil => rfl
  | cons c tl ih =>
    rw [List.dropWhile_cons, if_pos (h c (by simp))]
    exact ih (fun x hx => h x (by simp [hx]))

theorem validNumBody_natDigits (n : Nat) : validNumBody (natDigits n) = true := by
  by_cases h0 : n = 0
  · subst h0; decide
  · obtain ⟨c, ds, hcds⟩ := List.exists_cons_of_ne_nil (natDigits_ne_nil n)
    have hc0 : c ≠ '0' := by
      have := natDigits_head_ne_zero (n := n) (by omega) c
      apply this
      rw [hcds]; rfl
    have hdig : ∀ x ∈ c :: ds, x.isDigit = true := by
      rw [← hcds]; exact fun x hx => natDigits_all_digit x hx
    have hcdig : c.isDigit = true := hdig c (by simp)
    rw [hcds]
    simp only [validNumBody, vnInt, if_neg hc0, if_pos hcdig]
    rw [dropWhile_eq_nil_of_all (fun x hx => hdig x (by simp [hx]))]
    rfl

theorem validNum_natDigits (n : Nat) : validNum (natDigits n) = true := by
  obtain ⟨c, ds, hcds⟩ := List.exists_cons_of_ne_nil (natDigits_ne_nil n)
  have hcnd : ¬ c = '-' := by
    intro h
    have hcdig : c.isDigit = true := by
      apply natDigits_all_digit (n := n)
      rw [hcds]; simp
    subst h
    simp [Char.isDigit] at hcdig
  have := validNumBody_natDigits n
  rw [hcds] at this ⊢
  simpa [validNum, if_neg hcnd] using this

theorem intLex_data (i : Int) :
    (intLex i).data =
      if i < 0 then '-' :: natDigits i.natAbs else natDigits i.natAbs := by
  unfold intLex
  split <;> rfl

theorem validNum_intLex (i : Int) : validNum (intLex i).data = true := by
  rw [intLex_data]
  split
  · simp only [validNum, if_pos rfl]
    exact validNumBody_natDigits i.natAbs
  · exact validNum_natDigits i.natAbs

/-- Characters allowed in the strings of a "flat" JSON value: printable,
no quote/backslash, no brace/bracket, no backtick, none of the characters
`cleanGarbage` rewrites. -/
def plainChar (c : Char) : Bool :=
  decide (32 ≤ c.toNat) && !(c = '"') && !(c = '\\') &&
  !(c = lbrace) && !(c = rbrace) && !(c = '[') && !(c = ']') &&
  !(c = backtickChar) &&
  !(c = Char.ofNat 0xE2) && !(c = Char.ofNat 0x20AC) &&
  !(c = Char.ofNat 0xA6) && !(c = Char.ofNat 0xFEFF) &&
  !(decide (0x200B ≤ c.toNat) && decide (c.toNat ≤ 0x200F))

/-- Scalar values with canonical integer lexemes and plain strings. -/
def ScalarOk : Json → Prop
  | .null => True
  | .bool _ => True
  | .num lex => ∃ i : Int, lex = intLex i
  | .str s => ∀ c ∈ s.data, plainChar c = true
  | .arr _ => False
  | .obj _ => False

/-- Flat JSON array/object: scalar members only, plain keys. -/
def FlatOk : Json → Prop
  | .arr l => ∀ x ∈ l, ScalarOk x
  | .obj kvs => ∀ kv ∈ kvs, (∀ c ∈ kv.1.data, plainChar c = true) ∧ ScalarOk kv.2
  | _ => False

theorem plainChar_spec {c : Char} (h : plainChar c = true) :
    32 ≤ c.toNat ∧ c ≠ '"' ∧ c ≠ '\\' ∧ c ≠ lbrace ∧ c ≠ rbrace ∧
    c ≠ '[' ∧ c ≠ ']' ∧ c ≠ backtickChar ∧ c ≠ Char.ofNat 0xE2 ∧
    c ≠ Char.ofNat 0x20AC ∧ c ≠ Char.ofNat 0xA6 ∧ c ≠ Char.ofNat 0xFEFF ∧
    ¬(0x200B ≤ c.toNat ∧ c.toNat ≤ 0x200F) := by
  revert h
  simp only [plainChar, Bool.and_eq_true, Bool.not_eq_true', decide_eq_true_eq,
    decide_eq_false_iff_not, Bool.and_eq_false_iff, decide_eq_true_iff]
  intro h
  obtain ⟨⟨⟨⟨⟨⟨⟨⟨⟨⟨⟨⟨h1, h2⟩, h3⟩, h4⟩, h5⟩, h6⟩, h7⟩, h8⟩, h9⟩, h10⟩,
    h11⟩, h12⟩, h13⟩ := h
  refine ⟨h1, h2, h3, h4, h5, h6, h7, h8, h9, h10, h11, h12, ?_⟩
  rcases h13 with h | h
  · exact fun hc => h hc.1
  · exact fun hc => h hc.2

theorem pStrChars_plain :
    ∀ {s rest : List Char}, (∀ c ∈ s, plainChar c = true) →
      pStrChars (s ++ '"' :: rest) = some (s, rest) := by
  intro s
  induction s with
  | nil => intro rest _; unfold pStrChars; simp
  | cons c tl ih =>
    intro rest h
    have hc := plainChar_spec (h c (by simp))
    have h32 : ¬ c.toNat < 32 := by omega
    rw [List.cons_append]
    conv_lhs => rw [pStrChars.eq_def]
    simp only [if_neg hc.2.1, if_neg hc.2.2.1, if_neg h32]
    rw [ih (fun x hx => h x (by simp [hx]))]

theorem takeWhile_append_all {p : Char → Bool} :
    ∀ {l rest : List Char}, (∀ c ∈ l, p c = true) →
      (l ++ rest).takeWhile p = l ++ rest.takeWhile p := by
  intro l
  induction l with
  | nil => intro rest _; rfl
  | cons c tl ih =>
    intro rest h
    rw [List.cons_append, List.takeWhile_cons, if_pos (h c (by simp)),
      ih (fun x hx => h x (by simp [hx])), List.cons_append]

theorem takeWhile_nil_of_head {p : Char → Bool} {rest : List Char}
    (h : ∀ c, rest.head? = some c → p c = false) :
    rest.takeWhile p = [] := by
  cases rest with
  | nil => rfl
  | cons c tl => rw [List.takeWhile_cons, if_neg (by simp [h c rfl])]

theorem intLex_all_numChar (i : Int) :
    ∀ c ∈ (intLex i).data, isNumChar c = true := by
  intro c hc
  rw [intLex_data] at hc
  have hdig : ∀ x ∈ natDigits i.natAbs, isNumChar x = true := by
    intro x hx
    obtain ⟨d, hd, rfl⟩ := natDigits_mem_shape _ x hx
    interval_cases d <;> decide
  split at hc
  · rcases List.mem_cons.1 hc with h | h
    · subst h; decide
    · exact hdig c h
  · exact hdig c hc

theorem intLex_ne_nil (i : Int) : (intLex i).data ≠ [] := by
  rw [intLex_data]
  split
  · simp
  · exact natDigits_ne_nil _

/-- A maximal number span followed by a non-number character lexes back
to its lexeme. -/
theorem pNum_intLex (i : Int) (rest : List Char)
    (hrest : ∀ c, rest.head? = some c → isNumChar c = false) :
    pNum ((intLex i).data ++ rest) = some (Json.num (intLex i), rest) := by
  unfold pNum
  rw [takeWhile_append_all (intLex_all_numChar i), takeWhile_nil_of_head hrest,
    List.append_nil]
  rw [if_pos ⟨intLex_ne_nil i, validNum_intLex i⟩]
  rw [List.drop_left]

/-- The first character of a canonical integer lexeme. -/
theorem intLex_head_shape (i : Int) :
    ∀ c, (intLex i).data.head? = some c →
      c = '-' ∨ ∃ d, d < 10 ∧ c = Char.ofNat (48 + d) := by
  intro c hc
  rw [intLex_data] at hc
  split at hc
  · simp at hc
    exact Or.inl hc.symm
  · right
    apply natDigits_mem_shape i.natAbs
    exact List.mem_of_mem_head? hc

theorem jsonEscapeChar_plain {c : Char} (h : plainChar c = true) :
    jsonEscapeChar c = [c] := by
  have spec := plainChar_spec h
  have h32 := spec.1
  have hn : c ≠ '\n' := by intro he; subst he; revert h32; decide
  have hr : c ≠ '\r' := by intro he; subst he; revert h32; decide
  have ht : c ≠ '\t' := by intro he; subst he; revert h32; decide
  have hb : c ≠ Char.ofNat 8 := by intro he; subst he; revert h32; decide
  have hf : c ≠ Char.ofNat 12 := by intro he; subst he; revert h32; decide
  have hlt : ¬ c.toNat < 32 := by omega
  simp only [jsonEscapeChar, if_neg spec.2.1, if_neg spec.2.2.1, if_neg hn,
    if_neg hr, if_neg ht, if_neg hb, if_neg hf, if_neg hlt]

theorem flatten_map_escape {l : List Char} (h : ∀ c ∈ l, plainChar c = true) :
    (l.map jsonEscapeChar).flatten = l := by
  induction l with
  | nil => rfl
  | cons c tl ih =>
    rw [List.map_cons, List.flatten_cons, jsonEscapeChar_plain (h c (by simp)),
      ih (fun x hx => h x (by simp [hx]))]
    rfl

theorem jsonQuote_data_plain {s : String}
    (h : ∀ c ∈ s.data, plainChar c = true) :
    (jsonQuote s).data = '"' :: s.data ++ ['"'] := by
  show '"' :: (s.data.map jsonEscapeChar).flatten ++ ['"'] = _
  rw [flatten_map_escape h]

theorem intLex_ne_NaN (i : Int) : intLex i ≠ "NaN" := by
  intro he
  have hd : (intLex i).data.head? = some 'N' := by rw [he]; rfl
  rcases intLex_head_shape i 'N' hd with h | ⟨d, hdlt, hdc⟩
  · exact absurd h (by decide)
  · interval_cases d <;> simp at hdc

theorem pValue_str {s : String} (h : ∀ c ∈ s.data, plainChar c = true)
    (fuel : Nat) (rest : List Char) :
    pValue (fuel + 1) ((renderJson (Json.str s)).data ++ rest) =
      some (Json.str s, rest) := by
  have hq : (renderJson (Json.str s)).data = '"' :: s.data ++ ['"'] :=
    jsonQuote_data_plain h
  rw [hq]
  simp only [List.cons_append, List.append_assoc, List.singleton_append]
  show (match pStrChars (s.data ++ '"' :: rest) with
    | some (body, r) => some (Json.str ⟨body⟩, r)
    | none => none) = some (Json.str s, rest)
  rw [pStrChars_plain h]

theorem pValue_num (i : Int) (fuel : Nat) (rest : List Char)
    (hrest : ∀ c, rest.head? = some c → isNumChar c = false) :
    pValue (fuel + 1) ((intLex i).data ++ rest) =
      some (Json.num (intLex i), rest) := by
  obtain ⟨c0, tl, hdata⟩ := List.exists_cons_of_ne_nil (intLex_ne_nil i)
  have hshape := intLex_head_shape i c0 (by rw [hdata]; rfl)
  have hpnum := pNum_intLex i rest hrest
  rw [hdata, List.cons_append] at hpnum ⊢
  rcases hshape with h | ⟨d, hd, h⟩
  · subst h
    show pNum ('-' :: (tl ++ rest)) = _
    exact hpnum
  · subst h
    interval_cases d
    all_goals (show pNum _ = _; exact hpnum)

/-- Any flat scalar parses back from its rendering when followed by a
non-number delimiter. -/
theorem pValue_scalar {v : Json} (hs : ScalarOk v) (fuel : Nat)
    (rest : List Char)
    (hrest : ∀ c, rest.head? = some c → isNumChar c = false) :
    pValue (fuel + 1) ((renderJson v).data ++ rest) = some (v, rest) := by
  cases v with
  | null => rfl
  | bool b => cases b <;> rfl
  | num lex =>
    obtain ⟨i, rfl⟩ := hs
    have hnan : ¬ (intLex i = "NaN") := intLex_ne_NaN i
    have hrender : renderJson (Json.num (intLex i)) = intLex i := by
      simp [renderJson, hnan]
    rw [hrender]
    exact pValue_num i fuel rest hrest
  | str s => exact pValue_str hs fuel rest
  | arr l => exact absurd hs (by simp [ScalarOk])
  | obj kvs => exact absurd hs (by simp [ScalarOk])

theorem skipWs_cons {c : Char} {l : List Char} (h : isJsonWs c = false) :
    skipWs (c :: l) = c :: l := by
  simp [skipWs, List.dropWhile_cons, h]

theorem pMembers_step (fuel : Nat) (c : Char) (rest : List Char) :
    pMembers (fuel + 1) (c :: rest) =
      (if c = '"' then
        match pStrChars rest with
        | some (kbody, r1) =>
          match skipWs r1 with
          | ':' :: r2 =>
            match pValue fuel (skipWs r2) with
            | some (v, r3) =>
              (match skipWs r3 with
               | ',' :: r4 =>
                 match pMembers fuel (skipWs r4) with
                 | some (tl, r) => some ((⟨kbody⟩, v) :: tl, r)
                 | none => none
               | c2 :: r4 =>
                 if c2 = rbrace then some ([(⟨kbody⟩, v)], r4) else none
               | [] => none)
            | none => none
          | _ => none
        | none => none
      else none) := rfl

theorem pElems_step (fuel : Nat) (cs : List Char) :
    pElems (fuel + 1) cs =
      (match pValue fuel cs with
       | some (v, r1) =>
         (match skipWs r1 with
          | ',' :: r2 =>
            match pElems fuel (skipWs r2) with
            | some (tl, r) => some (v :: tl, r)
            | none => none
          | ']' :: r2 => some ([v], r2)
          | _ => none)
       | none => none) := rfl

theorem pValue_obj_step (fuel : Nat) (X : List Char) :
    pValue (fuel + 1) (lbrace :: X) =
      (match skipWs X with
       | c2 :: r2 =>
         if c2 = rbrace then some (Json.obj [], r2)
         else
           match pMembers fuel (c2 :: r2) with
           | some (kvs, r) => some (Json.obj kvs, r)
           | none => none
       | [] => none) := rfl

theorem pValue_arr_step (fuel : Nat) (X : List Char) :
    pValue (fuel + 1) ('[' :: X) =
      (match skipWs X with
       | ']' :: r2 => some (Json.arr [], r2)
       | r2 =>
         match pElems fuel r2 with
         | some (l, r) => some (Json.arr l, r)
         | none => none) := rfl

theorem strData_append (s t : String) : (s ++ t).data = s.data ++ t.data := rfl

theorem renderScalar_ne_nil {v : Json} (hs : ScalarOk v) :
    (renderJson v).data ≠ [] := by
  cases v with
  | null => simp [renderJson]
  | bool b => cases b <;> simp [renderJson]
  | num lex =>
    obtain ⟨i, rfl⟩ := hs
    simp [renderJson, intLex_ne_NaN i]
    exact intLex_ne_nil i
  | str s => simp [renderJson, jsonQuote]
  | arr l => exact absurd hs (by simp [ScalarOk])
  | obj kvs => exact absurd hs (by simp [ScalarOk])

/-- Head character of a flat scalar's rendering: a quote, a letter of
`null`/`true`/`false`, a minus sign or a digit. -/
theorem renderScalar_head {v : Json} (hs : ScalarOk v) :
    ∀ c, (renderJson v).data.head? = some c →
      isJsonWs c = false ∧ c ≠ ']' ∧ c ≠ rbrace ∧ c ≠ ',' := by
  intro c hc
  cases v with
  | null =>
    rw [show (renderJson Json.null).data = ['n', 'u', 'l', 'l'] from rfl] at hc
    simp at hc
    subst hc
    decide
  | bool b =>
    cases b <;>
      simp only [show (renderJson (Json.bool true)).data =
          ['t', 'r', 'u', 'e'] from rfl,
        show (renderJson (Json.bool false)).data =
          ['f', 'a', 'l', 's', 'e'] from rfl, List.head?_cons,
        Option.some.injEq] at hc <;>
      (subst hc; decide)
  | num lex =>
    obtain ⟨i, rfl⟩ := hs
    rw [show renderJson (Json.num (intLex i)) =
        if intLex i = "NaN" then "null" else intLex i from rfl,
      if_neg (intLex_ne_NaN i)] at hc
    rcases intLex_head_shape i c hc with h | ⟨d, hd, h⟩
    · subst h; decide
    · subst h; interval_cases d <;> decide
  | str s =>
    rw [show (renderJson (Json.str s)).data =
        '"' :: (s.data.map jsonEscapeChar).flatten ++ ['"'] from rfl] at hc
    simp at hc
    subst hc
    decide
  | arr l => exact absurd hs (by simp [ScalarOk])
  | obj kvs => exact absurd hs (by simp [ScalarOk])

theorem skipWs_eq_self {l : List Char}
    (h : ∀ c, l.head? = some c → isJsonWs c = false) : skipWs l = l := by
  cases l with
  | nil => rfl
  | cons c tl => exact skipWs_cons (h c rfl)

theorem skipWs_append_scalar {v : Json} (hs : ScalarOk v) (X : List Char) :
    skipWs ((renderJson v).data ++ X) = (renderJson v).data ++ X := by
  apply skipWs_eq_self
  intro c hc
  rw [List.head?_append_of_ne_nil _ (renderScalar_ne_nil hs)] at hc
  exact (renderScalar_head hs c hc).1

theorem skipWs_colon (l : List Char) : skipWs (':' :: l) = ':' :: l :=
  skipWs_cons (by decide)

theorem skipWs_comma (l : List Char) : skipWs (',' :: l) = ',' :: l :=
  skipWs_cons (by decide)

theorem skipWs_rbrace_cons (l : List Char) : skipWs (rbrace :: l) = rbrace :: l :=
  skipWs_cons (by decide)

theorem skipWs_rbracket (l : List Char) : skipWs (']' :: l) = ']' :: l :=
  skipWs_cons (by decide)

theorem skipWs_quote (l : List Char) : skipWs ('"' :: l) = '"' :: l :=
  skipWs_cons (by decide)

theorem strEta (s : String) : (⟨s.data⟩ : String) = s := rfl

theorem renderObj_head_quote (m : String × Json) (ms : List (String × Json)) :
    ∃ Q, (renderObj (m :: ms)).data = '"' :: Q := by
  obtain ⟨k, v⟩ := m
  cases ms with
  | nil => exact ⟨_, rfl⟩
  | cons m2 ms2 => exact ⟨_, rfl⟩

theorem skipWs_renderObj (m : String × Json) (ms : List (String × Json))
    (X : List Char) :
    skipWs ((renderObj (m :: ms)).data ++ X) = (renderObj (m :: ms)).data ++ X := by
  obtain ⟨Q, hQ⟩ := renderObj_head_quote m ms
  rw [hQ, List.cons_append, skipWs_quote]

theorem pMembers_render :
    ∀ (kvs : List (String × Json)) (fuel : Nat) (rest : List Char),
      kvs ≠ [] →
      (∀ kv ∈ kvs, (∀ c ∈ kv.1.data, plainChar c = true) ∧ ScalarOk kv.2) →
      kvs.length ≤ fuel →
      pMembers (fuel + 1) ((renderObj kvs).data ++ rbrace :: rest) =
        some (kvs, rest) := by
  intro kvs
  induction kvs with
  | nil => intro fuel rest h; exact absurd rfl h
  | cons kv tl ih =>
    intro fuel rest _ hok hlen
    obtain ⟨k, v⟩ := kv
    have hk := (hok (k, v) (by simp)).1
    have hv := (hok (k, v) (by simp)).2
    obtain ⟨g, rfl⟩ : ∃ g, fuel = g + 1 := ⟨fuel - 1, by simp at hlen; omega⟩
    cases tl with
    | nil =>
      rw [show renderObj [(k, v)] = jsonQuote k ++ ":" ++ renderJson v from rfl]
      rw [strData_append, strData_append, jsonQuote_data_plain hk]
      simp only [List.cons_append, List.append_assoc, List.singleton_append,
        List.nil_append, show (":" : String).data = [':'] from rfl]
      rw [pMembers_step, if_pos rfl]
      simp only [pStrChars_plain hk, skipWs_colon,
        skipWs_append_scalar hv,
        pValue_scalar hv g (rbrace :: rest)
          (by intro c hc; simp at hc; subst hc; decide),
        skipWs_rbrace_cons]
      split
      · rename_i r4 heq
        injection heq with h1 h2
        exact absurd h1 (by decide)
      · rename_i c2 r4 hne heq
        injection heq with h1 h2
        subst h1; subst h2
        rw [if_pos rfl]
      · rename_i heq
        exact absurd heq (List.cons_ne_nil _ _)
    | cons m ms =>
      rw [show renderObj ((k, v) :: m :: ms) =
        jsonQuote k ++ ":" ++ renderJson v ++ "," ++ renderObj (m :: ms)
        from rfl]
      rw [strData_append, strData_append, strData_append, strData_append,
        jsonQuote_data_plain hk]
      simp only [List.cons_append, List.append_assoc, List.singleton_append,
        List.nil_append, show (":" : String).data = [':'] from rfl,
        show ("," : String).data = [','] from rfl]
      rw [pMembers_step, if_pos rfl]
      simp only [pStrChars_plain hk, skipWs_colon,
        skipWs_append_scalar hv,
        pValue_scalar hv g
          (',' :: ((renderObj (m :: ms)).data ++ rbrace :: rest))
          (by intro c hc; simp at hc; subst hc; decide),
        skipWs_comma]
      rw [skipWs_renderObj m ms,
        ih g rest (by simp) (fun kv hkv => hok kv (by simp [hkv]))
          (by simp at hlen ⊢; omega)]

theorem skipWs_renderArr (m : Json) (ms : List Json) (hm : ScalarOk m)
    (X : List Char) :
    skipWs ((renderArr (m :: ms)).data ++ X) = (renderArr (m :: ms)).data ++ X := by
  cases ms with
  | nil => exact skipWs_append_scalar hm X
  | cons m2 ms2 =>
    rw [show renderArr (m :: m2 :: ms2) =
      renderJson m ++ "," ++ renderArr (m2 :: ms2) from rfl]
    rw [strData_append, strData_append]
    simp only [List.append_assoc]
    exact skipWs_append_scalar hm _

theorem pElems_render :
    ∀ (l : List Json) (fuel : Nat) (rest : List Char),
      l ≠ [] → (∀ x ∈ l, ScalarOk x) → l.length ≤ fuel →
      pElems (fuel + 1) ((renderArr l).data ++ ']' :: rest) = some (l, rest) := by
  intro l
  induction l with
  | nil => intro fuel rest h; exact absurd rfl h
  | cons x tl ih =>
    intro fuel rest _ hok hlen
    have hx := hok x (by simp)
    obtain ⟨g, rfl⟩ : ∃ g, fuel = g + 1 := ⟨fuel - 1, by simp at hlen; omega⟩
    cases tl with
    | nil =>
      rw [show renderArr [x] = renderJson x from rfl]
      rw [pElems_step]
      simp only [pValue_scalar hx g (']' :: rest)
          (by intro c hc; simp at hc; subst hc; decide),
        skipWs_rbracket]
    | cons m ms =>
      rw [show renderArr (x :: m :: ms) =
        renderJson x ++ "," ++ renderArr (m :: ms) from rfl]
      rw [strData_append, strData_append]
      simp only [List.cons_append, List.append_assoc, List.singleton_append,
        List.nil_append, show ("," : String).data = [','] from rfl]
      rw [pElems_step]
      simp only [pValue_scalar hx g
          (',' :: ((renderArr (m :: ms)).data ++ ']' :: rest))
          (by intro c hc; simp at hc; subst hc; decide),
        skipWs_comma]
      rw [skipWs_renderArr m ms (hok m (by simp)),
        ih g rest (by simp) (fun y hy => hok y (by simp [hy]))
          (by simp at hlen ⊢; omega)]

theorem renderObj_len :
    ∀ kvs : List (String × Json), kvs.length ≤ (renderObj kvs).data.length := by
  intro kvs
  induction kvs with
  | nil => simp
  | cons kv tl ih =>
    obtain ⟨k, v⟩ := kv
    cases tl with
    | nil =>
      show 1 ≤ ((jsonQuote k ++ ":" ++ renderJson v)).data.length
      rw [strData_append, strData_append]
      simp only [List.length_append]
      have : 1 ≤ (jsonQuote k).data.length := by
        rw [show (jsonQuote k).data =
          '"' :: (k.data.map jsonEscapeChar).flatten ++ ['"'] from rfl]
        simp
      omega
    | cons m ms =>
      show (m :: ms).length + 1 ≤
        ((jsonQuote k ++ ":" ++ renderJson v ++ "," ++
          renderObj (m :: ms))).data.length
      rw [strData_append, strData_append, strData_append, strData_append]
      simp only [List.length_append, List.length_cons, List.length_nil]
      have := ih
      simp only [List.length_cons] at this
      omega

theorem renderArr_len :
    ∀ l : List Json, (∀ x ∈ l, ScalarOk x) →
      l.length ≤ (renderArr l).data.length := by
  intro l
  induction l with
  | nil => simp
  | cons x tl ih =>
    intro hok
    cases tl with
    | nil =>
      show 1 ≤ (renderJson x).data.length
      have := renderScalar_ne_nil (hok x (by simp))
      cases h : (renderJson x).data with
      | nil => exact absurd h this
      | cons c cs => simp
    | cons m ms =>
      show (m :: ms).length + 1 ≤
        ((renderJson x ++ "," ++ renderArr (m :: ms))).data.length
      rw [strData_append, strData_append]
      simp only [List.length_append, List.length_cons, List.length_nil]
      have := ih (fun y hy => hok y (by simp [hy]))
      simp only [List.length_cons] at this
      omega

theorem pValue_arr_step_ne (fuel : Nat) (c0 : Char) (R : List Char)
    (hws : isJsonWs c0 = false) (hne : c0 ≠ ']') :
    pValue (fuel + 1) ('[' :: c0 :: R) =
      (match pElems fuel (c0 :: R) with
       | some (l, r) => some (Json.arr l, r)
       | none => none) := by
  rw [pValue_arr_step, skipWs_cons hws]
  split
  · rename_i r2 heq
    injection heq with h1 h2
    exact absurd h1 hne
  · rfl

theorem renderArr_head_shape {x : Json} (hx : ScalarOk x) (xs : List Json) :
    ∃ c0 Q, (renderArr (x :: xs)).data = c0 :: Q ∧
      isJsonWs c0 = false ∧ c0 ≠ ']' := by
  obtain ⟨c0, T, hT⟩ :=
    List.exists_cons_of_ne_nil (renderScalar_ne_nil hx)
  have hhead := renderScalar_head hx c0 (by rw [hT]; rfl)
  cases xs with
  | nil => exact ⟨c0, T, hT, hhead.1, hhead.2.1⟩
  | cons m ms =>
    refine ⟨c0, T ++ ([','] ++ (renderArr (m :: ms)).data), ?_, hhead.1,
      hhead.2.1⟩
    rw [show renderArr (x :: m :: ms) =
      renderJson x ++ "," ++ renderArr (m :: ms) from rfl]
    rw [strData_append, strData_append, hT]
    simp [List.cons_append, List.append_assoc,
      show (("," : String)).data = [','] from rfl]

/-- Part A of C3: a flat object/array parses back from its canonical
rendering. -/
theorem jsonParse_render_flat {v : Json} (hf : FlatOk v) :
    jsonParse (renderJson v) = some v := by
  cases v with
  | null => exact absurd hf (by simp [FlatOk])
  | bool b => exact absurd hf (by simp [FlatOk])
  | num lex => exact absurd hf (by simp [FlatOk])
  | str s => exact absurd hf (by simp [FlatOk])
  | obj kvs =>
    cases kvs with
    | nil => rfl
    | cons m ms =>
      have hdata : (renderJson (Json.obj (m :: ms))).data =
          lbrace :: ((renderObj (m :: ms)).data ++ [rbrace]) := by
        rw [show renderJson (Json.obj (m :: ms)) =
          "\x7b" ++ renderObj (m :: ms) ++ "\x7d" from rfl,
          strData_append, strData_append]
        rfl
      unfold jsonParse
      rw [hdata, skipWs_cons (by decide), pValue_obj_step,
        skipWs_renderObj m ms]
      obtain ⟨Q, hQ⟩ := renderObj_head_quote m ms
      rw [hQ, List.cons_append]
      have hlen : (lbrace :: ('"' :: Q ++ [rbrace])).length =
          ('"' :: Q).length + 2 := by simp
      simp only [List.cons_append]
      rw [if_neg (by decide : ¬ ('"' = rbrace))]
      rw [show ('"' :: (Q ++ [rbrace])) = ('"' :: Q) ++ rbrace :: [] by simp]
      rw [← hQ]
      have hfuel :
          (lbrace :: ((renderObj (m :: ms)).data ++ [rbrace])).length =
            ((renderObj (m :: ms)).data.length + 1) + 1 := by simp
      rw [hfuel]
      rw [pMembers_render (m :: ms) ((renderObj (m :: ms)).data.length + 1) []
        (by simp) hf
        (by have := renderObj_len (m :: ms); simp only [List.length_cons] at this ⊢; omega)]
      rfl
  | arr l =>
    cases l with
    | nil => rfl
    | cons x xs =>
      have hx : ScalarOk x := hf x (by simp)
      have hdata : (renderJson (Json.arr (x :: xs))).data =
          '[' :: ((renderArr (x :: xs)).data ++ [']']) := by
        rw [show renderJson (Json.arr (x :: xs)) =
          "[" ++ renderArr (x :: xs) ++ "]" from rfl,
          strData_append, strData_append]
        rfl
      unfold jsonParse
      obtain ⟨c0, Q, hQ, hws, hne⟩ := renderArr_head_shape hx xs
      rw [hdata, skipWs_cons (by decide), hQ, List.cons_append]
      have hfuel :
          ('[' :: (c0 :: (Q ++ [']']))).length =
            ((c0 :: (Q ++ [']'])).length) + 1 := by simp
      rw [hfuel, pValue_arr_step_ne _ c0 _ hws hne]
      rw [show (c0 :: (Q ++ [']'])) = (c0 :: Q) ++ ']' :: [] by simp, ← hQ]
      rw [pElems_render (x :: xs)
        (((renderArr (x :: xs)).data ++ ']' :: []).length) []
        (by simp) hf
        (by have := renderArr_len (x :: xs) hf
            simp only [List.length_cons, List.length_append,
              List.length_nil] at this ⊢
            omega)]
      rfl

/-- Characters that may appear strictly inside a flat rendering (between
the outer delimiters): printable, not garbage, no brace/bracket/backtick. -/
def midChar (c : Char) : Bool :=
  decide (32 ≤ c.toNat) && !(c = Char.ofNat 0xFEFF) && !(c = Char.ofNat 0xE2) &&
  !(c = Char.ofNat 0x20AC) && !(c = Char.ofNat 0xA6) &&
  !(decide (0x200B ≤ c.toNat) && decide (c.toNat ≤ 0x200F)) &&
  !(c = backtickChar) && !(c = lbrace) && !(c = rbrace) &&
  !(c = '[') && !(c = ']')

theorem midChar_spec {c : Char} (h : midChar c = true) :
    32 ≤ c.toNat ∧ c ≠ Char.ofNat 0xFEFF ∧ c ≠ Char.ofNat 0xE2 ∧
    c ≠ Char.ofNat 0x20AC ∧ c ≠ Char.ofNat 0xA6 ∧
    ¬(0x200B ≤ c.toNat ∧ c.toNat ≤ 0x200F) ∧ c ≠ backtickChar ∧
    c ≠ lbrace ∧ c ≠ rbrace ∧ c ≠ '[' ∧ c ≠ ']' := by
  revert h
  simp only [midChar, Bool.and_eq_true, Bool.not_eq_true', decide_eq_true_eq,
    decide_eq_false_iff_not, Bool.and_eq_false_iff, decide_eq_true_iff]
  intro h
  obtain ⟨⟨⟨⟨⟨⟨⟨⟨⟨⟨h1, h2⟩, h3⟩, h4⟩, h5⟩, h6⟩, h7⟩, h8⟩, h9⟩, h10⟩, h11⟩ := h
  refine ⟨h1, h2, h3, h4, h5, ?_, h7, h8, h9, h10, h11⟩
  rcases h6 with h | h
  · exact fun hc => h hc.1
  · exact fun hc => h hc.2

theorem plainChar_midChar {c : Char} (h : plainChar c = true) :
    midChar c = true := by
  obtain ⟨h1, h2, h3, h4, h5, h6, h7, h8, h9, h10, h11, h12, h13⟩ :=
    plainChar_spec h
  simp only [midChar, Bool.and_eq_true, Bool.not_eq_true', decide_eq_true_eq,
    decide_eq_false_iff_not]
  refine ⟨⟨⟨⟨⟨⟨⟨⟨⟨⟨h1, h12⟩, h9⟩, h10⟩, h11⟩, ?_⟩, h8⟩, h4⟩, h5⟩, h6⟩, h7⟩
  simp only [Bool.and_eq_false_iff, decide_eq_false_iff_not]
  by_cases hz : 0x200B ≤ c.toNat
  · exact Or.inr (fun hc => h13 ⟨hz, hc⟩)
  · exact Or.inl hz

theorem digit_midChar {d : Nat} (hd : d < 10) :
    midChar (Char.ofNat (48 + d)) = true := by
  interval_cases d <;> decide

theorem renderScalar_chars {v : Json} (hs : ScalarOk v) :
    ∀ c ∈ (renderJson v).data, midChar c = true := by
  intro c hc
  cases v with
  | null =>
    rw [show (renderJson Json.null).data = ['n', 'u', 'l', 'l'] from rfl] at hc
    simp at hc
    rcases hc with rfl | rfl | rfl <;> decide
  | bool b =>
    cases b
    · rw [show (renderJson (Json.bool false)).data =
        ['f', 'a', 'l', 's', 'e'] from rfl] at hc
      simp at hc
      rcases hc with rfl | rfl | rfl | rfl | rfl <;> decide
    · rw [show (renderJson (Json.bool true)).data =
        ['t', 'r', 'u', 'e'] from rfl] at hc
      simp at hc
      rcases hc with rfl | rfl | rfl | rfl <;> decide
  | num lex =>
    obtain ⟨i, rfl⟩ := hs
    rw [show renderJson (Json.num (intLex i)) =
        if intLex i = "NaN" then "null" else intLex i from rfl,
      if_neg (intLex_ne_NaN i), intLex_data] at hc
    have hdig : ∀ x ∈ natDigits i.natAbs, midChar x = true := by
      intro x hx
      obtain ⟨d, hd, rfl⟩ := natDigits_mem_shape _ x hx
      exact digit_midChar hd
    split at hc
    · rcases List.mem_cons.1 hc with rfl | h
      · decide
      · exact hdig c h
    · exact hdig c hc
  | str s =>
    rw [show renderJson (Json.str s) = jsonQuote s from rfl,
      jsonQuote_data_plain hs] at hc
    rcases List.mem_cons.1 hc with rfl | h
    · decide
    · rcases List.mem_append.1 h with h2 | h2
      · exact plainChar_midChar (hs c h2)
      · simp at h2
        subst h2
        decide
  | arr l => exact absurd hs (by simp [ScalarOk])
  | obj kvs => exact absurd hs (by simp [ScalarOk])

theorem renderObj_chars {kvs : List (String × Json)}
    (hf : ∀ kv ∈ kvs, (∀ c ∈ kv.1.data, plainChar c = true) ∧ ScalarOk kv.2) :
    ∀ c ∈ (renderObj kvs).data, midChar c = true := by
  induction kvs with
  | nil => intro c hc; simp [renderObj] at hc
  | cons kv tl ih =>
    obtain ⟨k, v⟩ := kv
    have hk := (hf (k, v) (by simp)).1
    have hv := (hf (k, v) (by simp)).2
    have hquote : ∀ c ∈ (jsonQuote k).data, midChar c = true := by
      intro c hc
      rw [jsonQuote_data_plain hk] at hc
      rcases List.mem_cons.1 hc with rfl | h
      · decide
      · rcases List.mem_append.1 h with h2 | h2
        · exact plainChar_midChar (hk c h2)
        · simp at h2; subst h2; decide
    intro c hc
    cases tl with
    | nil =>
      rw [show renderObj [(k, v)] = jsonQuote k ++ ":" ++ renderJson v
        from rfl, strData_append, strData_append] at hc
      rcases List.mem_append.1 hc with h | h
      · rcases List.mem_append.1 h with h2 | h2
        · exact hquote c h2
        · simp at h2; subst h2; decide
      · exact renderScalar_chars hv c h
    | cons m ms =>
      rw [show renderObj ((k, v) :: m :: ms) =
        jsonQuote k ++ ":" ++ renderJson v ++ "," ++ renderObj (m :: ms)
        from rfl, strData_append, strData_append, strData_append,
        strData_append] at hc
      rcases List.mem_append.1 hc with h | h
      · rcases List.mem_append.1 h with h2 | h2
        · rcases List.mem_append.1 h2 with h3 | h3
          · rcases List.mem_append.1 h3 with h4 | h4
            · exact hquote c h4
            · simp at h4; subst h4; decide
          · exact renderScalar_chars hv c h3
        · simp at h2; subst h2; decide
      · exact ih (fun x hx => hf x (by simp [hx])) c h

theorem renderArr_chars {l : List Json} (hf : ∀ x ∈ l, ScalarOk x) :
    ∀ c ∈ (renderArr l).data, midChar c = true := by
  induction l with
  | nil => intro c hc; simp [renderArr] at hc
  | cons x tl ih =>
    have hx := hf x (by simp)
    intro c hc
    cases tl with
    | nil => exact renderScalar_chars hx c hc
    | cons m ms =>
      rw [show renderArr (x :: m :: ms) =
        renderJson x ++ "," ++ renderArr (m :: ms) from rfl,
        strData_append, strData_append] at hc
      rcases List.mem_append.1 hc with h | h
      · rcases List.mem_append.1 h with h2 | h2
        · exact renderScalar_chars hx c h2
        · simp at h2; subst h2; decide
      · exact ih (fun y hy => hf y (by simp [hy])) c h

theorem mem_of_getLast?_eq {l : List Char} {a : Char}
    (h : l.getLast? = some a) : a ∈ l := by
  rcases List.mem_getLast?_eq_getLast (show a ∈ l.getLast? from by rw [h]; rfl)
    with ⟨hne, heq⟩
  rw [heq]
  exact List.getLast_mem hne

/-- Last character of a flat scalar rendering: a digit, a quote or a
letter — never whitespace or a comma. -/
theorem renderScalar_last {v : Json} (hs : ScalarOk v) :
    ∀ c, (renderJson v).data.getLast? = some c →
      jsRegexWs c = false ∧ c ≠ ',' := by
  intro c hc
  cases v with
  | null =>
    rw [show (renderJson Json.null).data = ['n', 'u', 'l', 'l'] from rfl] at hc
    simp at hc; subst hc; decide
  | bool b =>
    cases b
    · rw [show (renderJson (Json.bool false)).data =
        ['f', 'a', 'l', 's', 'e'] from rfl] at hc
      simp at hc; subst hc; decide
    · rw [show (renderJson (Json.bool true)).data =
        ['t', 'r', 'u', 'e'] from rfl] at hc
      simp at hc; subst hc; decide
  | num lex =>
    obtain ⟨i, rfl⟩ := hs
    rw [show renderJson (Json.num (intLex i)) =
        if intLex i = "NaN" then "null" else intLex i from rfl,
      if_neg (intLex_ne_NaN i), intLex_data] at hc
    have hdig : ∀ x ∈ natDigits i.natAbs,
        jsRegexWs x = false ∧ x ≠ ',' := by
      intro x hx
      obtain ⟨d, hd, rfl⟩ := natDigits_mem_shape _ x hx
      interval_cases d <;> decide
    split at hc
    · rw [show ('-' :: natDigits i.natAbs) = ['-'] ++ natDigits i.natAbs
        from rfl,
        List.getLast?_append_of_ne_nil _ (natDigits_ne_nil i.natAbs)] at hc
      exact hdig c (mem_of_getLast?_eq hc)
    · exact hdig c (mem_of_getLast?_eq hc)
  | str s =>
    rw [show renderJson (Json.str s) = jsonQuote s from rfl,
      jsonQuote_data_plain hs] at hc
    rw [show ('"' :: s.data ++ ['"']) = ('"' :: s.data) ++ ['"'] from rfl,
      List.getLast?_append_of_ne_nil _ (by simp)] at hc
    simp at hc
    subst hc
    decide
  | arr l => exact absurd hs (by simp [ScalarOk])
  | obj kvs => exact absurd hs (by simp [ScalarOk])

/-- Last character of a nonempty flat object body. -/
theorem renderObj_last {kvs : List (String × Json)} (hne : kvs ≠ [])
    (hf : ∀ kv ∈ kvs, (∀ c ∈ kv.1.data, plainChar c = true) ∧ ScalarOk kv.2) :
    ∀ c, (renderObj kvs).data.getLast? = some c →
      jsRegexWs c = false ∧ c ≠ ',' := by
  induction kvs with
  | nil => exact absurd rfl hne
  | cons kv tl ih =>
    obtain ⟨k, v⟩ := kv
    have hv := (hf (k, v) (by simp)).2
    intro c hc
    cases tl with
    | nil =>
      rw [show renderObj [(k, v)] = jsonQuote k ++ ":" ++ renderJson v
        from rfl, strData_append,
        List.getLast?_append_of_ne_nil _ (renderScalar_ne_nil hv)] at hc
      exact renderScalar_last hv c hc
    | cons m ms =>
      rw [show renderObj ((k, v) :: m :: ms) =
        jsonQuote k ++ ":" ++ renderJson v ++ "," ++ renderObj (m :: ms)
        from rfl, strData_append] at hc
      obtain ⟨Q, hQ⟩ := renderObj_head_quote m ms
      rw [List.getLast?_append_of_ne_nil _ (by rw [hQ]; simp)] at hc
      exact ih (by simp) (fun x hx => hf x (by simp [hx])) c hc

/-- Last character of a nonempty flat array body. -/
theorem renderArr_last {l : List Json} (hne : l ≠ [])
    (hf : ∀ x ∈ l, ScalarOk x) :
    ∀ c, (renderArr l).data.getLast? = some c →
      jsRegexWs c = false ∧ c ≠ ',' := by
  induction l with
  | nil => exact absurd rfl hne
  | cons x tl ih =>
    have hx := hf x (by simp)
    intro c hc
    cases tl with
    | nil => exact renderScalar_last hx c hc
    | cons m ms =>
      rw [show renderArr (x :: m :: ms) =
        renderJson x ++ "," ++ renderArr (m :: ms) from rfl,
        strData_append] at hc
      obtain ⟨c0, Q, hQ, _, _⟩ := renderArr_head_shape (hf m (by simp)) ms
      rw [List.getLast?_append_of_ne_nil _ (by rw [hQ]; simp)] at hc
      exact ih (by simp) (fun y hy => hf y (by simp [hy])) c hc

theorem splitAtFirst_notin {c : Char} :
    ∀ {mid rest : List Char}, c ∉ mid →
      splitAtFirst c (mid ++ c :: rest) = some (mid, rest) := by
  intro mid
  induction mid with
  | nil => intro rest _; simp [splitAtFirst]
  | cons x tl ih =>
    intro rest h
    have hx : ¬ x = c := fun he => h (by simp [he])
    rw [List.cons_append]
    simp only [splitAtFirst, if_neg hx,
      ih (fun hm => h (by simp [hm]))]

theorem scanDelimAux_nil (op cl : Char) : ∀ fuel, scanDelimAux op cl fuel [] = [] := by
  intro fuel
  cases fuel <;> rfl

theorem scanDelimAux_notin (op cl : Char) :
    ∀ (fuel : Nat) (l : List Char), (∀ c ∈ l, c ≠ op) →
      scanDelimAux op cl fuel l = [] := by
  intro fuel
  induction fuel with
  | zero => intro l _; rfl
  | succ f ih =>
    intro l h
    cases l with
    | nil => rfl
    | cons c tl =>
      have hc : ¬ c = op := h c (by simp)
      show (if c = op then _ else scanDelimAux op cl f tl) = []
      rw [if_neg hc]
      exact ih tl (fun x hx => h x (by simp [hx]))

theorem scanDelim_notin (op cl : Char) (l : List Char)
    (h : ∀ c ∈ l, c ≠ op) : scanDelim op cl l = [] :=
  scanDelimAux_notin op cl l.length l h

theorem scanDelimAux_step (op cl c : Char) (tl : List Char) (fuel : Nat) :
    scanDelimAux op cl (fuel + 1) (c :: tl) =
      (if c = op then
        match splitAtFirst cl tl with
        | some (b, a) => (op :: b ++ [cl]) :: scanDelimAux op cl fuel a
        | none => []
      else scanDelimAux op cl fuel tl) := rfl

theorem scanDelim_single (op cl : Char) (mid : List Char)
    (h1 : cl ∉ mid) :
    scanDelim op cl (op :: (mid ++ [cl])) = [op :: (mid ++ [cl])] := by
  show scanDelimAux op cl (op :: (mid ++ [cl])).length (op :: (mid ++ [cl])) =
    _
  rw [show (op :: (mid ++ [cl])).length = (mid ++ [cl]).length + 1 by simp]
  rw [scanDelimAux_step, if_pos rfl,
    show (mid ++ [cl]) = mid ++ cl :: [] from rfl,
    splitAtFirst_notin h1]
  show (op :: mid ++ [cl]) :: scanDelimAux op cl (mid ++ cl :: []).length [] =
    _
  rw [scanDelimAux_nil]
  simp [List.cons_append]

/-- No occurrence of the pattern `,\s*cl` anywhere in `l`. -/
def NoCommaClose (cl : Char) (l : List Char) : Prop :=
  ∀ pre post, l = pre ++ ',' :: post →
    ∀ c, (post.dropWhile jsRegexWs).head? = some c → c ≠ cl

theorem NoCommaClose_tail {cl x : Char} {rest : List Char}
    (h : NoCommaClose cl (x :: rest)) : NoCommaClose cl rest := by
  intro pre post heq c hc
  exact h (x :: pre) post (by rw [List.cons_append, heq]) c hc

theorem replaceCommaCloseAux_id (cl : Char) :
    ∀ (fuel : Nat) (l : List Char), NoCommaClose cl l →
      replaceCommaCloseAux cl fuel l = l := by
  intro fuel
  induction fuel with
  | zero => intro l _; rfl
  | succ f ih =>
    intro l h
    cases l with
    | nil => rfl
    | cons c rest =>
      by_cases hc : c = ','
      · subst hc
        show (match rest.dropWhile jsRegexWs with
          | c2 :: r2 =>
            if c2 = cl then cl :: replaceCommaCloseAux cl f r2
            else ',' :: replaceCommaCloseAux cl f rest
          | [] => ',' :: replaceCommaCloseAux cl f rest) = ',' :: rest
        cases hdw : rest.dropWhile jsRegexWs with
        | nil =>
          show ',' :: replaceCommaCloseAux cl f rest = ',' :: rest
          rw [ih rest (NoCommaClose_tail h)]
        | cons c2 r2 =>
          have hne : ¬ c2 = cl := by
            apply h [] rest rfl c2
            rw [hdw]
            rfl
          show (if c2 = cl then cl :: replaceCommaCloseAux cl f r2
            else ',' :: replaceCommaCloseAux cl f rest) = ',' :: rest
          rw [if_neg hne, ih rest (NoCommaClose_tail h)]
      · show (if c = ',' then _ else c :: replaceCommaCloseAux cl f rest) = _
        rw [if_neg hc, ih rest (NoCommaClose_tail h)]

theorem replaceCommaClose_id {cl : Char} {l : List Char}
    (h : NoCommaClose cl l) : replaceCommaClose cl l = l :=
  replaceCommaCloseAux_id cl l.length l h

theorem NoCommaClose_of_notin {cl : Char} {l : List Char}
    (h : cl ∉ l) : NoCommaClose cl l := by
  intro pre post heq c hc
  intro hcc
  subst hcc
  apply h
  have hmem : c ∈ post.dropWhile jsRegexWs := by
    cases hdw : post.dropWhile jsRegexWs with
    | nil => rw [hdw] at hc; cases hc
    | cons a tl =>
      rw [hdw] at hc
      simp at hc
      simp [hc]
  have hmem2 : c ∈ post := (List.dropWhile_sublist _).mem hmem
  rw [heq]
  simp [hmem2]

theorem NoCommaClose_body {cl : Char} {body : List Char}
    (hclc : cl ≠ ',')
    (hnot : cl ∉ body)
    (hlast : ∀ c, body.getLast? = some c → jsRegexWs c = false ∧ c ≠ ',') :
    NoCommaClose cl (body ++ [cl]) := by
  intro pre post heq c hc hcc
  subst hcc
  rcases List.eq_nil_or_concat post with rfl | ⟨post0, pl, hpost⟩
  · -- the pattern comma would be the last character, but the last is `cl`
    have hlastchar := congrArg List.getLast? heq
    rw [List.getLast?_append_of_ne_nil _ (by simp),
      show (',' :: ([] : List Char)) = [] ++ [','] from rfl,
      List.getLast?_append_of_ne_nil _ (by simp)] at hlastchar
    simp at hlastchar
    exact hclc hlastchar
  · rw [List.concat_eq_append] at hpost
    subst hpost
    have heq3 : body ++ [c] = (pre ++ ',' :: post0) ++ [pl] := by
      rw [heq]; simp
    have hrev := congrArg List.reverse heq3
    simp only [List.reverse_append, List.reverse_cons, List.reverse_nil,
      List.nil_append, List.singleton_append] at hrev
    injection hrev with h1 h2
    subst h1
    have hbody : body = pre ++ ',' :: post0 :=
      List.reverse_injective (by simpa using h2)
    by_cases hall : ∀ x ∈ post0, jsRegexWs x = true
    · rcases List.eq_nil_or_concat post0 with rfl | ⟨p2, q, hq⟩
      · have hlb : body.getLast? = some ',' := by
          rw [hbody,
            show pre ++ [','] = pre ++ [','] from rfl,
            List.getLast?_append_of_ne_nil _ (by simp)]
          rfl
        exact (hlast ',' hlb).2 rfl
      · rw [List.concat_eq_append] at hq
        subst hq
        have hlb : body.getLast? = some q := by
          rw [hbody, List.getLast?_append_of_ne_nil _ (by simp),
            show (',' :: (p2 ++ [q])) = (',' :: p2) ++ [q] by simp,
            List.getLast?_append_of_ne_nil _ (by simp)]
          rfl
        have hwsq : jsRegexWs q = true := hall q (by simp)
        rw [(hlast q hlb).1] at hwsq
        cases hwsq
    · push_neg at hall
      obtain ⟨x, hx, hxws⟩ := hall
      have hdnn : post0.dropWhile jsRegexWs ≠ [] := by
        intro hnil
        rw [List.dropWhile_eq_nil_iff] at hnil
        exact hxws (hnil x hx)
      rw [List.dropWhile_append, if_neg (by simpa using hdnn),
        List.head?_append_of_ne_nil _ hdnn] at hc
      have hmem : c ∈ post0.dropWhile jsRegexWs := by
        cases hdw : post0.dropWhile jsRegexWs with
        | nil => exact absurd hdw hdnn
        | cons a tl =>
          rw [hdw] at hc
          simp at hc
          simp [hc]
      apply hnot
      rw [hbody]
      have := (List.dropWhile_sublist _).mem hmem
      simp [this]

theorem flatMap_id {f : Char → List Char} :
    ∀ {l : List Char}, (∀ c ∈ l, f c = [c]) → l.flatMap f = l := by
  intro l
  induction l with
  | nil => intro _; rfl
  | cons c tl ih =>
    intro h
    rw [List.flatMap_cons, h c (by simp), ih (fun x hx => h x (by simp [hx]))]
    rfl

theorem dropWhile_id_of_head {p : Char → Bool} {l : List Char}
    (h : ∀ c, l.head? = some c → p c = false) : l.dropWhile p = l := by
  cases l with
  | nil => rfl
  | cons c tl => rw [List.dropWhile_cons, if_neg (by simp [h c rfl])]

theorem jsTrim_id {l : List Char}
    (hh : ∀ c, l.head? = some c → jsTrimWs c = false)
    (hl : ∀ c, l.getLast? = some c → jsTrimWs c = false) : jsTrim l = l := by
  unfold jsTrim
  rw [dropWhile_id_of_head hh]
  rw [dropWhile_id_of_head (fun c hc => hl c (by rwa [← List.head?_reverse]))]
  exact List.reverse_reverse l

/-- Characters that pass `cleanGarbage` untouched. -/
def cgOk (c : Char) : Bool :=
  !(c = Char.ofNat 0xFEFF) && !(c = Char.ofNat 0xE2) &&
  !(c = Char.ofNat 0x20AC) && !(c = Char.ofNat 0xA6) &&
  decide (0x1F < c.toNat) &&
  !(decide (0x200B ≤ c.toNat) && decide (c.toNat ≤ 0x200F))

theorem midChar_cgOk {c : Char} (h : midChar c = true) : cgOk c = true := by
  obtain ⟨h1, h2, h3, h4, h5, h6, _, _, _, _, _⟩ := midChar_spec h
  simp only [cgOk, Bool.and_eq_true, Bool.not_eq_true', decide_eq_true_eq,
    decide_eq_false_iff_not]
  refine ⟨⟨⟨⟨⟨?_, ?_⟩, ?_⟩, ?_⟩, ?_⟩, ?_⟩
  · simpa using h2
  · simpa using h3
  · simpa using h4
  · simpa using h5
  · omega
  · simp only [Bool.and_eq_false_iff, decide_eq_false_iff_not]
    by_cases hz : 0x200B ≤ c.toNat
    · exact Or.inr (fun hc => h6 ⟨hz, hc⟩)
    · exact Or.inl hz

theorem cleanGarbage_id {s : String}
    (h : ∀ c ∈ s.data, cgOk c = true)
    (hh : ∀ c, s.data.head? = some c → jsTrimWs c = false)
    (hl : ∀ c, s.data.getLast? = some c → jsTrimWs c = false) :
    cleanGarbage s = s := by
  have spec : ∀ c ∈ s.data,
      c ≠ Char.ofNat 0xFEFF ∧ c ≠ Char.ofNat 0xE2 ∧ c ≠ Char.ofNat 0x20AC ∧
      c ≠ Char.ofNat 0xA6 ∧ 0x1F < c.toNat ∧
      ¬(0x200B ≤ c.toNat ∧ c.toNat ≤ 0x200F) := by
    intro c hc
    have := h c hc
    revert this
    simp only [cgOk, Bool.and_eq_true, Bool.not_eq_true', decide_eq_true_eq,
      decide_eq_false_iff_not, Bool.and_eq_false_iff]
    intro hx
    obtain ⟨⟨⟨⟨⟨x1, x2⟩, x3⟩, x4⟩, x5⟩, x6⟩ := hx
    refine ⟨x1, x2, x3, x4, x5, ?_⟩
    rcases x6 with h | h
    · exact fun hc2 => h hc2.1
    · exact fun hc2 => h hc2.2
  unfold cleanGarbage
  have e1 : s.data.filter (fun c => c ≠ Char.ofNat 0xFEFF) = s.data :=
    List.filter_eq_self.mpr (fun c hc => by simpa using (spec c hc).1)
  rw [e1]
  have e2 : (s.data.flatMap (fun c =>
      if c = Char.ofNat 0xE2 ∨ c = Char.ofNat 0x20AC ∨ c = Char.ofNat 0xA6
      then ['.', '.', '.'] else [c])) = s.data :=
    flatMap_id (fun c hc => by
      rw [if_neg]
      push_neg
      exact ⟨(spec c hc).2.1, (spec c hc).2.2.1, (spec c hc).2.2.2.1⟩)
  rw [e2]
  have e3 : s.data.filter (fun c => ¬(c.toNat ≤ 0x1F)) = s.data :=
    List.filter_eq_self.mpr (fun c hc => by
      simp only [decide_eq_true_eq, not_le]
      exact (spec c hc).2.2.2.2.1)
  rw [e3]
  have e4 : s.data.filter
      (fun c => ¬(0x200B ≤ c.toNat ∧ c.toNat ≤ 0x200F)) = s.data :=
    List.filter_eq_self.mpr (fun c hc => by
      simp only [decide_eq_true_eq]
      exact (spec c hc).2.2.2.2.2)
  rw [e4]
  rw [jsTrim_id hh hl]

theorem findSub_none {pat : List Char} {l : List Char} (hp : pat ≠ [])
    (h : ∀ c ∈ l, c ≠ pat.headI) : findSub pat l = none := by
  induction l with
  | nil =>
    obtain ⟨p, ps, rfl⟩ := List.exists_cons_of_ne_nil hp
    rfl
  | cons c tl ih =>
    obtain ⟨p, ps, rfl⟩ := List.exists_cons_of_ne_nil hp
    show (if List.isPrefixOf (p :: ps) (c :: tl) then some 0
      else (findSub (p :: ps) tl).map (· + 1)) = none
    have hcp : ¬ p = c := fun he => h c (by simp) (by simp [he.symm])
    rw [if_neg (by
      simp only [List.isPrefixOf, Bool.and_eq_true, beq_iff_eq]
      exact fun hx => hcp hx.1)]
    rw [ih (fun x hx => h x (by simp [hx]))]
    rfl

theorem replaceFences_id {l : List Char}
    (h : ∀ c ∈ l, c ≠ backtickChar) : replaceFences l = l := by
  show replaceFencesAux l.length l = l
  have hf : findSub fenceMarker l = none :=
    findSub_none (by simp [fenceMarker]) h
  cases hlen : l.length with
  | zero => rfl
  | succ n =>
    show (match findSub fenceMarker l with
      | none => l
      | some i =>
        match findSub fenceMarker (l.drop (i + 3)) with
        | none => l
        | some j =>
          l.take i ++ fenceBlockReplacement ((l.drop (i + 3)).take j) ++
            replaceFencesAux n ((l.drop (i + 3)).drop (j + 3))) = l
    rw [hf]

/-- Part B of C3: extraction returns a flat rendering unchanged. -/
theorem extractJson_render_flat {v : Json} (hf : FlatOk v) :
    extractJson (renderJson v) = some (renderJson v) := by
  cases v with
  | null => exact absurd hf (by simp [FlatOk])
  | bool b => exact absurd hf (by simp [FlatOk])
  | num lex => exact absurd hf (by simp [FlatOk])
  | str s => exact absurd hf (by simp [FlatOk])
  | obj kvs =>
    cases kvs with
    | nil => rfl
    | cons m ms =>
      have hchars : ∀ c ∈ (renderObj (m :: ms)).data, midChar c = true :=
        renderObj_chars hf
      have hdata : (renderJson (Json.obj (m :: ms))).data =
          lbrace :: ((renderObj (m :: ms)).data ++ [rbrace]) := by
        rw [show renderJson (Json.obj (m :: ms)) =
          "\x7b" ++ renderObj (m :: ms) ++ "\x7d" from rfl,
          strData_append, strData_append]
        rfl
      have hmem : ∀ c ∈ (renderJson (Json.obj (m :: ms))).data,
          c = lbrace ∨ c ∈ (renderObj (m :: ms)).data ∨ c = rbrace := by
        intro c hc
        rw [hdata] at hc
        rcases List.mem_cons.1 hc with rfl | h
        · exact Or.inl rfl
        · rcases List.mem_append.1 h with h2 | h2
          · exact Or.inr (Or.inl h2)
          · simp at h2; exact Or.inr (Or.inr h2)
      have hne : renderJson (Json.obj (m :: ms)) ≠ "" := by
        intro he
        rw [he] at hdata
        cases hdata
      unfold extractJson
      rw [if_neg (by simp [jsTruthy, hne])]
      have hclean : cleanGarbage (renderJson (Json.obj (m :: ms))) =
          renderJson (Json.obj (m :: ms)) := by
        apply cleanGarbage_id
        · intro c hc
          rcases hmem c hc with rfl | h | rfl
          · decide
          · exact midChar_cgOk (hchars c h)
          · decide
        · intro c hc
          rw [hdata] at hc
          simp at hc
          subst hc
          decide
        · intro c hc
          rw [hdata,
            show (lbrace :: ((renderObj (m :: ms)).data ++ [rbrace])) =
              (lbrace :: (renderObj (m :: ms)).data) ++ [rbrace] by simp,
            List.getLast?_append_of_ne_nil _ (by simp)] at hc
          simp at hc
          subst hc
          decide
      rw [hclean]
      have hfence : replaceFences (renderJson (Json.obj (m :: ms))).data =
          (renderJson (Json.obj (m :: ms))).data := by
        apply replaceFences_id
        intro c hc
        rcases hmem c hc with rfl | h | rfl
        · decide
        · exact (midChar_spec (hchars c h)).2.2.2.2.2.2.1
        · decide
      rw [hfence, hdata]
      have hB : rbrace ∉ (renderObj (m :: ms)).data := by
        intro h
        exact (midChar_spec (hchars rbrace h)).2.2.2.2.2.2.2.2.1 rfl
      have hobj : scanDelim lbrace rbrace
          (lbrace :: ((renderObj (m :: ms)).data ++ [rbrace])) =
          [lbrace :: ((renderObj (m :: ms)).data ++ [rbrace])] :=
        scanDelim_single _ _ _ hB
      have harr : scanDelim '[' ']'
          (lbrace :: ((renderObj (m :: ms)).data ++ [rbrace])) = [] := by
        apply scanDelim_notin
        intro c hc
        rcases List.mem_cons.1 hc with rfl | h
        · decide
        · rcases List.mem_append.1 h with h2 | h2
          · exact (midChar_spec (hchars c h2)).2.2.2.2.2.2.2.2.2.1
          · simp at h2; subst h2; decide
      rw [hobj, harr]
      simp only [List.append_nil]
      rw [if_neg (by simp)]
      show some (⟨replaceCommaClose rbrace (replaceCommaClose ']'
        (lbrace :: ((renderObj (m :: ms)).data ++ [rbrace])))⟩ : String) = _
      have hs1 : replaceCommaClose ']'
          (lbrace :: ((renderObj (m :: ms)).data ++ [rbrace])) =
          lbrace :: ((renderObj (m :: ms)).data ++ [rbrace]) := by
        apply replaceCommaClose_id
        apply NoCommaClose_of_notin
        intro h
        rcases List.mem_cons.1 h with h2 | h2
        · cases h2
        · rcases List.mem_append.1 h2 with h3 | h3
          · exact (midChar_spec (hchars ']' h3)).2.2.2.2.2.2.2.2.2.2 rfl
          · simp at h3
            exact absurd h3 (by decide)
      have hs2 : replaceCommaClose rbrace
          (lbrace :: ((renderObj (m :: ms)).data ++ [rbrace])) =
          lbrace :: ((renderObj (m :: ms)).data ++ [rbrace]) := by
        rw [show (lbrace :: ((renderObj (m :: ms)).data ++ [rbrace])) =
          (lbrace :: (renderObj (m :: ms)).data) ++ [rbrace] by simp]
        apply replaceCommaClose_id
        apply NoCommaClose_body (by decide)
        · intro h
          rcases List.mem_cons.1 h with h2 | h2
          · cases h2
          · exact hB h2
        · intro c hc
          obtain ⟨Q, hQ⟩ := renderObj_head_quote m ms
          rw [show (lbrace :: (renderObj (m :: ms)).data) =
            [lbrace] ++ (renderObj (m :: ms)).data by simp,
            List.getLast?_append_of_ne_nil _ (by rw [hQ]; simp)] at hc
          exact renderObj_last (by simp) hf c hc
      rw [hs1, hs2, ← hdata, strEta]
  | arr l =>
    cases l with
    | nil => rfl
    | cons x xs =>
      have hchars : ∀ c ∈ (renderArr (x :: xs)).data, midChar c = true :=
        renderArr_chars hf
      have hdata : (renderJson (Json.arr (x :: xs))).data =
          '[' :: ((renderArr (x :: xs)).data ++ [']']) := by
        rw [show renderJson (Json.arr (x :: xs)) =
          "[" ++ renderArr (x :: xs) ++ "]" from rfl,
          strData_append, strData_append]
        rfl
      have hmem : ∀ c ∈ (renderJson (Json.arr (x :: xs))).data,
          c = '[' ∨ c ∈ (renderArr (x :: xs)).data ∨ c = ']' := by
        intro c hc
        rw [hdata] at hc
        rcases List.mem_cons.1 hc with rfl | h
        · exact Or.inl rfl
        · rcases List.mem_append.1 h with h2 | h2
          · exact Or.inr (Or.inl h2)
          · simp at h2; exact Or.inr (Or.inr h2)
      have hne : renderJson (Json.arr (x :: xs)) ≠ "" := by
        intro he
        rw [he] at hdata
        cases hdata
      unfold extractJson
      rw [if_neg (by simp [jsTruthy, hne])]
      have hclean : cleanGarbage (renderJson (Json.arr (x :: xs))) =
          renderJson (Json.arr (x :: xs)) := by
        apply cleanGarbage_id
        · intro c hc
          rcases hmem c hc with rfl | h | rfl
          · decide
          · exact midChar_cgOk (hchars c h)
          · decide
        · intro c hc
          rw [hdata] at hc
          simp at hc
          subst hc
          decide
        · intro c hc
          rw [hdata,
            show ('[' :: ((renderArr (x :: xs)).data ++ [']'])) =
              ('[' :: (renderArr (x :: xs)).data) ++ [']'] by simp,
            List.getLast?_append_of_ne_nil _ (by simp)] at hc
          simp at hc
          subst hc
          decide
      rw [hclean]
      have hfence : replaceFences (renderJson (Json.arr (x :: xs))).data =
          (renderJson (Json.arr (x :: xs))).data := by
        apply replaceFences_id
        intro c hc
        rcases hmem c hc with rfl | h | rfl
        · decide
        · exact (midChar_spec (hchars c h)).2.2.2.2.2.2.1
        · decide
      rw [hfence, hdata]
      have hB : ']' ∉ (renderArr (x :: xs)).data := by
        intro h
        exact (midChar_spec (hchars ']' h)).2.2.2.2.2.2.2.2.2.2 rfl
      have harr2 : scanDelim '[' ']'
          ('[' :: ((renderArr (x :: xs)).data ++ [']'])) =
          ['[' :: ((renderArr (x :: xs)).data ++ [']'])] :=
        scanDelim_single _ _ _ hB
      have hobj2 : scanDelim lbrace rbrace
          ('[' :: ((renderArr (x :: xs)).data ++ [']'])) = [] := by
        apply scanDelim_notin
        intro c hc
        rcases List.mem_cons.1 hc with rfl | h
        · decide
        · rcases List.mem_append.1 h with h2 | h2
          · exact (midChar_spec (hchars c h2)).2.2.2.2.2.2.2.1
          · simp at h2; subst h2; decide
      rw [harr2, hobj2]
      simp only [List.nil_append]
      rw [if_neg (by simp)]
      show some (⟨replaceCommaClose rbrace (replaceCommaClose ']'
        ('[' :: ((renderArr (x :: xs)).data ++ [']'])))⟩ : String) = _
      have hs1 : replaceCommaClose ']'
          ('[' :: ((renderArr (x :: xs)).data ++ [']'])) =
          '[' :: ((renderArr (x :: xs)).data ++ [']']) := by
        rw [show ('[' :: ((renderArr (x :: xs)).data ++ [']'])) =
          ('[' :: (renderArr (x :: xs)).data) ++ [']'] by simp]
        apply replaceCommaClose_id
        apply NoCommaClose_body (by decide)
        · intro h
          rcases List.mem_cons.1 h with h2 | h2
          · cases h2
          · exact hB h2
        · intro c hc
          obtain ⟨c0, Q, hQ, _, _⟩ := renderArr_head_shape (hf x (by simp)) xs
          rw [show ('[' :: (renderArr (x :: xs)).data) =
            ['['] ++ (renderArr (x :: xs)).data by simp,
            List.getLast?_append_of_ne_nil _ (by rw [hQ]; simp)] at hc
          exact renderArr_last (by simp) hf c hc
      have hs2 : replaceCommaClose rbrace
          ('[' :: ((renderArr (x :: xs)).data ++ [']'])) =
          '[' :: ((renderArr (x :: xs)).data ++ [']']) := by
        apply replaceCommaClose_id
        apply NoCommaClose_of_notin
        intro h
        rcases List.mem_cons.1 h with h2 | h2
        · cases h2
        · rcases List.mem_append.1 h2 with h3 | h3
          · exact (midChar_spec (hchars rbrace h3)).2.2.2.2.2.2.2.2.1 rfl
          · simp at h3
            exact absurd h3 (by decide)
      rw [hs1, hs2, ← hdata, strEta]

/-- C3 counterexample: on the well-formed nested object text
`{"a":{"b":1}}` the non-greedy scan of `extractJson` stops at the first
closing brace, returning `{"a":{"b":1}` — which does not parse at all,
let alone to the same structure. -/
theorem c3_extract_not_idempotent_counterexample :
    jsonParse "\x7b\"a\":\x7b\"b\":1\x7d\x7d" =
      some (Json.obj [("a", Json.obj [("b", Json.num "1")])]) ∧
    extractJson "\x7b\"a\":\x7b\"b\":1\x7d\x7d" =
      some "\x7b\"a\":\x7b\"b\":1\x7d" ∧
    jsonParse "\x7b\"a\":\x7b\"b\":1\x7d" = none := by
  refine ⟨rfl, rfl, rfl⟩

/-- C3 (amended): extraction is idempotent on well-formed *flat* JSON
texts — the canonical rendering of an array or object whose members are
scalars (canonical integer lexemes, strings without brace, bracket,
quote, backslash, backtick or control characters): `extractJson` returns
the text unchanged and the text parses back to the same structure. -/
theorem c3_extract_idempotent_flat : ∀ v : Json, FlatOk v →
    extractJson (renderJson v) = some (renderJson v) ∧
    jsonParse (renderJson v) = some v :=
  fun _ hf => ⟨extractJson_render_flat hf, jsonParse_render_flat hf⟩

/-- C3 witness: the flat array text `[1,null]`. -/
theorem c3_extract_idempotent_flat_witness :
    extractJson "[1,null]" = some "[1,null]" ∧
    jsonParse "[1,null]" = some (Json.arr [Json.num "1", Json.null]) := by
  have hf : FlatOk (Json.arr [Json.num "1", Json.null]) := by
    intro x hx
    simp at hx
    rcases hx with rfl | rfl
    · exact ⟨1, rfl⟩
    · trivial
  have h := c3_extract_idempotent_flat (Json.arr [Json.num "1", Json.null]) hf
  rw [show renderJson (Json.arr [Json.num "1", Json.null]) = "[1,null]"
    from rfl] at h
  exact h

/- ---------------------------------------------------------------
   Concurrent test runner (src/backend/src/services/runner.service.js)
----------------------------------------------------------------- -/

/-- A run-time test case as accepted by `runTestSuite` (validated by
`runTestsSchema`: ids/categories are strings, `expected_response.status`
is an HTTP status number or a non-empty array of them, so `parseInt` on
its members is the identity and is elided). -/
structure ExpResp where
  status : Option (Sum Int (List Int))
  schema : Option Json
deriving Inhabited

structure ReqSpec where
  method : Option String
  endpoint : String
  headers : List (String × Json)
  body : Option Json
deriving Inhabited

structure RunTC where
  id : String
  category : Option Json
  description : Option Json
  request : ReqSpec
  expected_response : Option ExpResp
deriving Inhabited

/-- `normalizeExpectedStatuses` of runner.service.js. -/
def normalizeExpectedStatuses : Option (Sum Int (List Int)) → List Int
  | none => [200]
  | some (.inl n) => [n]
  | some (.inr l) => l

/-- `findHeaderKey` of runner.service.js. -/
def findHeaderKey (headers : List (String × Json)) (name : String) :
    Option String :=
  (headers.find? (fun kv => strLower kv.1 = strLower name)).map (·.1)

/-- `JSON.stringify`-quoted rendering used inside `buildCurl`. -/
def curlHeaderPart (k : String) (v : Json) : String :=
  "-H " ++ jsonQuote (k ++ ": " ++ jsToString v)

/-- `buildCurl` of runner.service.js. -/
def buildCurl (method url : String) (headers : List (String × Json))
    (body : Option Json) : String :=
  let headerParts := headers.map (fun kv => curlHeaderPart kv.1 kv.2)
  let dataPart : List String :=
    match body with
    | none => []
    | some Json.null => []
    | some (Json.obj kvs) => ["--data " ++ jsonQuote (renderJson (Json.obj kvs))]
    | some (Json.arr l) => ["--data " ++ jsonQuote (renderJson (Json.arr l))]
    | some v => ["--data " ++ jsonQuote (jsToString v)]
  String.intercalate " "
    (["curl -i", "-X " ++ method] ++ headerParts ++ dataPart ++ [jsonQuote url])

/-- The axios request configuration assembled by `executeSingleTest`
(`validateStatus: () => true` is part of the transport contract below). -/
structure AxiosCfg where
  method : String
  url : String
  headers : List (String × Json)
  data : Option Json
  timeout : Nat
  maxRedirects : Nat
deriving Inhabited

structure HttpResp where
  status : Int
  statusText : String
  data : Json
  headers : List (String × Json)
deriving Inhabited

structure TransportErr where
  message : String
  code : Option String
deriving Inhabited

/-- The HTTP client: a deterministic oracle mapping a request to either a
completed response (any status code) or a transport failure, together
with the elapsed milliseconds. -/
def Transport : Type := AxiosCfg → Except TransportErr HttpResp × Nat

/-- The AJV collaborator: whether compiling `schema` and validating
`data` succeeds, and the error payload when it does not. -/
structure AjvOracle where
  ok : Json → Json → Bool
  errs : Json → Json → Json

/-- Header/body preparation of `executeSingleTest` (lines 89-136). -/
def buildAxiosCfg (tc : RunTC) (fullUrl : String) : AxiosCfg :=
  let method := strUpper (match tc.request.method with
    | some m => if m = "" then "GET" else m
    | none => "GET")
  let headers0 := tc.request.headers
  let headers1 :=
    if (findHeaderKey headers0 "User-Agent").isSome then headers0
    else headers0 ++ [("User-Agent", Json.str "Mozilla/5.0 (compatible; API-Tester/1.0)")]
  let withCT (hs : List (String × Json)) (ct : String) :=
    if (findHeaderKey hs "Content-Type").isSome then hs
    else hs ++ [("Content-Type", Json.str ct)]
  let prep : Option Json × List (String × Json) :=
    if method = "GET" ∨ method = "HEAD" then (none, headers1)
    else
      match tc.request.body with
      | none => (none, headers1)
      | some Json.null => (none, headers1)
      | some (Json.obj kvs) => (some (Json.obj kvs), withCT headers1 "application/json")
      | some (Json.arr l) => (some (Json.arr l), withCT headers1 "application/json")
      | some (Json.str s) =>
        match jsonParse s with
        | some parsed => (some parsed, withCT headers1 "application/json")
        | none => (some (Json.str s), withCT headers1 "text/plain")
      | some v => (some v, withCT headers1 "application/json")
  { method := method, url := fullUrl, headers := prep.2, data := prep.1,
    timeout := 10000, maxRedirects := 5 }

structure ActualResp where
  status : Int
  statusText : String
  data : Json
  headers : List (String × Json)
deriving Inhabited

structure Diag where
  resolvedUrl : String
  requestHeaders : List (String × Json)
  requestBody : Option Json
  curl : String
deriving Inhabited

structure RunResult where
  id : String
  category : Option Json
  description : Option Json
  status : String
  error : Option String
  duration : String
  actual : Option ActualResp
  expected : List Int
  hint : Option String
  schemaValidation : Option Json
  diagnostics : Option Diag
deriving Inhabited

def msString (d : Nat) : String := (⟨natDigits d⟩ : String) ++ "ms"

/-- The body-hint extraction of `executeSingleTest` (lines 145-159). -/
def bodyHint (data : Json) : Option String :=
  match data with
  | Json.obj kvs =>
    let possibleKeys := ["error", "errors", "message", "detail", "validation"]
    let found := possibleKeys.filter (fun k => (lookupField kvs k).isSome)
    if found.isEmpty then none
    else some ("Response contains keys: " ++ String.intercalate ", " found)
  | Json.str s =>
    if s.length < 2000 ∧
        (strIncludes (strLower s) "forbidden" ||
         strIncludes (strLower s) "access denied") then
      some "Response body contains 'forbidden'/'access denied' — possible WAF/proxy block"
    else none
  | _ => none

/-- Truncation of large string bodies (lines 181-186). -/
def truncateBody (data : Json) : Json :=
  match data with
  | Json.str s =>
    if s.length > 64 * 1024 then
      Json.str (⟨s.data.take (64 * 1024)⟩ ++ "\n...TRUNCATED...")
    else Json.str s
  | v => v

/-- The truthy schema of a test case (`test.expected_response &&
test.expected_response.schema`). -/
def schemaOf (tc : RunTC) : Option Json :=
  match tc.expected_response with
  | some er =>
    match er.schema with
    | some s => if jsTruthy s then some s else none
    | none => none
  | none => none

/-- The result returned when URL resolution throws (lines 76-87). -/
def resolutionErrorResult (tc : RunTC) (msg : String) : RunResult :=
  { id := tc.id, category := tc.category, description := tc.description,
    status := "ERROR ❌",
    error := some ("URL Resolution Error: " ++ msg),
    duration := msString 0,
    actual := none,
    expected := normalizeExpectedStatuses
      ((tc.expected_response).bind (·.status)),
    hint := none, schemaValidation := none, diagnostics := none }

/-- The result returned when the transport fails (lines 214-235). -/
def transportErrorResult (tc : RunTC) (fullUrl : String) (cfg : AxiosCfg)
    (err : TransportErr) (duration : Nat) : RunResult :=
  { id := tc.id, category := tc.category, description := tc.description,
    status := "ERROR ❌",
    error := some (if err.code = some "ECONNREFUSED" then
        "Connection Refused (server down?)"
      else if err.code = some "ENOTFOUND" then "Invalid Host/URL"
      else err.message),
    duration := msString duration,
    actual := none,
    expected := normalizeExpectedStatuses
      ((tc.expected_response).bind (·.status)),
    hint := none, schemaValidation := none,
    diagnostics := some (Diag.mk fullUrl cfg.headers cfg.data
      (buildCurl cfg.method fullUrl cfg.headers cfg.data)) }

/-- `schemaValidation.ok` of `executeSingleTest`: the schema is absent,
or it compiled and the body validated. -/
def schemaOkB (tc : RunTC) (ajv : AjvOracle) (respData : Json) : Bool :=
  match schemaOf tc with
  | some sch => ajv.ok sch respData
  | none => true

/-- `passed` of `executeSingleTest` (line 178): status member of the
expected set and schema validation passed. -/
def passCond (tc : RunTC) (ajv : AjvOracle) (resp : HttpResp) : Bool :=
  (normalizeExpectedStatuses
    ((tc.expected_response).bind (·.status))).contains resp.status &&
  schemaOkB tc ajv resp.data

/-- The classification of a transport-complete exchange (lines 138-213). -/
def okResult (tc : RunTC) (fullUrl : String) (cfg : AxiosCfg)
    (ajv : AjvOracle) (resp : HttpResp) (duration : Nat) : RunResult :=
  { id := tc.id, category := tc.category, description := tc.description,
    status := if passCond tc ajv resp then "PASSED ✅" else "FAILED ❌",
    error := none,
    duration := msString duration,
    actual := some (ActualResp.mk resp.status resp.statusText
      (truncateBody resp.data) resp.headers),
    expected := normalizeExpectedStatuses
      ((tc.expected_response).bind (·.status)),
    hint := bodyHint resp.data,
    schemaValidation :=
      (match schemaOf tc with
       | some sch => if ajv.ok sch resp.data then none
                     else some (ajv.errs sch resp.data)
       | none => none),
    diagnostics := some (Diag.mk fullUrl cfg.headers cfg.data
      (buildCurl cfg.method fullUrl cfg.headers cfg.data)) }

/-- `executeSingleTest` of runner.service.js over the transport and AJV
oracles. -/
def executeSingleTest (tc : RunTC) (baseUrl : Option String)
    (net : Transport) (ajv : AjvOracle) : RunResult :=
  match resolveTestUrl tc.request.endpoint baseUrl with
  | .error msg => resolutionErrorResult tc msg
  | .ok fullUrl =>
    match net (buildAxiosCfg tc fullUrl) with
    | (.error err, duration) =>
      transportErrorResult tc fullUrl (buildAxiosCfg tc fullUrl) err duration
    | (.ok resp, duration) =>
      okResult tc fullUrl (buildAxiosCfg tc fullUrl) ajv resp duration

/-- First-occurrence deduplication (`Array.from(new Set(...))`). -/
def dedupFirst (l : List Int) : List Int :=
  l.foldl (fun acc x => if x ∈ acc then acc else acc ++ [x]) []

/-- Stable ascending insertion sort: the output of JS
`sort((a, b) => a - b)`. -/
def insertAsc (x : Int) : List Int → List Int
  | [] => [x]
  | y :: ys => if x ≤ y then x :: y :: ys else y :: insertAsc x ys

def sortAsc (l : List Int) : List Int := l.foldr insertAsc []

structure Suggestion where
  id : String
  description : Option Json
  currentExpected : List Int
  observed : Int
  recommendedExpected : List Int
  hint : Option String
  curl : Option String
deriving Inhabited

/-- The suggestion object pushed for result `r` with observed response
`a` (lines 52-60): `Array.from(new Set([...expectedArr, observed]))`
is first-occurrence dedup and `.sort((a, b) => a - b)` ascending sort. -/
def suggestionFor (r : RunResult) (a : ActualResp) : Suggestion :=
  { id := r.id, description := r.description,
    currentExpected := r.expected, observed := a.status,
    recommendedExpected := sortAsc (dedupFirst (r.expected ++ [a.status])),
    hint := r.hint,
    curl := (r.diagnostics).map (·.curl) }

/-- `suggestExpectedStatusUpdates` of runner.service.js.  On runner
results `r.expected.status` is always the normalized array, so the
`Array.isArray` branch is statically taken. -/
def suggestExpectedStatusUpdates (results : List RunResult) :
    List Suggestion :=
  results.foldr
    (fun r acc =>
      match r.actual with
      | none => acc
      | some a =>
        if a.status ∈ r.expected then acc
        else suggestionFor r a :: acc)
    []

structure RunSummary where
  total : Nat
  passed : Nat
  failed : Nat
  errors : Nat
  target : Option String
deriving Inhabited

structure RunOut where
  results : List RunResult
  summary : RunSummary
  suggestions : List Suggestion
deriving Inhabited

/-- `runTestSuite` of runner.service.js.  `concurrency` feeds `pLimit`,
which only bounds how many requests are in flight; with a deterministic
transport each `executeSingleTest` value is independent of scheduling,
and `Promise.all` reassembles results in input order, which the function
below models directly.  (The best-effort suggestion-file write is an
external byte sink whose failure is swallowed; it does not affect the
returned value.) -/
def runTestSuite (testCases : List RunTC) (targetUrl : Option String)
    (concurrency : Nat) (net : Transport) (ajv : AjvOracle) : RunOut :=
  let _ := concurrency
  let results := testCases.map (fun tc => executeSingleTest tc targetUrl net ajv)
  let summary : RunSummary :=
    { total := results.length,
      passed := (results.filter (fun r => strIncludes r.status "PASSED")).length,
      failed := (results.filter (fun r => strIncludes r.status "FAILED")).length,
      errors := (results.filter (fun r => strIncludes r.status "ERROR")).length,
      target := targetUrl }
  { results := results, summary := summary,
    suggestions := suggestExpectedStatusUpdates results }

theorem executeSingleTest_resErr {tc : RunTC} {b : Option String}
    {net : Transport} {ajv : AjvOracle} {msg : String}
    (h : resolveTestUrl tc.request.endpoint b = .error msg) :
    executeSingleTest tc b net ajv = resolutionErrorResult tc msg := by
  simp only [executeSingleTest, h]

theorem executeSingleTest_netErr {tc : RunTC} {b : Option String}
    {net : Transport} {ajv : AjvOracle} {url : String} {e : TransportErr}
    {d : Nat}
    (h1 : resolveTestUrl tc.request.endpoint b = .ok url)
    (h2 : net (buildAxiosCfg tc url) = (.error e, d)) :
    executeSingleTest tc b net ajv =
      transportErrorResult tc url (buildAxiosCfg tc url) e d := by
  simp only [executeSingleTest, h1, h2]

theorem executeSingleTest_netOk {tc : RunTC} {b : Option String}
    {net : Transport} {ajv : AjvOracle} {url : String} {resp : HttpResp}
    {d : Nat}
    (h1 : resolveTestUrl tc.request.endpoint b = .ok url)
    (h2 : net (buildAxiosCfg tc url) = (.ok resp, d)) :
    executeSingleTest tc b net ajv =
      okResult tc url (buildAxiosCfg tc url) ajv resp d := by
  simp only [executeSingleTest, h1, h2]

/-- Each individual result carries exactly one of the three statuses. -/
theorem executeSingleTest_status_cases (tc : RunTC) (b : Option String)
    (net : Transport) (ajv : AjvOracle) :
    (executeSingleTest tc b net ajv).status = "PASSED ✅" ∨
    (executeSingleTest tc b net ajv).status = "FAILED ❌" ∨
    (executeSingleTest tc b net ajv).status = "ERROR ❌" := by
  rcases hres : resolveTestUrl tc.request.endpoint b with msg | url
  · rw [executeSingleTest_resErr hres]
    right; right; rfl
  · rcases hnet : net (buildAxiosCfg tc url) with ⟨out, d⟩
    cases out with
    | error e =>
      rw [executeSingleTest_netErr hres hnet]
      right; right; rfl
    | ok resp =>
      rw [executeSingleTest_netOk hres hnet]
      cases hp : passCond tc ajv resp
      · right; left
        simp [okResult, hp]
      · left
        simp [okResult, hp]

theorem count_partition :
    ∀ (results : List RunResult),
      (∀ r ∈ results, r.status = "PASSED ✅" ∨ r.status = "FAILED ❌" ∨
        r.status = "ERROR ❌") →
      (results.filter (fun r => strIncludes r.status "PASSED")).length +
        (results.filter (fun r => strIncludes r.status "FAILED")).length +
        (results.filter (fun r => strIncludes r.status "ERROR")).length =
        results.length := by
  intro results
  induction results with
  | nil => intro _; rfl
  | cons r rs ih =>
    intro h
    have hr := h r (by simp)
    have hih := ih (fun x hx => h x (by simp [hx]))
    rcases hr with hs | hs | hs <;>
      simp only [List.filter_cons, hs, List.length_cons,
        show strIncludes "PASSED ✅" "PASSED" = true from by decide,
        show strIncludes "PASSED ✅" "FAILED" = false from by decide,
        show strIncludes "PASSED ✅" "ERROR" = false from by decide,
        show strIncludes "FAILED ❌" "PASSED" = false from by decide,
        show strIncludes "FAILED ❌" "FAILED" = true from by decide,
        show strIncludes "FAILED ❌" "ERROR" = false from by decide,
        show strIncludes "ERROR ❌" "PASSED" = false from by decide,
        show strIncludes "ERROR ❌" "FAILED" = false from by decide,
        show strIncludes "ERROR ❌" "ERROR" = true from by decide,
        show (false = true) = False from by simp,
        show (true = true) = True from by simp,
        if_true, if_false, ite_true, ite_false, List.length_cons] <;>
      omega

/-- C9: every result status is one of PASSED/FAILED/ERROR and the summary
satisfies total = number of test cases = passed + failed + errors. -/
theorem c9_runTestSuite_invariants (tcs : List RunTC) (target : Option String)
    (c : Nat) (net : Transport) (ajv : AjvOracle) :
    (∀ r ∈ (runTestSuite tcs target c net ajv).results,
      r.status = "PASSED ✅" ∨ r.status = "FAILED ❌" ∨
      r.status = "ERROR ❌") ∧
    (runTestSuite tcs target c net ajv).summary.total = tcs.length ∧
    (runTestSuite tcs target c net ajv).summary.passed +
      (runTestSuite tcs target c net ajv).summary.failed +
      (runTestSuite tcs target c net ajv).summary.errors =
      (runTestSuite tcs target c net ajv).summary.total := by
  have hmem : ∀ r ∈ (runTestSuite tcs target c net ajv).results,
      r.status = "PASSED ✅" ∨ r.status = "FAILED ❌" ∨
      r.status = "ERROR ❌" := by
    intro r hr
    simp only [runTestSuite, List.mem_map] at hr
    obtain ⟨tc, _, rfl⟩ := hr
    exact executeSingleTest_status_cases tc target net ajv
  refine ⟨hmem, ?_, ?_⟩
  · simp [runTestSuite]
  · have := count_partition (tcs.map
      (fun tc => executeSingleTest tc target net ajv)) (by
        intro r hr
        simp only [List.mem_map] at hr
        obtain ⟨tc, _, rfl⟩ := hr
        exact executeSingleTest_status_cases tc target net ajv)
    simp only [runTestSuite]
    simpa using this

/-- A concrete test case, transport and validator used by witnesses. -/
def tcW : RunTC :=
  RunTC.mk "TC_001" (some (Json.str "valid")) none
    (ReqSpec.mk (some "GET") "/users" [] none)
    (some (ExpResp.mk (some (.inl 200)) none))

def respW : HttpResp := HttpResp.mk 200 "OK" Json.null []

def netW : Transport := fun _ => (.ok respW, 5)

def ajvW : AjvOracle := { ok := fun _ _ => true, errs := fun _ _ => Json.null }

/-- C9 witness at one concrete test case and deterministic transport. -/
theorem c9_runTestSuite_invariants_witness :
    (runTestSuite [tcW] (some "http://x.com") 5 netW ajvW).summary.total = 1 ∧
    (runTestSuite [tcW] (some "http://x.com") 5 netW ajvW).summary.passed +
      (runTestSuite [tcW] (some "http://x.com") 5 netW ajvW).summary.failed +
      (runTestSuite [tcW] (some "http://x.com") 5 netW ajvW).summary.errors =
      (runTestSuite [tcW] (some "http://x.com") 5 netW ajvW).summary.total ∧
    ((executeSingleTest tcW (some "http://x.com") netW ajvW).status =
        "PASSED ✅" ∨
      (executeSingleTest tcW (some "http://x.com") netW ajvW).status =
        "FAILED ❌" ∨
      (executeSingleTest tcW (some "http://x.com") netW ajvW).status =
        "ERROR ❌") := by
  have h := c9_runTestSuite_invariants [tcW] (some "http://x.com") 5 netW ajvW
  refine ⟨h.2.1.trans (by rfl), h.2.2, ?_⟩
  exact h.1 (executeSingleTest tcW (some "http://x.com") netW ajvW)
    (by simp [runTestSuite])

/-- C5: for a transport-complete exchange the result is PASSED iff the
observed status is in the expected set and, when a schema is supplied,
the body validates; otherwise it is FAILED. -/
theorem c5_passed_iff (tc : RunTC) (b : Option String) (net : Transport)
    (ajv : AjvOracle) (url : String) (resp : HttpResp) (d : Nat)
    (h1 : resolveTestUrl tc.request.endpoint b = .ok url)
    (h2 : net (buildAxiosCfg tc url) = (.ok resp, d)) :
    ((executeSingleTest tc b net ajv).status = "PASSED ✅" ↔
      (resp.status ∈ normalizeExpectedStatuses
          ((tc.expected_response).bind (·.status)) ∧
        ∀ sch, schemaOf tc = some sch → ajv.ok sch resp.data = true)) ∧
    ((executeSingleTest tc b net ajv).status = "PASSED ✅" ∨
      (executeSingleTest tc b net ajv).status = "FAILED ❌") := by
  rw [executeSingleTest_netOk h1 h2]
  constructor
  · constructor
    · intro hp
      by_cases hc : passCond tc ajv resp = true
      · unfold passCond schemaOkB at hc
        rw [Bool.and_eq_true] at hc
        constructor
        · have := hc.1
          simpa using this
        · intro sch hsch
          have := hc.2
          rw [hsch] at this
          exact this
      · rw [show (okResult tc url (buildAxiosCfg tc url) ajv resp d).status =
          (if passCond tc ajv resp then "PASSED ✅" else "FAILED ❌")
          from rfl, if_neg hc] at hp
        exact absurd hp (by decide)
    · intro ⟨hmem, hsch⟩
      have hc : passCond tc ajv resp = true := by
        unfold passCond schemaOkB
        rw [Bool.and_eq_true]
        refine ⟨by simpa using hmem, ?_⟩
        cases hs : schemaOf tc with
        | none => rfl
        | some sch => exact hsch sch hs
      rw [show (okResult tc url (buildAxiosCfg tc url) ajv resp d).status =
        (if passCond tc ajv resp then "PASSED ✅" else "FAILED ❌")
        from rfl, if_pos hc]
  · cases hc : passCond tc ajv resp
    · right
      simp [okResult, hc]
    · left
      simp [okResult, hc]

/-- C5 witness: expected 200, observed 200, no schema. -/
theorem c5_passed_iff_witness :
    (executeSingleTest tcW (some "http://x.com") netW ajvW).status =
      "PASSED ✅" := by
  have h := c5_passed_iff tcW (some "http://x.com") netW ajvW
    "http://x.com/users" respW 5 rfl rfl
  apply h.1.mpr
  refine ⟨by simp [respW, tcW, normalizeExpectedStatuses], ?_⟩
  intro sch hsch
  simp [schemaOf, tcW] at hsch

/-- C10: with `expected_response.status` absent (or null) the runner uses
the default expected set `[200]` — reported in every result, including
resolution-error and transport-error results — and classifies
transport-complete exchanges against it. -/
theorem c10_default_expected (tc : RunTC) (b : Option String)
    (net : Transport) (ajv : AjvOracle)
    (h : (tc.expected_response).bind (·.status) = none) :
    ((executeSingleTest tc b net ajv).expected = [200]) ∧
    (∀ url resp d, resolveTestUrl tc.request.endpoint b = .ok url →
      net (buildAxiosCfg tc url) = (.ok resp, d) →
      ((executeSingleTest tc b net ajv).status = "PASSED ✅" ↔
        resp.status ∈ ([200] : List Int) ∧
        ∀ sch, schemaOf tc = some sch → ajv.ok sch resp.data = true)) := by
  constructor
  · rcases hres : resolveTestUrl tc.request.endpoint b with msg | url
    · rw [executeSingleTest_resErr hres]
      show normalizeExpectedStatuses ((tc.expected_response).bind (·.status)) = _
      rw [h]
      rfl
    · rcases hnet : net (buildAxiosCfg tc url) with ⟨out, d⟩
      cases out with
      | error e =>
        rw [executeSingleTest_netErr hres hnet]
        show normalizeExpectedStatuses ((tc.expected_response).bind (·.status)) = _
        rw [h]
        rfl
      | ok resp =>
        rw [executeSingleTest_netOk hres hnet]
        show normalizeExpectedStatuses ((tc.expected_response).bind (·.status)) = _
        rw [h]
        rfl
  · intro url resp d h1 h2
    have h5 := (c5_passed_iff tc b net ajv url resp d h1 h2).1
    rw [h] at h5
    exact h5

/-- C10 witness: a test case with no `expected_response`, one completed
exchange and one resolution failure. -/
theorem c10_default_expected_witness :
    ((executeSingleTest (RunTC.mk "TC_001" none none
        (ReqSpec.mk (some "GET") "/users" [] none) none)
        (some "http://x.com") netW ajvW).expected = [200]) ∧
    ((executeSingleTest (RunTC.mk "TC_002" none none
        (ReqSpec.mk (some "GET") "/users" [] none) none)
        none netW ajvW).expected = [200]) := by
  refine ⟨(c10_default_expected (RunTC.mk "TC_001" none none
    (ReqSpec.mk (some "GET") "/users" [] none) none)
    (some "http://x.com") netW ajvW rfl).1, ?_⟩
  exact (c10_default_expected (RunTC.mk "TC_002" none none
    (ReqSpec.mk (some "GET") "/users" [] none) none) none netW ajvW rfl).1

theorem insertAsc_perm (x : Int) : ∀ l : List Int, List.Perm (insertAsc x l) (x :: l) := by
  intro l
  induction l with
  | nil => exact List.Perm.refl _
  | cons y ys ih =>
    show List.Perm (if x ≤ y then x :: y :: ys else y :: insertAsc x ys) _
    split
    · exact List.Perm.refl _
    · exact List.Perm.trans (List.Perm.cons y ih) (List.Perm.swap x y ys)

theorem insertAsc_sorted (x : Int) :
    ∀ {l : List Int}, l.Sorted (· ≤ ·) → (insertAsc x l).Sorted (· ≤ ·) := by
  intro l
  induction l with
  | nil => intro _; simp [insertAsc]
  | cons y ys ih =>
    intro h
    rw [List.sorted_cons] at h
    show (if x ≤ y then x :: y :: ys else y :: insertAsc x ys).Sorted (· ≤ ·)
    split
    · rename_i hxy
      rw [List.sorted_cons]
      refine ⟨?_, List.sorted_cons.mpr h⟩
      intro b hb
      rcases List.mem_cons.1 hb with rfl | hb2
      · exact hxy
      · exact le_trans hxy (h.1 b hb2)
    · rename_i hxy
      push_neg at hxy
      rw [List.sorted_cons]
      constructor
      · intro b hb
        have := (insertAsc_perm x ys).mem_iff.1 hb
        rcases List.mem_cons.1 this with rfl | hb2
        · exact le_of_lt hxy
        · exact h.1 b hb2
      · exact ih h.2

theorem sortAsc_perm (l : List Int) : List.Perm (sortAsc l) l := by
  induction l with
  | nil => exact List.Perm.refl _
  | cons x xs ih =>
    show List.Perm (insertAsc x (sortAsc xs)) (x :: xs)
    exact List.Perm.trans (insertAsc_perm x _) (List.Perm.cons x ih)

theorem sortAsc_sorted (l : List Int) : (sortAsc l).Sorted (· ≤ ·) := by
  induction l with
  | nil => simp [sortAsc]
  | cons x xs ih => exact insertAsc_sorted x ih

theorem dedupFirst_go :
    ∀ (l acc : List Int), acc.Nodup →
      (l.foldl (fun acc x => if x ∈ acc then acc else acc ++ [x]) acc).Nodup ∧
      (∀ x, x ∈ l.foldl (fun acc x => if x ∈ acc then acc else acc ++ [x]) acc ↔
        x ∈ acc ∨ x ∈ l) := by
  intro l
  induction l with
  | nil =>
    intro acc h
    exact ⟨h, fun x => by simp⟩
  | cons y ys ih =>
    intro acc h
    by_cases hy : y ∈ acc
    · have := ih acc h
      simp only [List.foldl_cons, if_pos hy]
      refine ⟨(ih acc h).1, fun x => ?_⟩
      rw [(ih acc h).2 x]
      constructor
      · rintro (hx | hx)
        · exact Or.inl hx
        · exact Or.inr (by simp [hx])
      · rintro (hx | hx)
        · exact Or.inl hx
        · rcases List.mem_cons.1 hx with rfl | hx2
          · exact Or.inl hy
          · exact Or.inr hx2
    · have hacc : (acc ++ [y]).Nodup := by
        rw [List.nodup_append]
        exact ⟨h, List.nodup_singleton y, by simpa using hy⟩
      simp only [List.foldl_cons, if_neg hy]
      refine ⟨(ih (acc ++ [y]) hacc).1, fun x => ?_⟩
      rw [(ih (acc ++ [y]) hacc).2 x]
      constructor
      · rintro (hx | hx)
        · rcases List.mem_append.1 hx with hx2 | hx2
          · exact Or.inl hx2
          · simp at hx2; exact Or.inr (by simp [hx2])
        · exact Or.inr (by simp [hx])
      · rintro (hx | hx)
        · exact Or.inl (by simp [hx])
        · rcases List.mem_cons.1 hx with rfl | hx2
          · exact Or.inl (by simp)
          · exact Or.inr hx2

theorem dedupFirst_nodup (l : List Int) : (dedupFirst l).Nodup :=
  (dedupFirst_go l [] List.nodup_nil).1

theorem dedupFirst_mem (l : List Int) (x : Int) :
    x ∈ dedupFirst l ↔ x ∈ l := by
  rw [show dedupFirst l =
    l.foldl (fun acc x => if x ∈ acc then acc else acc ++ [x]) [] from rfl,
    (dedupFirst_go l [] List.nodup_nil).2 x]
  simp

/-- Spec-side selection (C6): a suggestion exactly for each non-PASSED
result that has an observed status not already in its expected set. -/
def specSuggestions (results : List RunResult) : List Suggestion :=
  results.foldr
    (fun r acc =>
      match r.actual with
      | none => acc
      | some a =>
        if r.status ≠ "PASSED ✅" ∧ a.status ∉ r.expected
        then suggestionFor r a :: acc else acc)
    []

theorem suggest_cons (r : RunResult) (rs : List RunResult) :
    suggestExpectedStatusUpdates (r :: rs) =
      (match r.actual with
       | none => suggestExpectedStatusUpdates rs
       | some a =>
         if a.status ∈ r.expected then suggestExpectedStatusUpdates rs
         else suggestionFor r a :: suggestExpectedStatusUpdates rs) := rfl

theorem specSuggestions_cons (r : RunResult) (rs : List RunResult) :
    specSuggestions (r :: rs) =
      (match r.actual with
       | none => specSuggestions rs
       | some a =>
         if r.status ≠ "PASSED ✅" ∧ a.status ∉ r.expected
         then suggestionFor r a :: specSuggestions rs
         else specSuggestions rs) := rfl

/-- A completed exchange whose observed status is outside the expected
set is classified FAILED, never PASSED. -/
theorem executeSingleTest_failed_of_notmem (tc : RunTC) (b : Option String)
    (net : Transport) (ajv : AjvOracle) (a : ActualResp)
    (h1 : (executeSingleTest tc b net ajv).actual = some a)
    (h2 : a.status ∉ (executeSingleTest tc b net ajv).expected) :
    (executeSingleTest tc b net ajv).status = "FAILED ❌" := by
  rcases hres : resolveTestUrl tc.request.endpoint b with msg | url
  · rw [executeSingleTest_resErr hres] at h1
    exact absurd h1 (by simp [resolutionErrorResult])
  · rcases hnet : net (buildAxiosCfg tc url) with ⟨out, d⟩
    cases out with
    | error e =>
      rw [executeSingleTest_netErr hres hnet] at h1
      exact absurd h1 (by simp [transportErrorResult])
    | ok resp =>
      rw [executeSingleTest_netOk hres hnet] at h1 h2 ⊢
      have ha : a = ActualResp.mk resp.status resp.statusText
          (truncateBody resp.data) resp.headers :=
        (Option.some.inj h1).symm
      have hexp : resp.status ∉ normalizeExpectedStatuses
          ((tc.expected_response).bind (·.status)) := by
        have := h2
        rw [ha] at this
        exact this
      have hpc : passCond tc ajv resp = false := by
        cases hc : passCond tc ajv resp
        · rfl
        · exfalso
          unfold passCond at hc
          rw [Bool.and_eq_true] at hc
          have hmem : resp.status ∈ normalizeExpectedStatuses
              ((tc.expected_response).bind (·.status)) := by
            simpa using hc.1
          exact hexp hmem
      simp [okResult, hpc]

theorem suggest_eq_spec :
    ∀ (results : List RunResult),
      (∀ r ∈ results, ∀ a, r.actual = some a →
        a.status ∉ r.expected → r.status ≠ "PASSED ✅") →
      suggestExpectedStatusUpdates results = specSuggestions results := by
  intro results
  induction results with
  | nil => intro _; rfl
  | cons r rs ih =>
    intro h
    have hr := h r (by simp)
    have hih := ih (fun x hx => h x (by simp [hx]))
    rw [suggest_cons, specSuggestions_cons, hih]
    cases hact : r.actual with
    | none => rfl
    | some a =>
      show (if a.status ∈ r.expected then specSuggestions rs
            else suggestionFor r a :: specSuggestions rs) =
           (if r.status ≠ "PASSED ✅" ∧ a.status ∉ r.expected
            then suggestionFor r a :: specSuggestions rs
            else specSuggestions rs)
      by_cases hm : a.status ∈ r.expected
      · rw [if_pos hm, if_neg (fun hc => hc.2 hm)]
      · rw [if_neg hm, if_pos ⟨hr a hact hm, hm⟩]

theorem suggest_mem_shape :
    ∀ (results : List RunResult), ∀ s ∈ suggestExpectedStatusUpdates results,
      s.recommendedExpected =
        sortAsc (dedupFirst (s.currentExpected ++ [s.observed])) := by
  intro results
  induction results with
  | nil =>
    intro s hs
    exact absurd hs (by simp [suggestExpectedStatusUpdates])
  | cons r rs ih =>
    intro s hs
    rw [suggest_cons] at hs
    cases hact : r.actual with
    | none =>
      simp only [hact] at hs
      exact ih s hs
    | some a =>
      simp only [hact] at hs
      by_cases hm : a.status ∈ r.expected
      · rw [if_pos hm] at hs
        exact ih s hs
      · rw [if_neg hm] at hs
        rcases List.mem_cons.1 hs with rfl | hs2
        · rfl
        · exact ih s hs2

theorem sortAsc_nodup {l : List Int} (h : l.Nodup) : (sortAsc l).Nodup :=
  ((sortAsc_perm l).nodup_iff).2 h

theorem sortAsc_mem (l : List Int) (x : Int) : x ∈ sortAsc l ↔ x ∈ l :=
  (sortAsc_perm l).mem_iff

/-- The recommended set is sorted ascending, duplicate-free, and holds
exactly the current expected statuses together with the observed one. -/
theorem recommended_props (ce : List Int) (ob : Int) :
    (sortAsc (dedupFirst (ce ++ [ob]))).Sorted (· ≤ ·) ∧
    (sortAsc (dedupFirst (ce ++ [ob]))).Nodup ∧
    (∀ x, x ∈ sortAsc (dedupFirst (ce ++ [ob])) ↔ x ∈ ce ∨ x = ob) := by
  refine ⟨sortAsc_sorted _, sortAsc_nodup (dedupFirst_nodup _), fun x => ?_⟩
  rw [sortAsc_mem, dedupFirst_mem, List.mem_append, List.mem_singleton]

def resp201 : HttpResp := HttpResp.mk 201 "Created" Json.null []

def net201 : Transport := fun _ => (.ok resp201, 3)

/-- C6: over every run, the suggestion list is exactly the spec's
selection — one suggestion for each non-PASSED result whose observed
status is not already in its expected set, in result order — and each
suggestion's recommendedExpected is sorted ascending, duplicate-free,
and holds exactly the union of the current expected set and the
observed status. -/
theorem c6_suggestions (tcs : List RunTC) (target : Option String)
    (c : Nat) (net : Transport) (ajv : AjvOracle) :
    ((runTestSuite tcs target c net ajv).suggestions =
      specSuggestions (runTestSuite tcs target c net ajv).results) ∧
    (∀ s ∈ (runTestSuite tcs target c net ajv).suggestions,
      s.recommendedExpected.Sorted (· ≤ ·) ∧
      s.recommendedExpected.Nodup ∧
      (∀ x, x ∈ s.recommendedExpected ↔
        x ∈ s.currentExpected ∨ x = s.observed)) := by
  constructor
  · show suggestExpectedStatusUpdates
        (tcs.map (fun tc => executeSingleTest tc target net ajv)) =
      specSuggestions
        (tcs.map (fun tc => executeSingleTest tc target net ajv))
    apply suggest_eq_spec
    intro r hr a hact hnm
    simp only [List.mem_map] at hr
    obtain ⟨tc, _, rfl⟩ := hr
    rw [executeSingleTest_failed_of_notmem tc target net ajv a hact hnm]
    decide
  · intro s hs
    have hs2 : s ∈ suggestExpectedStatusUpdates
        (tcs.map (fun tc => executeSingleTest tc target net ajv)) := hs
    have hshape := suggest_mem_shape _ s hs2
    rw [hshape]
    exact recommended_props s.currentExpected s.observed

/-- C6 witness: a case expecting 200 that observes 201 is FAILED and
its single suggestion recommends the expected set [200, 201]. -/
theorem c6_suggestions_witness :
    ((runTestSuite [tcW] (some "http://x.com") 5 net201 ajvW).suggestions =
      specSuggestions
        (runTestSuite [tcW] (some "http://x.com") 5 net201 ajvW).results) ∧
    ((runTestSuite [tcW] (some "http://x.com") 5 net201 ajvW).results.map
      (·.status) = ["FAILED ❌"]) ∧
    ((runTestSuite [tcW] (some "http://x.com") 5 net201 ajvW).suggestions.map
      (·.recommendedExpected) = [[200, 201]]) :=
  ⟨(c6_suggestions [tcW] (some "http://x.com") 5 net201 ajvW).1,
   by rfl, by rfl⟩

/-- After folding deterministic writes `slots[i] := v i` over any list of
indices, a slot holds `v j` once `j` was written (later writes repeat the
same value), and keeps its initial content otherwise. -/
theorem foldl_set_getElem? {γ : Type} (v : Nat → γ) :
    ∀ (order : List Nat) (init : List γ) (j : Nat),
      (order.foldl (fun slots i => slots.set i (v i)) init)[j]? =
        if j ∈ order ∧ j < init.length then some (v j) else init[j]? := by
  intro order
  induction order with
  | nil =>
    intro init j
    simp
  | cons i rest ih =>
    intro init j
    rw [List.foldl_cons, ih (init.set i (v i)) j, List.length_set]
    by_cases hjr : j ∈ rest ∧ j < init.length
    · rw [if_pos hjr, if_pos ⟨List.mem_cons.2 (Or.inr hjr.1), hjr.2⟩]
    · rw [if_neg hjr]
      by_cases hji : j = i
      · subst hji
        by_cases hlt : j < init.length
        · rw [List.getElem?_set_self hlt,
            if_pos ⟨List.mem_cons.2 (Or.inl rfl), hlt⟩]
        · rw [List.set_eq_of_length_le (Nat.le_of_not_lt hlt),
            if_neg (fun hc => hlt hc.2)]
      · rw [List.getElem?_set_ne (fun hc => hji hc.symm),
          if_neg (fun hc => hjr ⟨(List.mem_cons.1 hc.1).resolve_left hji, hc.2⟩)]

/-- `Promise.all` reassembly: tasks complete in the arbitrary order
`order`, each completion writing its value into its input-index slot. -/
def reassemble {α β : Type} (g : α → β) (l : List α) (order : List Nat) :
    List (Option β) :=
  order.foldl (fun slots i => slots.set i ((l[i]?).map g))
    (List.replicate l.length none)

/-- Whatever permutation of the input indices the completion order is,
the reassembled slot array is the input-order list of task values. -/
theorem reassemble_perm {α β : Type} (g : α → β) (l : List α)
    (order : List Nat) (h : List.Perm order (List.range l.length)) :
    reassemble g l order = l.map (fun a => some (g a)) := by
  apply List.ext_getElem?
  intro j
  rw [reassemble, foldl_set_getElem? (fun i => (l[i]?).map g) order _ j]
  simp only [List.length_replicate, List.getElem?_replicate, List.getElem?_map]
  have hmem : j ∈ order ↔ j < l.length := by
    rw [h.mem_iff, List.mem_range]
  by_cases hj : j < l.length
  · rw [if_pos ⟨hmem.2 hj, hj⟩, List.getElem?_eq_getElem hj]
    rfl
  · rw [if_neg (fun hc => hj hc.2), if_neg hj,
      List.getElem?_eq_none (Nat.le_of_not_lt hj)]
    rfl

/-- Every result carries the id of its test case. -/
theorem executeSingleTest_id (tc : RunTC) (b : Option String)
    (net : Transport) (ajv : AjvOracle) :
    (executeSingleTest tc b net ajv).id = tc.id := by
  rcases hres : resolveTestUrl tc.request.endpoint b with msg | url
  · rw [executeSingleTest_resErr hres]; rfl
  · rcases hnet : net (buildAxiosCfg tc url) with ⟨out, d⟩
    cases out with
    | error e => rw [executeSingleTest_netErr hres hnet]; rfl
    | ok resp => rw [executeSingleTest_netOk hres hnet]; rfl

/-- C8: with a deterministic transport, reassembling under any completion
order (any permutation of the input indices) yields exactly the runner's
result list in input order; two runs differing only in their concurrency
settings in [1, 50] return identical output (same per-ID classifications
and summary counts); and results correspond positionally to the input
test cases by id. -/
theorem c8_order_insensitive (tcs : List RunTC) (target : Option String)
    (net : Transport) (ajv : AjvOracle) (c1 c2 : Nat)
    (h1 : 1 ≤ c1 ∧ c1 ≤ 50) (h2 : 1 ≤ c2 ∧ c2 ≤ 50) :
    (∀ order : List Nat, List.Perm order (List.range tcs.length) →
      reassemble (fun tc => executeSingleTest tc target net ajv) tcs order =
        (runTestSuite tcs target c1 net ajv).results.map some) ∧
    runTestSuite tcs target c1 net ajv = runTestSuite tcs target c2 net ajv ∧
    (runTestSuite tcs target c1 net ajv).results.map (·.id) =
      tcs.map (·.id) := by
  refine ⟨?_, rfl, ?_⟩
  · intro order hord
    rw [reassemble_perm (fun tc => executeSingleTest tc target net ajv)
      tcs order hord]
    show tcs.map (fun a => some (executeSingleTest a target net ajv)) =
      (tcs.map (fun tc => executeSingleTest tc target net ajv)).map some
    rw [List.map_map]
    rfl
  · show (tcs.map (fun tc => executeSingleTest tc target net ajv)).map (·.id) =
      tcs.map (·.id)
    rw [List.map_map]
    exact List.map_congr_left (fun tc _ => executeSingleTest_id tc target net ajv)

/-- C8 witness: one test case, concurrency 1 versus 10, completion order
[0]. -/
theorem c8_order_insensitive_witness :
    (1 ≤ 1 ∧ 1 ≤ 50) ∧ (1 ≤ 10 ∧ 10 ≤ 50) ∧
    (runTestSuite [tcW] (some "http://x.com") 1 netW ajvW =
      runTestSuite [tcW] (some "http://x.com") 10 netW ajvW) ∧
    (reassemble (fun tc => executeSingleTest tc (some "http://x.com") netW ajvW)
        [tcW] [0] =
      (runTestSuite [tcW] (some "http://x.com") 1 netW ajvW).results.map some) ∧
    ((runTestSuite [tcW] (some "http://x.com") 1 netW ajvW).results.map (·.id) =
      ["TC_001"]) := by
  have h := c8_order_insensitive [tcW] (some "http://x.com") netW ajvW 1 10
    (by decide) (by decide)
  exact ⟨by decide, by decide, h.2.1, h.1 [0] (by decide),
    h.2.2.trans (by rfl)⟩

/- ---------------------------------------------------------------
   Probing (nvidia.service.js): normalizeHeaders, probeEndpoint,
   probeAuthHeaderTypes
----------------------------------------------------------------- -/

/-- `normalizeHeaders` of nvidia.service.js: non-objects (and arrays)
give an empty map; null/undefined values are dropped; object and array
values are JSON-stringified, other values are `String(...)`-coerced. -/
def normalizeHeaders (value : Json) : List (String × Json) :=
  match value with
  | Json.obj kvs =>
    kvs.filterMap (fun kv =>
      match kv.2 with
      | Json.null => none
      | Json.obj o => some (kv.1, Json.str (renderJson (Json.obj o)))
      | Json.arr a => some (kv.1, Json.str (renderJson (Json.arr a)))
      | v => some (kv.1, Json.str (jsToString v)))
  | _ => []

/-- The spec object handed to the probing helpers. -/
structure ProbeSpec where
  endpoint : String
  targetUrl : Option String
  baseUrl : Option String
  method : Option String
  headers : Json
  body : Option Json
  sampleValidToken : Option String
  sampleValidApiKey : Option String
deriving Inhabited

/-- The probes' HTTP client: `String(e)` of a thrown request error, or
the completed response (any status code — `validateStatus: null`). -/
def ProbeNet : Type := AxiosCfg → Except String HttpResp

def strFalsy : Option String → Bool
  | none => true
  | some s => s = ""

/-- `spec.targetUrl || spec.baseUrl || undefined`. -/
def probeBase (sp : ProbeSpec) : Option String :=
  if strFalsy sp.targetUrl then
    (if strFalsy sp.baseUrl then none else sp.baseUrl)
  else sp.targetUrl

/-- `(spec.method || "GET").toUpperCase()`. -/
def probeMethod (sp : ProbeSpec) : String :=
  strUpper (match sp.method with
    | none => "GET"
    | some m => if m = "" then "GET" else m)

/-- `normalizeHeaders(spec.headers || {})`. -/
def pbBaseHeaders (sp : ProbeSpec) : List (String × Json) :=
  normalizeHeaders (jsOr sp.headers (Json.obj []))

def pbInvalidHeaders (sp : ProbeSpec) : List (String × Json) :=
  objAssign (pbBaseHeaders sp) [("Authorization", Json.str "Bearer WRONG")]

def pbRateHeaders (sp : ProbeSpec) : List (String × Json) :=
  objAssign (pbBaseHeaders sp) [("X-Test-Rate", Json.str "true")]

def pbTokenHeaders (sp : ProbeSpec) (tok : String) : List (String × Json) :=
  objAssign (pbBaseHeaders sp) [("Authorization", Json.str ("Bearer " ++ tok))]

def pbApiKeyHeaders (sp : ProbeSpec) (key : String) : List (String × Json) :=
  objAssign (pbBaseHeaders sp) [("x-api-key", Json.str key)]

/-- `data: spec.body ?? null`. -/
def pbData (sp : ProbeSpec) : Option Json := some (jsNullish sp.body Json.null)

/-- One probe request configuration (`{ url, method, data, headers,
timeout, validateStatus: null, maxRedirects: 5 }`). -/
def peCfg (sp : ProbeSpec) (url : String) (t : Nat)
    (hdrs : List (String × Json)) : AxiosCfg :=
  AxiosCfg.mk (probeMethod sp) url hdrs (pbData sp) t 5

/-- One recorded probe sample: `{ status, body, headers, curl }`. -/
structure ProbeHit where
  status : Int
  body : Json
  headers : List (String × Json)
  curl : String
deriving Inhabited

def pbHit (method url : String) (curlHeaders : List (String × Json))
    (body : Option Json) (r : HttpResp) : ProbeHit :=
  ProbeHit.mk r.status r.data r.headers (buildCurl method url curlHeaders body)

/-- The `results` object `probeEndpoint` returns: the five possible
sample keys plus the single top-level `error` key the one catch block
writes. -/
structure ProbeOut where
  noAuth : Option ProbeHit
  invalidAuth : Option ProbeHit
  rateLimit : Option ProbeHit
  validAuth : Option ProbeHit
  validApiKey : Option ProbeHit
  error : Option String
deriving Inhabited

/-- Tail of `probeEndpoint` (optional `validApiKey` request). -/
def probeEndpointKey (sp : ProbeSpec) (t : Nat) (net : ProbeNet)
    (url : String) (h1 h2 h3 : ProbeHit) (h4 : Option ProbeHit) : ProbeOut :=
  match sp.sampleValidApiKey with
  | none => ProbeOut.mk (some h1) (some h2) (some h3) h4 none none
  | some key =>
    if key = "" then ProbeOut.mk (some h1) (some h2) (some h3) h4 none none
    else
      match net (peCfg sp url t
          (normalizeHeaders (Json.obj (pbApiKeyHeaders sp key)))) with
      | .error e => ProbeOut.mk (some h1) (some h2) (some h3) h4 none (some e)
      | .ok r5 =>
        ProbeOut.mk (some h1) (some h2) (some h3) h4
          (some (pbHit (probeMethod sp) url (pbApiKeyHeaders sp key) sp.body r5))
          none

/-- Tail of `probeEndpoint` (optional `validAuth` request). -/
def probeEndpointTok (sp : ProbeSpec) (t : Nat) (net : ProbeNet)
    (url : String) (h1 h2 h3 : ProbeHit) : ProbeOut :=
  match sp.sampleValidToken with
  | none => probeEndpointKey sp t net url h1 h2 h3 none
  | some tok =>
    if tok = "" then probeEndpointKey sp t net url h1 h2 h3 none
    else
      match net (peCfg sp url t
          (normalizeHeaders (Json.obj (pbTokenHeaders sp tok)))) with
      | .error e => ProbeOut.mk (some h1) (some h2) (some h3) none none (some e)
      | .ok r4 =>
        probeEndpointKey sp t net url h1 h2 h3
          (some (pbHit (probeMethod sp) url (pbTokenHeaders sp tok) sp.body r4))

/-- Request sequence of `probeEndpoint` after URL resolution.  One
try/catch wraps the whole block: samples recorded before a throw are
kept, the error is written to the top-level `error` key, and the
remaining requests are not attempted. -/
def probeEndpointGo (sp : ProbeSpec) (t : Nat) (net : ProbeNet)
    (url : String) : ProbeOut :=
  match net (peCfg sp url t (pbBaseHeaders sp)) with
  | .error e => ProbeOut.mk none none none none none (some e)
  | .ok r1 =>
    match net (peCfg sp url t
        (normalizeHeaders (Json.obj (pbInvalidHeaders sp)))) with
    | .error e =>
      ProbeOut.mk (some (pbHit (probeMethod sp) url (pbBaseHeaders sp) sp.body r1))
        none none none none (some e)
    | .ok r2 =>
      match net (peCfg sp url t
          (normalizeHeaders (Json.obj (pbRateHeaders sp)))) with
      | .error e =>
        ProbeOut.mk (some (pbHit (probeMethod sp) url (pbBaseHeaders sp) sp.body r1))
          (some (pbHit (probeMethod sp) url (pbInvalidHeaders sp) sp.body r2))
          none none none (some e)
      | .ok r3 =>
        probeEndpointTok sp t net url
          (pbHit (probeMethod sp) url (pbBaseHeaders sp) sp.body r1)
          (pbHit (probeMethod sp) url (pbInvalidHeaders sp) sp.body r2)
          (pbHit (probeMethod sp) url (pbRateHeaders sp) sp.body r3)

/-- `probeEndpoint` of nvidia.service.js. -/
def probeEndpoint (spec : Option ProbeSpec) (t : Nat) (net : ProbeNet) :
    ProbeOut :=
  match spec with
  | none => ProbeOut.mk none none none none none none
  | some sp =>
    if sp.endpoint = "" then ProbeOut.mk none none none none none none
    else
      match resolveTestUrl sp.endpoint (probeBase sp) with
      | .error msg =>
        ProbeOut.mk none none none none none
          (some ("URL resolution error: " ++ msg))
      | .ok url => probeEndpointGo sp t net url

/-- Variant list of `probeAuthHeaderTypes` (name, headers before the
per-request normalization). -/
def paVariants (sp : ProbeSpec) : List (String × List (String × Json)) :=
  [("none", objAssign (pbBaseHeaders sp) []),
   ("authorization_wrong",
     objAssign (pbBaseHeaders sp) [("Authorization", Json.str "Bearer WRONG")]),
   ("x_api_key_wrong",
     objAssign (pbBaseHeaders sp) [("x-api-key", Json.str "WRONG")]),
   ("X-API-KEY_wrong",
     objAssign (pbBaseHeaders sp) [("X-API-KEY", Json.str "WRONG")])]
  ++ (match sp.sampleValidToken with
      | none => []
      | some tok =>
        if tok = "" then []
        else [("authorization_valid", pbTokenHeaders sp tok)])
  ++ (match sp.sampleValidApiKey with
      | none => []
      | some key =>
        if key = "" then []
        else [("x_api_key_valid", pbApiKeyHeaders sp key)])

/-- The request one variant of `probeAuthHeaderTypes` issues. -/
def paCfg (sp : ProbeSpec) (url : String) (t : Nat)
    (v : String × List (String × Json)) : AxiosCfg :=
  peCfg sp url t (normalizeHeaders (Json.obj v.2))

/-- The entry recorded for one variant: its own try/catch maps a thrown
request error to `{ error: String(e) }` for that variant alone. -/
def paEntry (sp : ProbeSpec) (url : String) (t : Nat) (net : ProbeNet)
    (v : String × List (String × Json)) : String × Except String ProbeHit :=
  (v.1, match net (paCfg sp url t v) with
        | .ok r => .ok (pbHit (probeMethod sp) url v.2 sp.body r)
        | .error e => .error e)

/-- The `results` object of `probeAuthHeaderTypes`: the optional
top-level URL-resolution error and the per-variant entries in variant
order. -/
structure PAOut where
  error : Option String
  entries : List (String × Except String ProbeHit)
deriving Inhabited

/-- `probeAuthHeaderTypes` of nvidia.service.js. -/
def probeAuthHeaderTypes (spec : Option ProbeSpec) (t : Nat)
    (net : ProbeNet) : PAOut :=
  match spec with
  | none => PAOut.mk none []
  | some sp =>
    if sp.endpoint = "" then PAOut.mk none []
    else
      match resolveTestUrl sp.endpoint (probeBase sp) with
      | .error msg => PAOut.mk (some ("URL resolution error: " ++ msg)) []
      | .ok url => PAOut.mk none ((paVariants sp).map (paEntry sp url t net))

theorem probeAuthHeaderTypes_ok (sp : ProbeSpec) (t : Nat) (net : ProbeNet)
    (url : String) (hne : ¬ sp.endpoint = "")
    (hurl : resolveTestUrl sp.endpoint (probeBase sp) = .ok url) :
    probeAuthHeaderTypes (some sp) t net =
      PAOut.mk none ((paVariants sp).map (paEntry sp url t net)) := by
  simp only [probeAuthHeaderTypes, if_neg hne, hurl]

theorem probeEndpoint_go (sp : ProbeSpec) (t : Nat) (net : ProbeNet)
    (url : String) (hne : ¬ sp.endpoint = "")
    (hurl : resolveTestUrl sp.endpoint (probeBase sp) = .ok url) :
    probeEndpoint (some sp) t net = probeEndpointGo sp t net url := by
  simp only [probeEndpoint, if_neg hne, hurl]

def specC2 : ProbeSpec :=
  ProbeSpec.mk "/users" (some "http://x.com") none (some "GET")
    Json.null none none none

/-- Fails exactly the request that carries neither an Authorization nor
an X-Test-Rate header (the `noAuth` probe); answers every other probe
request with a completed 200. -/
def netC2 : ProbeNet := fun cfg =>
  if (findHeaderKey cfg.headers "Authorization").isSome ∨
     (findHeaderKey cfg.headers "X-Test-Rate").isSome then
    .ok (HttpResp.mk 200 "OK" Json.null [])
  else .error "Error: connect ECONNREFUSED"

def netC2ok : ProbeNet := fun _ => .ok (HttpResp.mk 200 "OK" Json.null [])

/-- C2 counterexample: in `probeEndpoint` the single try/catch makes the
`noAuth` failure land in the top-level `error` key — not in a per-variant
entry — and the `invalidAuth` and `rateLimit` probes are never attempted,
although the very requests they would have issued succeed under the same
client. -/
theorem c2_probe_single_try_counterexample :
    probeEndpoint (some specC2) 4000 netC2 =
      ProbeOut.mk none none none none none
        (some "Error: connect ECONNREFUSED") ∧
    netC2 (peCfg specC2 "http://x.com/users" 4000
        (normalizeHeaders (Json.obj (pbInvalidHeaders specC2)))) =
      .ok (HttpResp.mk 200 "OK" Json.null []) ∧
    netC2 (peCfg specC2 "http://x.com/users" 4000
        (normalizeHeaders (Json.obj (pbRateHeaders specC2)))) =
      .ok (HttpResp.mk 200 "OK" Json.null []) := by
  exact ⟨rfl, rfl, rfl⟩

/-- C2 (amended): in `probeAuthHeaderTypes` every variant is attempted in
order whatever fails, a thrown request error is recorded as that
variant's own `{ error }` entry, and a variant's entry depends only on
its own request (so failure of one variant never aborts or alters the
others); in `probeEndpoint`, by contrast, a request failure is recorded
once in the top-level `error` field — still never raised to the caller —
and aborts the remaining probe requests. -/
theorem c2_probe_variant_isolation (sp : ProbeSpec) (t : Nat)
    (net net2 : ProbeNet) (url : String)
    (hne : ¬ sp.endpoint = "")
    (hurl : resolveTestUrl sp.endpoint (probeBase sp) = .ok url) :
    ((probeAuthHeaderTypes (some sp) t net).entries.map Prod.fst =
      (paVariants sp).map Prod.fst) ∧
    (∀ i : Nat, ∀ v, (paVariants sp)[i]? = some v → ∀ e,
      net (paCfg sp url t v) = .error e →
      (probeAuthHeaderTypes (some sp) t net).entries[i]? =
        some (v.1, .error e)) ∧
    (∀ i : Nat, ∀ v, (paVariants sp)[i]? = some v →
      net (paCfg sp url t v) = net2 (paCfg sp url t v) →
      (probeAuthHeaderTypes (some sp) t net).entries[i]? =
        (probeAuthHeaderTypes (some sp) t net2).entries[i]?) ∧
    (∀ e, net (peCfg sp url t (pbBaseHeaders sp)) = .error e →
      probeEndpoint (some sp) t net =
        ProbeOut.mk none none none none none (some e)) := by
  refine ⟨?_, ?_, ?_, ?_⟩
  · rw [probeAuthHeaderTypes_ok sp t net url hne hurl]
    show ((paVariants sp).map (paEntry sp url t net)).map Prod.fst = _
    rw [List.map_map]
    exact List.map_congr_left (fun v _ => rfl)
  · intro i v hv e herr
    rw [probeAuthHeaderTypes_ok sp t net url hne hurl]
    show ((paVariants sp).map (paEntry sp url t net))[i]? = _
    rw [List.getElem?_map, hv]
    show some (paEntry sp url t net v) = _
    simp only [paEntry, herr]
  · intro i v hv hagree
    rw [probeAuthHeaderTypes_ok sp t net url hne hurl,
      probeAuthHeaderTypes_ok sp t net2 url hne hurl]
    show ((paVariants sp).map (paEntry sp url t net))[i]? =
      ((paVariants sp).map (paEntry sp url t net2))[i]?
    rw [List.getElem?_map, List.getElem?_map, hv]
    show some (paEntry sp url t net v) = some (paEntry sp url t net2 v)
    simp only [paEntry, hagree]
  · intro e herr
    rw [probeEndpoint_go sp t net url hne hurl]
    simp only [probeEndpointGo, herr]

/-- C2 witness: the concrete client that fails only the bare request.
All four variants of `probeAuthHeaderTypes` are attempted; the failing
`none` variant records its own error entry; the `authorization_wrong`
entry is the same as under a fully-succeeding client; `probeEndpoint`
records the failure once at top level. -/
theorem c2_probe_variant_isolation_witness :
    ((probeAuthHeaderTypes (some specC2) 4000 netC2).entries.map Prod.fst =
      ["none", "authorization_wrong", "x_api_key_wrong", "X-API-KEY_wrong"]) ∧
    ((probeAuthHeaderTypes (some specC2) 4000 netC2).entries[0]? =
      some ("none", .error "Error: connect ECONNREFUSED")) ∧
    ((probeAuthHeaderTypes (some specC2) 4000 netC2).entries[1]? =
      (probeAuthHeaderTypes (some specC2) 4000 netC2ok).entries[1]?) ∧
    (probeEndpoint (some specC2) 4000 netC2 =
      ProbeOut.mk none none none none none
        (some "Error: connect ECONNREFUSED")) := by
  have h := c2_probe_variant_isolation specC2 4000 netC2 netC2ok
    "http://x.com/users" (by decide) (by rfl)
  refine ⟨(h.1).trans (by rfl), ?_, ?_, ?_⟩
  · exact h.2.1 0 ("none", objAssign (pbBaseHeaders specC2) []) (by rfl)
      "Error: connect ECONNREFUSED" (by rfl)
  · exact h.2.2.1 1 ("authorization_wrong",
      objAssign (pbBaseHeaders specC2)
        [("Authorization", Json.str "Bearer WRONG")]) (by rfl) (by rfl)
  · exact h.2.2.2 "Error: connect ECONNREFUSED" (by rfl)

/- ---------------------------------------------------------------
   Test-case generation (nvidia.service.js): generateFallbackTestCases,
   generateTestCases, cache (utils/cache.js: NodeCache stdTTL 300 s)
----------------------------------------------------------------- -/

/-- `o || b` where `o` is an optional JS value (`none` = undefined). -/
def jsOrOpt (a : Option Json) (b : Json) : Json :=
  match a with
  | none => b
  | some v => jsOr v b

/-- `o || d` on an optional string (undefined and `""` are falsy). -/
def strOrD (o : Option String) (d : String) : String :=
  match o with
  | none => d
  | some s => if s = "" then d else s

/-- The spec object `generateTestCases` receives (header/body values as
dynamic JSON; `none` = property absent). -/
structure GenSpec where
  method : Option String
  endpoint : Option String
  headers : Option Json
  body : Option Json
  expStatus : Option Json
  targetUrl : Option String
  baseUrl : Option String
  autoProbe : Bool
  overrides : Option Json
  sampleValidToken : Option String
  sampleValidApiKey : Option String
deriving Inhabited

/-- `spec.method || "GET"` (used unchanged in the cache key). -/
def genMethodRaw (spec : GenSpec) : String := strOrD spec.method "GET"

/-- `(spec.method || "GET").toUpperCase()` (also
`String(spec.method || "GET").toUpperCase()`). -/
def genMethod (spec : GenSpec) : String := strUpper (genMethodRaw spec)

/-- `spec.endpoint || "/"`. -/
def genEndpoint (spec : GenSpec) : String := strOrD spec.endpoint "/"

/-- `spec.headers || \x7b\x7d`. -/
def genHeadersJson (spec : GenSpec) : Json := jsOrOpt spec.headers (Json.obj [])

/-- The cache key
`gen_${spec.method || "GET"}_${spec.endpoint || "/"}_${JSON.stringify(spec.headers || \x7b\x7d)}`. -/
def cacheKey (spec : GenSpec) : String :=
  "gen_" ++ genMethodRaw spec ++ "_" ++ genEndpoint spec ++ "_" ++
    renderJson (genHeadersJson spec)

structure GenSummary where
  total : Nat
  valid : Nat
  invalid : Nat
  boundary : Nat
  security : Nat
deriving Inhabited

/-- The cacheable payload `data` (absent keys as `none`). -/
structure GenData where
  testCases : List Json
  summary : GenSummary
  probeResults : Option Json
  inferred : Option Json
  detected : Option Json
deriving Inhabited

/-- What `generateTestCases` resolves with. -/
structure GenResult where
  data : GenData
  cached : Bool
  note : Option String
deriving Inhabited

structure CacheEntry where
  storedAt : Nat
  data : GenData
deriving Inhabited

/-- The NodeCache of utils/cache.js keyed by string, with `stdTTL: 300`
seconds; `storedAt` in milliseconds of the same clock as `now`. -/
def GenCache : Type := List (String × CacheEntry)

/-- `cache.get(k)` at time `now`: the entry while it is at most 300 000 ms
old, else a miss. -/
def cacheGet (c : GenCache) (now : Nat) (k : String) : Option GenData :=
  match c.find? (fun kv => kv.1 = k) with
  | some kv => if now ≤ kv.2.storedAt + 300000 then some kv.2.data else none
  | none => none

/-- `cache.set(k, d)` at time `now` (overwrite). -/
def cacheSet (c : GenCache) (now : Nat) (k : String) (d : GenData) :
    GenCache :=
  (k, CacheEntry.mk now d) :: c.filter (fun kv => kv.1 != k)

/-- The two kinds of external call the generator can make. -/
inductive GenEffect where
  | probe
  | modelCall
deriving Inhabited, DecidableEq

/-- External collaborators of `generateTestCases`:
`autoDetect` is `autoDetectOverridesAndAuth` (a composite of probe
requests) giving `(res.probe, res.inferred, res.detected)` or throwing;
`modelText` is the NVIDIA model call giving the response text or
throwing; `adjust` is the probe-driven adjustment pass
(`applyProbeToTestCases` plus the detected-header map), which in strict
mode can throw; `scrub` is `scrubSecrets`. -/
structure GenOracles where
  autoDetect : Except Unit (Json × Json × Json)
  modelText : Except Unit String
  adjust : List Json → Except Unit (List Json)
  scrub : Json → Json

def objFields : Json → List (String × Json)
  | Json.obj kvs => kvs
  | _ => []

/-- `o[k]` read defaulting absent to JS `undefined`-as-null for
truthiness tests. -/
def fieldVal (o : Json) (k : String) : Json :=
  (jsFieldOpt (some o) k).getD Json.null

def fieldTruthy (o : Json) (k : String) : Bool :=
  match jsFieldOpt (some o) k with
  | some v => jsTruthy v
  | none => false

/-- `spec.headers || \x7b\x7d` as a field list (headers are taken to be
an object or absent). -/
def headersList (spec : GenSpec) : List (String × Json) :=
  objFields (genHeadersJson spec)

/-- `Number.isFinite(overrides[k]) ? overrides[k] : d`. -/
def ovStatus (ov : Json) (k : String) (d : Int) : Json :=
  if jsIsFiniteNum (jsFieldOpt (some ov) k) then fieldVal ov k
  else Json.num (intLex d)

/-- `spec.expected_response?.status || (method === "POST" ? 201 : 200)`. -/
def fbSuccessStatus (spec : GenSpec) : Json :=
  jsOrOpt spec.expStatus
    (Json.num (intLex (if genMethod spec = "POST" then 201 else 200)))

/-- The `validHeaders` map of `generateFallbackTestCases`. -/
def fbValidHeaders (spec : GenSpec) (detected : Json) :
    List (String × Json) :=
  if fieldTruthy detected "validHeaderName" ∧
     fieldTruthy detected "validHeaderValue" then
    setField (headersList spec)
      (jsToString (fieldVal detected "validHeaderName"))
      (fieldVal detected "validHeaderValue")
  else
    if ¬ jsTruthy (fieldVal (Json.obj (headersList spec)) "Authorization") ∧
       ¬ jsTruthy (fieldVal (Json.obj (headersList spec)) "x-api-key") then
      setField (headersList spec) "Authorization"
        (jsOrOpt (lookupField (headersList spec) "Authorization")
          (Json.str "Bearer VALID"))
    else headersList spec

def fbCase (id cat desc : String) (req : Json) (status : Json) : Json :=
  Json.obj [("id", Json.str id), ("category", Json.str cat),
    ("description", Json.str desc), ("request", req),
    ("expected_response", Json.obj [("status", status)])]

def fbReq (m e : String) (h : Json) (b : Json) : Json :=
  Json.obj [("method", Json.str m), ("endpoint", Json.str e),
    ("headers", h), ("body", b)]

def apos : Char := Char.ofNat 39

/-- The SQL-injection probe string of TC_008. -/
def sqlInjStr : String :=
  ⟨[apos, ' ', 'O', 'R', ' ', apos, '1', apos, '=', apos, '1']⟩

/-- `generateFallbackTestCases` of nvidia.service.js (the twelve cases;
`cases.slice(0, 12)` is the final `take`). -/
def fbCases (spec : GenSpec) (detected : Json) : List Json :=
  ([fbCase "TC_001" "valid" "Valid request with correct headers and auth"
      (fbReq (genMethod spec) (genEndpoint spec)
        (Json.obj (normalizeHeaders (Json.obj (objAssign
          (fbValidHeaders spec detected)
          [("Content-Type", Json.str "application/json")]))))
        (jsNullish spec.body (Json.obj [("sample", Json.bool true)])))
      (fbSuccessStatus spec),
    fbCase "TC_002" "invalid" "Missing required parameter or field"
      (fbReq (genMethod spec) (genEndpoint spec ++ "?missing=true")
        (Json.obj (normalizeHeaders (spec.headers.getD Json.null)))
        (if genMethod spec = "POST" then Json.obj [] else Json.null))
      (ovStatus (jsOrOpt spec.overrides (Json.obj [])) "invalidStatus" 400),
    fbCase "TC_003" "invalid" "Empty JSON body"
      (fbReq (genMethod spec) (genEndpoint spec)
        (Json.obj [("Content-Type", Json.str "application/json")])
        (Json.obj []))
      (ovStatus (jsOrOpt spec.overrides (Json.obj [])) "invalidStatus" 400),
    fbCase "TC_004" "invalid" "Missing API key"
      (fbReq (genMethod spec) (genEndpoint spec)
        (Json.obj (normalizeHeaders (genHeadersJson spec))) Json.null)
      (ovStatus (jsOrOpt spec.overrides (Json.obj [])) "authErrorStatus" 401),
    fbCase "TC_005" "invalid" "Invalid API key"
      (fbReq (genMethod spec) (genEndpoint spec)
        (Json.obj (objAssign (headersList spec)
          [("Authorization", Json.str "Bearer WRONG")])) Json.null)
      (ovStatus (jsOrOpt spec.overrides (Json.obj [])) "authErrorStatus" 401),
    fbCase "TC_006" "invalid" "Rate limit exceeded test"
      (fbReq (genMethod spec) (genEndpoint spec)
        (Json.obj (objAssign (headersList spec)
          [("X-Test-Rate", Json.str "true")])) Json.null)
      (ovStatus (jsOrOpt spec.overrides (Json.obj [])) "rateLimitStatus" 429),
    fbCase "TC_007" "boundary" "Very long string field"
      (fbReq (genMethod spec) (genEndpoint spec)
        (Json.obj [("Content-Type", Json.str "application/json")])
        (Json.obj [("name", Json.str ⟨List.replicate 2000 'x'⟩)]))
      (ovStatus (jsOrOpt spec.overrides (Json.obj [])) "invalidStatus" 400),
    fbCase "TC_008" "security" "SQL injection attempt in body"
      (fbReq (genMethod spec) (genEndpoint spec)
        (Json.obj [("Content-Type", Json.str "application/json")])
        (Json.obj [("name", Json.str sqlInjStr)]))
      (ovStatus (jsOrOpt spec.overrides (Json.obj [])) "invalidStatus" 400),
    fbCase "TC_009" "invalid" "Duplicate resource (simulate conflict)"
      (fbReq (genMethod spec) (genEndpoint spec)
        (Json.obj (objAssign (fbValidHeaders spec detected)
          [("Content-Type", Json.str "application/json")]))
        (Json.obj [("id", Json.str "existing-id"), ("name", Json.str "dup")]))
      (ovStatus (jsOrOpt spec.overrides (Json.obj [])) "conflictStatus" 409),
    fbCase "TC_010" "invalid" "Wrong Content-Type header"
      (fbReq (genMethod spec) (genEndpoint spec)
        (Json.obj [("Content-Type", Json.str "text/plain")])
        (Json.str (renderJson (jsNullish spec.body
          (Json.obj [("sample", Json.bool true)])))))
      (ovStatus (jsOrOpt spec.overrides (Json.obj [])) "invalidStatus" 400),
    fbCase "TC_011" "valid" "Valid request with query params and auth"
      (fbReq (genMethod spec) (genEndpoint spec ++ "?q=test")
        (Json.obj (normalizeHeaders (Json.obj (objAssign
          (fbValidHeaders spec detected)
          [("Content-Type", Json.str "application/json")])))) Json.null)
      (fbSuccessStatus spec),
    fbCase "TC_012" "valid" "Valid request with optional X-Debug header"
      (fbReq (genMethod spec) (genEndpoint spec)
        (Json.obj (normalizeHeaders (Json.obj (objAssign
          (fbValidHeaders spec detected)
          [("X-Debug", Json.str "true")])))) Json.null)
      (fbSuccessStatus spec)]).take 12

def natStr (n : Nat) : String := ⟨natDigits n⟩

def isDigitCh (c : Char) : Bool := '0' ≤ c ∧ c ≤ '9'

def digitsVal (cs : List Char) : Nat :=
  cs.foldl (fun a c => a * 10 + (c.toNat - 48)) 0

/-- JS `parseInt(String(v), 10)`: skip leading whitespace, optional
sign, then the longest digit prefix; `NaN` when there is none. -/
def parseIntStr (s : String) : Json :=
  match s.data.dropWhile jsTrimWs with
  | [] => Json.num "NaN"
  | '-' :: rest =>
    (match rest.takeWhile isDigitCh with
     | [] => Json.num "NaN"
     | ds => Json.num (intLex (-(Int.ofNat (digitsVal ds)))))
  | '+' :: rest =>
    (match rest.takeWhile isDigitCh with
     | [] => Json.num "NaN"
     | ds => Json.num (intLex (Int.ofNat (digitsVal ds))))
  | cs =>
    (match cs.takeWhile isDigitCh with
     | [] => Json.num "NaN"
     | ds => Json.num (intLex (Int.ofNat (digitsVal ds))))

def parseIntJs (v : Json) : Json := parseIntStr (jsToString v)

/-- `String(tc.category || "").toLowerCase()` — throws on a null
element (`tc.category` is a plain property access). -/
def tcCategoryStr (tc : Json) : Except Unit String :=
  match jsField tc "category" with
  | .error _ => .error ()
  | .ok c => .ok (strLower (jsToString (jsOrOpt c (Json.str ""))))

/-- `rawList.filter((tc) => String(tc.category || "").toLowerCase() !==
"invalid")`. -/
def filterNonInvalid : List Json → Except Unit (List Json)
  | [] => .ok []
  | tc :: tl =>
    match tcCategoryStr tc with
    | .error _ => .error ()
    | .ok c =>
      match filterNonInvalid tl with
      | .error _ => .error ()
      | .ok rest => .ok (if c = "invalid" then rest else tc :: rest)

def jsToStringU : Option Json → String
  | none => "undefined"
  | some v => jsToString v

/-- The duplicate signature
`${tc.category}::${String(tc.description || '').slice(0,120)}`. -/
def sigOf (tc : Json) : Except Unit String :=
  match jsField tc "category" with
  | .error _ => .error ()
  | .ok cat =>
    match jsField tc "description" with
    | .error _ => .error ()
    | .ok desc =>
      .ok (jsToStringU cat ++ "::" ++
        ⟨(jsToString (jsOrOpt desc (Json.str ""))).data.take 120⟩)

def sigsOf : List Json → Except Unit (List String)
  | [] => .ok []
  | tc :: tl =>
    match sigOf tc with
    | .error _ => .error ()
    | .ok s =>
      match sigsOf tl with
      | .error _ => .error ()
      | .ok rest => .ok (s :: rest)

/-- The refill loop over the non-invalid fallback pool (duplicate
signatures skipped, stop at `need` extras). -/
def refillLoop (need : Nat) : List Json → List String → List Json →
    Except Unit (List Json)
  | [], _, extras => .ok extras
  | cand :: tl, sigs, extras =>
    if need ≤ extras.length then .ok extras
    else
      match sigOf cand with
      | .error _ => .error ()
      | .ok sig =>
        if sig ∈ sigs then refillLoop need tl sigs extras
        else refillLoop need tl (sigs ++ [sig]) (extras ++ [cand])

/-- One minimal valid placeholder (index `i` is the 0-based position it
is pushed at). -/
def placeholder (spec : GenSpec) (i : Nat) : Json :=
  Json.obj [("id", Json.str ("TC_PLACEHOLDER_" ++ natStr (i + 1))),
    ("category", Json.str "valid"),
    ("description", Json.str ("Auto placeholder " ++ natStr (i + 1))),
    ("request", Json.obj [("method", Json.str (genMethod spec)),
      ("endpoint", Json.str (genEndpoint spec)),
      ("headers", Json.obj (normalizeHeaders (Json.obj (objAssign
        (headersList spec) [("Content-Type", Json.str "application/json")])))),
      ("body", jsNullish spec.body (Json.obj [("sample", Json.bool true)]))]),
    ("expected_response", Json.obj [("status", fbSuccessStatus spec)])]

/-- Pad with placeholders up to twelve entries. -/
def padTo12 (spec : GenSpec) (l : List Json) : List Json :=
  l ++ (List.range' l.length (12 - l.length)).map (placeholder spec)

/-- `.toUpperCase()` — a TypeError on a non-string receiver. -/
def toUpperJs : Json → Except Unit String
  | Json.str s => .ok (strUpper s)
  | _ => .error ()

/-- The element sanitizer of the final
`rawList.slice(0, 12).map((tc, i) => (...))`. -/
def sanitizeTC (spec : GenSpec) (i : Nat) (tc : Json) : Except Unit Json :=
  match jsField tc "category" with
  | .error _ => .error ()
  | .ok cat =>
    match jsField tc "description" with
    | .error _ => .error ()
    | .ok desc =>
      match toUpperJs (jsOrOpt
          (jsFieldOpt (jsFieldOpt (some tc) "request") "method")
          (jsOrOpt (spec.method.map Json.str) (Json.str "GET"))) with
      | .error _ => .error ()
      | .ok m =>
        .ok (Json.obj [("id", Json.str ("TC_" ++ pad3 (i + 1))),
          ("category", jsOrOpt cat (Json.str "valid")),
          ("description",
            jsOrOpt desc (Json.str ("Auto-generated " ++ natStr (i + 1)))),
          ("request", Json.obj [("method", Json.str m),
            ("endpoint", jsOrOpt
              (jsFieldOpt (jsFieldOpt (some tc) "request") "endpoint")
              (jsOrOpt (spec.endpoint.map Json.str) (Json.str "/"))),
            ("headers", Json.obj (normalizeHeaders
              ((jsFieldOpt (jsFieldOpt (some tc) "request") "headers").getD
                Json.null))),
            ("body", jsNullish
              (jsFieldOpt (jsFieldOpt (some tc) "request") "body")
              (jsNullish spec.body Json.null))]),
          ("expected_response", Json.obj [("status", parseIntJs (jsOrOpt
            (jsFieldOpt (jsFieldOpt (some tc) "expected_response") "status")
            (jsOrOpt spec.expStatus (Json.num (intLex
              (if genMethod spec = "POST" then 201 else 200))))))])])

def sanitizeList (spec : GenSpec) : Nat → List Json → Except Unit (List Json)
  | _, [] => .ok []
  | i, tc :: tl =>
    match sanitizeTC spec i tc with
    | .error _ => .error ()
    | .ok s =>
      match sanitizeList spec (i + 1) tl with
      | .error _ => .error ()
      | .ok rest => .ok (s :: rest)

/-- The under-12 refill from the non-invalid fallback pool. -/
def refillPhase (spec : GenSpec) (detected : Json) (filtered : List Json) :
    Except Unit (List Json) :=
  if filtered.length < 12 then
    (match filterNonInvalid (fbCases spec detected) with
     | .error _ => .error ()
     | .ok pool =>
       match sigsOf filtered with
       | .error _ => .error ()
       | .ok sigs =>
         match refillLoop (12 - filtered.length) pool sigs [] with
         | .error _ => .error ()
         | .ok extras => .ok (filtered ++ extras))
  else .ok filtered

/-- Category filter, refill from the non-invalid fallback pool, padding,
`slice(0, 12)` and the sanitizing map — the post-processing every
successful generation goes through. -/
def genAttempt (spec : GenSpec) (detected : Json) (rawList : List Json) :
    Except Unit (List Json) :=
  match filterNonInvalid rawList with
  | .error _ => .error ()
  | .ok filtered =>
    match refillPhase spec detected filtered with
    | .error _ => .error ()
    | .ok refilled => sanitizeList spec 0 ((padTo12 spec refilled).take 12)

/-- `t.category === "valid"` etc. of the summary counts. -/
def catIs (t : Json) (c : String) : Bool :=
  match jsFieldOpt (some t) "category" with
  | some (Json.str s) => s = c
  | _ => false

def mkSummary (l : List Json) : GenSummary :=
  GenSummary.mk l.length
    (l.filter (fun t => catIs t "valid")).length
    (l.filter (fun t => catIs t "invalid")).length
    (l.filter (fun t => catIs t "boundary")).length
    (l.filter (fun t => catIs t "security")).length

/-- The optional `autoDetectOverridesAndAuth` phase: on success the spec
gains `Object.assign(\x7b\x7d, spec.overrides || \x7b\x7d, inferred)` as
overrides; a thrown error is only logged.  Gives the updated spec and
`(probeResults, inferred, detected)`. -/
def probePhase (spec : GenSpec) (g : GenOracles) :
    GenSpec × Json × Json × Json :=
  if spec.autoProbe then
    match g.autoDetect with
    | .ok pid =>
      ({spec with overrides := some (Json.obj (objAssign
          (objFields (jsOrOpt spec.overrides (Json.obj [])))
          (objFields (jsOr pid.2.1 (Json.obj [])))))},
        jsOr pid.1 (Json.obj []), jsOr pid.2.1 (Json.obj []),
        jsOr pid.2.2 (Json.obj []))
    | .error _ => (spec, Json.obj [], Json.obj [], Json.obj [])
  else (spec, Json.obj [], Json.obj [], Json.obj [])

/-- `extracted ? safeParse(extracted) : null`, the
array/`testCases`/`data` coercion, the empty-list fallback and the
under-12 refill from the fallback generator — the raw list before the
probe-driven adjustments. -/
def coerceArr (parsed : Option Json) : List Json :=
  match parsed with
  | some (Json.arr l) => l
  | some (Json.obj kvs) =>
    (match lookupField kvs "testCases" with
     | some (Json.arr l) => l
     | _ =>
       match lookupField kvs "data" with
       | some (Json.arr l) => l
       | _ => [])
  | _ => []

/-- `rawList.length === 0` fallback and the under-12 concat. -/
def rawListPad (spec : GenSpec) (detected : Json) (raw0 : List Json) :
    List Json :=
  if raw0.length = 0 then fbCases spec detected
  else if raw0.length < 12 then
    raw0 ++ (fbCases spec detected).take (12 - raw0.length)
  else raw0

def rawListPre (spec : GenSpec) (detected : Json) (text : String) :
    List Json :=
  rawListPad spec detected
    (match extractJson text with
     | none => []
     | some ex => if ex = "" then [] else coerceArr (safeParse ex))

/-- Body of the big try block: model call, extraction, raw-list
assembly, optional probe-driven adjustment, then the post-processing;
any throw inside lands in the catch (fallback) path. -/
def tryPhase (spec : GenSpec) (detected : Json) (g : GenOracles) :
    Except Unit (List Json) :=
  match g.modelText with
  | .error _ => .error ()
  | .ok text =>
    match (if spec.autoProbe then g.adjust (rawListPre spec detected text)
      else .ok (rawListPre spec detected text) :
        Except Unit (List Json)) with
    | .error _ => .error ()
    | .ok raw => genAttempt spec detected raw

/-- `res.data` of a successful generation. -/
def genDataOf (spec : GenSpec) (g : GenOracles)
    (pr inf det : Json) (sanitized : List Json) : GenData :=
  GenData.mk sanitized (mkSummary sanitized)
    (if spec.autoProbe then some (g.scrub pr) else none)
    (if spec.autoProbe then some inf else none)
    (if spec.autoProbe then
        (if fieldTruthy det "validHeaderName" then
          some (Json.obj [("validHeaderName", fieldVal det "validHeaderName"),
            ("validHeaderValue", Json.str "[REDACTED]")])
         else none)
      else none)

/-- `safeToCache`: the data with `probeResults` and `detected` scrubbed
once more. -/
def safeToCache (g : GenOracles) (d : GenData) : GenData :=
  { d with probeResults := d.probeResults.map g.scrub,
           detected := d.detected.map g.scrub }

/-- `generateTestCases` of nvidia.service.js over the cache state, the
current clock and the external collaborators.  Returns the resolved
value, the cache after the call and the external calls made (probe
composite and/or model call). -/
def generateTestCases (spec : GenSpec) (cache : GenCache) (now : Nat)
    (g : GenOracles) : GenResult × GenCache × List GenEffect :=
  match cacheGet cache now (cacheKey spec) with
  | some d => (GenResult.mk d true none, cache, [])
  | none =>
    match probePhase spec g with
    | (spec', pr, inf, det) =>
      match tryPhase spec' det g with
      | .ok sanitized =>
        (GenResult.mk (genDataOf spec' g pr inf det sanitized) false none,
         cacheSet cache now (cacheKey spec)
           (safeToCache g (genDataOf spec' g pr inf det sanitized)),
         (if spec.autoProbe then [GenEffect.probe] else []) ++
           [GenEffect.modelCall])
      | .error _ =>
        (GenResult.mk (GenData.mk (fbCases spec' det)
            (mkSummary (fbCases spec' det)) none none none) false
           (some "Returned fallback due to generation error"),
         cache,
         (if spec.autoProbe then [GenEffect.probe] else []) ++
           [GenEffect.modelCall])

theorem filterNonInvalid_mem :
    ∀ (l : List Json), ∀ out, filterNonInvalid l = .ok out →
      ∀ t ∈ out, ¬ tcCategoryStr t = .ok "invalid" := by
  intro l
  induction l with
  | nil =>
    intro out h t ht
    have h' : Except.ok (ε := Unit) ([] : List Json) = .ok out := h
    injection h' with h2
    subst h2
    exact absurd ht (by simp)
  | cons tc tl ih =>
    intro out h t ht
    cases hc : tcCategoryStr tc with
    | error e =>
      simp only [filterNonInvalid, hc] at h
      exact Except.noConfusion h
    | ok c =>
      cases hr : filterNonInvalid tl with
      | error e =>
        simp only [filterNonInvalid, hc, hr] at h
        exact Except.noConfusion h
      | ok rest =>
        simp only [filterNonInvalid, hc, hr] at h
        injection h with h2
        subst h2
        by_cases hcc : c = "invalid"
        · rw [if_pos hcc] at ht
          exact ih rest hr t ht
        · rw [if_neg hcc] at ht
          rcases List.mem_cons.1 ht with rfl | hmem
          · intro heq
            rw [hc] at heq
            injection heq with h3
            exact hcc h3
          · exact ih rest hr t hmem

theorem refillLoop_mem (need : Nat) :
    ∀ (pool : List Json) (sigs : List String) (extras out : List Json),
      refillLoop need pool sigs extras = .ok out →
      ∀ t ∈ out, t ∈ extras ∨ t ∈ pool := by
  intro pool
  induction pool with
  | nil =>
    intro sigs extras out h t ht
    have h' : Except.ok (ε := Unit) extras = .ok out := h
    injection h' with h2
    subst h2
    exact Or.inl ht
  | cons cand tl ih =>
    intro sigs extras out h t ht
    by_cases hlen : need ≤ extras.length
    · simp only [refillLoop, if_pos hlen] at h
      injection h with h2
      subst h2
      exact Or.inl ht
    · simp only [refillLoop, if_neg hlen] at h
      cases hs : sigOf cand with
      | error e =>
        simp only [hs] at h
        exact Except.noConfusion h
      | ok sig =>
        simp only [hs] at h
        by_cases hmem : sig ∈ sigs
        · rw [if_pos hmem] at h
          rcases ih sigs extras out h t ht with h1 | h1
          · exact Or.inl h1
          · exact Or.inr (List.mem_cons.2 (Or.inr h1))
        · rw [if_neg hmem] at h
          rcases ih (sigs ++ [sig]) (extras ++ [cand]) out h t ht with h1 | h1
          · rcases List.mem_append.1 h1 with h2 | h2
            · exact Or.inl h2
            · simp only [List.mem_singleton] at h2
              subst h2
              exact Or.inr (by simp)
          · exact Or.inr (List.mem_cons.2 (Or.inr h1))

theorem placeholder_cat (spec : GenSpec) (i : Nat) :
    tcCategoryStr (placeholder spec i) = .ok "valid" := rfl

theorem refillPhase_mem (spec : GenSpec) (det : Json)
    (filtered refilled : List Json)
    (h : refillPhase spec det filtered = .ok refilled)
    (hfil : ∀ t ∈ filtered, ¬ tcCategoryStr t = .ok "invalid") :
    ∀ t ∈ refilled, ¬ tcCategoryStr t = .ok "invalid" := by
  intro t ht
  by_cases hlen : filtered.length < 12
  · rw [refillPhase, if_pos hlen] at h
    cases hp : filterNonInvalid (fbCases spec det) with
    | error e =>
      simp only [hp] at h
      exact Except.noConfusion h
    | ok pool =>
      simp only [hp] at h
      cases hsg : sigsOf filtered with
      | error e =>
        simp only [hsg] at h
        exact Except.noConfusion h
      | ok sigs =>
        simp only [hsg] at h
        cases hrl : refillLoop (12 - filtered.length) pool sigs [] with
        | error e =>
          simp only [hrl] at h
          exact Except.noConfusion h
        | ok extras =>
          simp only [hrl] at h
          injection h with h2
          subst h2
          rcases List.mem_append.1 ht with h1 | h1
          · exact hfil t h1
          · rcases refillLoop_mem _ pool sigs [] extras hrl t h1 with h2 | h2
            · exact absurd h2 (by simp)
            · exact filterNonInvalid_mem (fbCases spec det) pool hp t h2
  · rw [refillPhase, if_neg hlen] at h
    injection h with h2
    subst h2
    exact hfil t ht

/-- `tc.category || "valid"` cannot lower-stringify to "invalid" when
`tc.category || ""` did not. -/
theorem cat_roundtrip (cat : Option Json)
    (h : strLower (jsToString
      (jsOr (jsOrOpt cat (Json.str "valid")) (Json.str ""))) = "invalid") :
    strLower (jsToString (jsOrOpt cat (Json.str ""))) = "invalid" := by
  cases cat with
  | none => exact absurd h (by decide)
  | some cv =>
    by_cases htr : jsTruthy cv = true
    · have e1 : jsOr cv (Json.str "valid") = cv := by
        unfold jsOr
        rw [if_pos htr]
      have e2 : jsOr cv (Json.str "") = cv := by
        unfold jsOr
        rw [if_pos htr]
      show strLower (jsToString (jsOr cv (Json.str ""))) = "invalid"
      rw [e2]
      rw [show jsOrOpt (some cv) (Json.str "valid") =
        jsOr cv (Json.str "valid") from rfl, e1, e2] at h
      exact h
    · have hfalse : jsTruthy cv = false := by
        revert htr
        cases jsTruthy cv <;> simp
      have e1 : jsOr cv (Json.str "valid") = Json.str "valid" := by
        unfold jsOr
        rw [hfalse]
        rfl
      rw [show jsOrOpt (some cv) (Json.str "valid") =
        jsOr cv (Json.str "valid") from rfl, e1] at h
      exact absurd h (by decide)

theorem sanitizeTC_ok_shape (spec : GenSpec) (i : Nat) (tc s : Json)
    (h : sanitizeTC spec i tc = .ok s) :
    jsFieldOpt (some s) "id" = some (Json.str ("TC_" ++ pad3 (i + 1))) ∧
    (¬ tcCategoryStr tc = .ok "invalid" →
      ¬ tcCategoryStr s = .ok "invalid") := by
  cases hcat : jsField tc "category" with
  | error e =>
    simp only [sanitizeTC, hcat] at h
    exact Except.noConfusion h
  | ok cat =>
    cases hdesc : jsField tc "description" with
    | error e =>
      simp only [sanitizeTC, hcat, hdesc] at h
      exact Except.noConfusion h
    | ok desc =>
      cases hm : toUpperJs (jsOrOpt
          (jsFieldOpt (jsFieldOpt (some tc) "request") "method")
          (jsOrOpt (spec.method.map Json.str) (Json.str "GET"))) with
      | error e =>
        simp only [sanitizeTC, hcat, hdesc, hm] at h
        exact Except.noConfusion h
      | ok m =>
        simp only [sanitizeTC, hcat, hdesc, hm] at h
        injection h with h2
        subst h2
        constructor
        · rfl
        · intro hninv heq
          have heq2 : Except.ok (ε := Unit) (strLower (jsToString
              (jsOr (jsOrOpt cat (Json.str "valid")) (Json.str "")))) =
              .ok "invalid" := heq
          injection heq2 with hstr
          apply hninv
          have htc : tcCategoryStr tc =
              .ok (strLower (jsToString (jsOrOpt cat (Json.str "")))) := by
            simp only [tcCategoryStr, hcat]
          rw [htc]
          exact congrArg Except.ok (cat_roundtrip cat hstr)

theorem sanitizeList_spec (spec : GenSpec) :
    ∀ (l : List Json) (i : Nat) (out : List Json),
      sanitizeList spec i l = .ok out →
      out.length = l.length ∧
      out.map (fun t => jsFieldOpt (some t) "id") =
        (List.range' i l.length).map
          (fun k => some (Json.str ("TC_" ++ pad3 (k + 1)))) ∧
      ((∀ t ∈ l, ¬ tcCategoryStr t = .ok "invalid") →
        ∀ s ∈ out, ¬ tcCategoryStr s = .ok "invalid") := by
  intro l
  induction l with
  | nil =>
    intro i out h
    have h' : Except.ok (ε := Unit) ([] : List Json) = .ok out := h
    injection h' with h2
    subst h2
    exact ⟨rfl, rfl, fun _ s hs => absurd hs (by simp)⟩
  | cons tc tl ih =>
    intro i out h
    cases hs1 : sanitizeTC spec i tc with
    | error e =>
      simp only [sanitizeList, hs1] at h
      exact Except.noConfusion h
    | ok s =>
      cases hs2 : sanitizeList spec (i + 1) tl with
      | error e =>
        simp only [sanitizeList, hs1, hs2] at h
        exact Except.noConfusion h
      | ok rest =>
        simp only [sanitizeList, hs1, hs2] at h
        injection h with h2
        subst h2
        obtain ⟨hlen, hids, hcats⟩ := ih (i + 1) rest hs2
        obtain ⟨hid, hcat⟩ := sanitizeTC_ok_shape spec i tc s hs1
        refine ⟨by simp [hlen], ?_, ?_⟩
        · simp only [List.map_cons]
          rw [hid, hids]
          rfl
        · intro hall s' hs'
          rcases List.mem_cons.1 hs' with rfl | hmem
          · exact hcat (hall tc (by simp))
          · exact hcats (fun t ht => hall t (by simp [ht])) s' hmem

theorem padTo12_len (spec : GenSpec) (l : List Json) :
    12 ≤ (padTo12 spec l).length := by
  rw [padTo12, List.length_append, List.length_map, List.length_range']
  omega

theorem padTo12_mem (spec : GenSpec) (l : List Json) :
    ∀ t ∈ padTo12 spec l, t ∈ l ∨ ∃ i, t = placeholder spec i := by
  intro t ht
  rcases List.mem_append.1 ht with h1 | h1
  · exact Or.inl h1
  · rcases List.mem_map.1 h1 with ⟨i, _, rfl⟩
    exact Or.inr ⟨i, rfl⟩

theorem genAttempt_shape (spec : GenSpec) (det : Json)
    (rawList out : List Json) (h : genAttempt spec det rawList = .ok out) :
    out.length = 12 ∧
    out.map (fun t => jsFieldOpt (some t) "id") =
      (List.range 12).map (fun i => some (Json.str ("TC_" ++ pad3 (i + 1)))) ∧
    ∀ s ∈ out, ¬ tcCategoryStr s = .ok "invalid" := by
  cases hf : filterNonInvalid rawList with
  | error e =>
    simp only [genAttempt, hf] at h
    exact Except.noConfusion h
  | ok filtered =>
    simp only [genAttempt, hf] at h
    cases hr : refillPhase spec det filtered with
    | error e =>
      simp only [hr] at h
      exact Except.noConfusion h
    | ok refilled =>
      simp only [hr] at h
      have h12 : ((padTo12 spec refilled).take 12).length = 12 := by
        rw [List.length_take]
        have := padTo12_len spec refilled
        omega
      obtain ⟨hlen, hids, hcats⟩ := sanitizeList_spec spec _ 0 out h
      refine ⟨hlen.trans h12, ?_, ?_⟩
      · rw [hids, h12, List.range_eq_range']
      · apply hcats
        intro t ht
        have hmem := List.take_subset 12 (padTo12 spec refilled) ht
        rcases padTo12_mem spec refilled t hmem with h1 | ⟨i, rfl⟩
        · exact refillPhase_mem spec det filtered refilled hr
            (filterNonInvalid_mem rawList filtered hf) t h1
        · rw [placeholder_cat]
          simp

theorem fbCases_len (spec : GenSpec) (det : Json) :
    (fbCases spec det).length = 12 := rfl

theorem fbCases_ids (spec : GenSpec) (det : Json) :
    (fbCases spec det).map (fun t => jsFieldOpt (some t) "id") =
      (List.range 12).map
        (fun i => some (Json.str ("TC_" ++ pad3 (i + 1)))) := rfl

theorem tryPhase_ok (spec : GenSpec) (det : Json) (g : GenOracles)
    (out : List Json) (h : tryPhase spec det g = .ok out) :
    ∃ raw, genAttempt spec det raw = .ok out := by
  cases hm : g.modelText with
  | error e =>
    simp only [tryPhase, hm] at h
    exact Except.noConfusion h
  | ok text =>
    simp only [tryPhase, hm] at h
    by_cases hap : spec.autoProbe = true
    · rw [if_pos hap] at h
      cases ha : g.adjust (rawListPre spec det text) with
      | error e =>
        rw [ha] at h
        exact Except.noConfusion h
      | ok raw =>
        rw [ha] at h
        exact ⟨raw, h⟩
    · rw [if_neg hap] at h
      exact ⟨rawListPre spec det text, h⟩

def specC1 : GenSpec :=
  GenSpec.mk (some "GET") (some "/users") none none none none none
    false none none none

/-- Collaborators where the model call throws (probe unused). -/
def gFail : GenOracles :=
  GenOracles.mk (.error ()) (.error ()) (fun l => .ok l) id

/-- C1 counterexample: when the model call throws, the fallback list is
returned unfiltered — its second test case has category "invalid" — so
the claimed absence of invalid categories fails on the fallback path. -/
theorem c1_fallback_invalid_counterexample :
    ((generateTestCases specC1 [] 0 gFail).1.note =
      some "Returned fallback due to generation error") ∧
    (((generateTestCases specC1 [] 0 gFail).1.data.testCases.map
        (fun t => jsFieldOpt (some t) "category"))[1]? =
      some (some (Json.str "invalid"))) := ⟨rfl, rfl⟩

/-- C1 (amended): on every cache miss the returned list has exactly 12
test cases with ids forced to TC_001 through TC_012 in order on BOTH
paths; the guarantee that no case has category "invalid"
(case-insensitively, after JS string coercion) holds exactly on the
non-fallback path (note absent) — the fallback path returns the
unfiltered fallback set, which contains invalid-category cases. -/
theorem c1_generate_twelve (spec : GenSpec) (cache : GenCache) (now : Nat)
    (g : GenOracles)
    (hmiss : cacheGet cache now (cacheKey spec) = none) :
    ((generateTestCases spec cache now g).1.data.testCases.length = 12) ∧
    ((generateTestCases spec cache now g).1.data.testCases.map
        (fun t => jsFieldOpt (some t) "id") =
      (List.range 12).map
        (fun i => some (Json.str ("TC_" ++ pad3 (i + 1))))) ∧
    ((generateTestCases spec cache now g).1.note = none →
      ∀ t ∈ (generateTestCases spec cache now g).1.data.testCases,
        ¬ tcCategoryStr t = .ok "invalid") := by
  rcases hpp : probePhase spec g with ⟨spec', pr, inf, det⟩
  cases ht : tryPhase spec' det g with
  | ok sanitized =>
    have hg : generateTestCases spec cache now g =
        (GenResult.mk (genDataOf spec' g pr inf det sanitized) false none,
         cacheSet cache now (cacheKey spec)
           (safeToCache g (genDataOf spec' g pr inf det sanitized)),
         (if spec.autoProbe then [GenEffect.probe] else []) ++
           [GenEffect.modelCall]) := by
      simp only [generateTestCases, hmiss, hpp, ht]
    rw [hg]
    obtain ⟨raw, hraw⟩ := tryPhase_ok spec' det g sanitized ht
    obtain ⟨l12, ids, cats⟩ := genAttempt_shape spec' det raw sanitized hraw
    exact ⟨l12, ids, fun _ => cats⟩
  | error e =>
    have hg : generateTestCases spec cache now g =
        (GenResult.mk (GenData.mk (fbCases spec' det)
            (mkSummary (fbCases spec' det)) none none none) false
           (some "Returned fallback due to generation error"),
         cache,
         (if spec.autoProbe then [GenEffect.probe] else []) ++
           [GenEffect.modelCall]) := by
      simp only [generateTestCases, hmiss, hpp, ht]
    rw [hg]
    refine ⟨fbCases_len spec' det, fbCases_ids spec' det, ?_⟩
    intro hnone
    exact absurd hnone (by simp)

/-- C1 witness: an empty cache, with the model throwing — still 12
sequential ids. -/
theorem c1_generate_twelve_witness :
    (cacheGet [] 0 (cacheKey specC1) = none) ∧
    ((generateTestCases specC1 [] 0 gFail).1.data.testCases.length = 12) ∧
    ((generateTestCases specC1 [] 0 gFail).1.data.testCases.map
        (fun t => jsFieldOpt (some t) "id") =
      (List.range 12).map
        (fun i => some (Json.str ("TC_" ++ pad3 (i + 1))))) := by
  have h := c1_generate_twelve specC1 [] 0 gFail rfl
  exact ⟨rfl, h.1, h.2.1⟩

/-- C4: a generation result stored under the same
(method, endpoint, headers) key within the 300 000 ms TTL is returned
verbatim, tagged `cached: true`, with no probe request and no model
call (the effect list is empty) and the cache unchanged — for every
spec, including one with `autoProbe` set. -/
theorem c4_cache_hit (spec : GenSpec) (cache : GenCache) (now : Nat)
    (g : GenOracles) (kv : String × CacheEntry)
    (hfind : cache.find? (fun e => e.1 = cacheKey spec) = some kv)
    (httl : now ≤ kv.2.storedAt + 300000) :
    generateTestCases spec cache now g =
      (GenResult.mk kv.2.data true none, cache, []) := by
  have hget : cacheGet cache now (cacheKey spec) = some kv.2.data := by
    unfold cacheGet
    rw [hfind]
    show (if now ≤ kv.2.storedAt + 300000 then some kv.2.data else none) = _
    rw [if_pos httl]
  simp only [generateTestCases, hget]

def dC4 : GenData := GenData.mk [] (GenSummary.mk 0 0 0 0 0) none none none

def specC4 : GenSpec :=
  GenSpec.mk (some "GET") (some "/users") none none none none none
    true none none none

def gC4 : GenOracles :=
  GenOracles.mk (.ok (Json.obj [], Json.obj [], Json.obj []))
    (.ok "[]") (fun l => .ok l) id

/-- C4 witness: an entry stored at 1000 ms, read at 200 000 ms, with
`autoProbe` requested. -/
theorem c4_cache_hit_witness :
    (generateTestCases specC4
        [(cacheKey specC4, CacheEntry.mk 1000 dC4)] 200000 gC4 =
      (GenResult.mk dC4 true none,
       [(cacheKey specC4, CacheEntry.mk 1000 dC4)], [])) ∧
    specC4.autoProbe = true := by
  refine ⟨c4_cache_hit specC4 [(cacheKey specC4, CacheEntry.mk 1000 dC4)]
    200000 gC4 (cacheKey specC4, CacheEntry.mk 1000 dC4) ?_ ?_, rfl⟩
  · rfl
  · show (200000 : Nat) ≤ 1000 + 300000
    decide
